import Mathlib

/-!
# Multi-server queueing simulation: embedding of `src/src/simulation.cpp`

The simulation engine is embedded as pure functions on an explicit state.

* Simulated time (`double` in the source) is a value of a type `T` with a linear
  order, an addition and a zero. The engine and the results that do not depend
  on the laws of addition are stated for every such `T`, the type `Binary64` of
  `double`s with rounded addition included; the results that need these laws
  are stated for a linearly ordered commutative ring (exact arithmetic, as in
  `ℤ`, `ℚ` and `ℝ`).
* The two random generators are streams `Nat → T`; the state counts how many
  samples each generator has handed out.
* `std::priority_queue<Event>` is a list of pending events; which event `top()`
  returns is chosen by the index given to `dispatch`, so every tie-break (and
  every comparator) is covered; `minPick` says that the chosen event has the
  least `invoke_time`, and `Run` is the loop with one such choice built in.
* The process-wide counter `Customer::GetTotalCustomers()` is the field
  `total_customers` of the state.
* Fields whose name starts with `ghost_` are not in the source: they only
  record what the engine looked like when a record was written.
-/

namespace QS

set_option linter.unusedSectionVars false
set_option linter.unusedVariables false

/-! ## Entities -/

/-- Kind of a scheduled event (`EventType` of `event.h`). -/
inductive EventType where
  | ARRIVAL
  | DEPARTURE
deriving DecidableEq, Repr

/-- Status of a server (`ServerStatus` of `server.h`). -/
inductive ServerStatus where
  | IDLE
  | BUSY
deriving DecidableEq, Repr

/-- Modelled from the spec: class `Customer` (`customer.h` is not among the
sources). A customer has a serial, an arrival time, a service start time and a
departure time (both unset until they happen) and the index of the server it
was assigned to (`-1`, the sentinel the source uses for "no server", until
then). -/
structure Customer (T : Type) where
  serial : Nat
  arrival_time : T
  service_start_time : Option T
  departure_time : Option T
  server : Int
deriving DecidableEq, Repr

/-- Modelled from the spec: the constructor `Customer(clock)`. Construction
increments the process-wide counter of customers; the serial is the new value
of that counter (the first customer is customer 1). The argument `total` is the
value of the counter before the construction. -/
def Customer.create {T : Type} (clock : T) (total : Nat) : Customer T :=
  { serial := total + 1, arrival_time := clock, service_start_time := none,
    departure_time := none, server := -1 }

/-- Modelled from the spec: the customer held by a server that has never been
assigned one (`Server()`); it is never read on a reachable state. -/
def Customer.blank {T : Type} [Zero T] : Customer T :=
  { serial := 0, arrival_time := 0, service_start_time := none,
    departure_time := none, server := -1 }

/-- Modelled from the spec: class `Server` (`server.h` is not among the
sources): a status and the customer last put on the server. The source reads
the current customer after it has set the status to Idle, so the customer
stays in place when the status changes. -/
structure Server (T : Type) where
  status : ServerStatus
  current_customer : Customer T
deriving DecidableEq, Repr

/-- Modelled from the spec: the constructor `Server()`, an Idle server. -/
def Server.new {T : Type} [Zero T] : Server T :=
  { status := ServerStatus.IDLE, current_customer := Customer.blank }

instance {T : Type} [Zero T] : Inhabited (Server T) := ⟨Server.new⟩

/-- Setter `Server::SetServerStatus`. -/
def Server.SetServerStatus {T : Type} (st : ServerStatus) (sv : Server T) : Server T :=
  { sv with status := st }

/-- Setter `Server::SetCurrentCustomer`. -/
def Server.SetCurrentCustomer {T : Type} (c : Customer T) (sv : Server T) : Server T :=
  { sv with current_customer := c }

/-- Modelled from the spec: class `Event` (`event.h` is not among the sources):
a type, the simulated time at which it fires and, for a Departure, the server
it frees. `target_server` of an Arrival is never read. -/
structure Event (T : Type) where
  type : EventType
  invoke_time : T
  target_server : Nat
deriving DecidableEq, Repr

/-- One line of the event log (`event_record.h`). -/
structure EventRecord (T : Type) where
  event_type : String
  current_simulation_time : T
  customer_serial : Nat
  current_queue_size : List Nat
  server_index : Int
deriving DecidableEq, Repr

/-- Modelled from the spec: the log sink (`simulation_log.h` is not among the
sources): two append-only sequences. -/
structure SimulationLog (T : Type) where
  event_records : List (EventRecord T)
  customer_records : List (Customer T)
deriving DecidableEq, Repr

/-- Append operation `SimulationLog::CreateEventRecord`. -/
def SimulationLog.CreateEventRecord {T : Type} (log : SimulationLog T) (kind : String)
    (time : T) (serial : Nat) (sizes : List Nat) (server_index : Int) : SimulationLog T :=
  { log with event_records := log.event_records ++
      [{ event_type := kind, current_simulation_time := time, customer_serial := serial,
         current_queue_size := sizes, server_index := server_index }] }

/-- Append operation `SimulationLog::CreateCustomerRecord`. -/
def SimulationLog.CreateCustomerRecord {T : Type} (log : SimulationLog T)
    (c : Customer T) : SimulationLog T :=
  { log with customer_records := log.customer_records ++ [c] }

/-- What the engine looked like when an event record was written (not in the
source): the record, the number of Busy servers, the number of customers
created so far and the number of Departure events dispatched so far. -/
structure Observation (T : Type) where
  record : EventRecord T
  busy_servers : Nat
  customers_created : Nat
  departures_dispatched : Nat
deriving DecidableEq, Repr

/-! ## The engine state -/

/-- The members of class `Simulation`, the static customer counter and the
positions of the two sample streams. -/
structure Simulation (T : Type) where
  number_of_servers : Nat
  number_of_customers : Nat
  clock : T
  servers : List (Server T)
  service_queues : List (List (Customer T))
  event_queue : List (Event T)
  simulation_log : SimulationLog T
  total_customers : Nat
  inter_arrival_draws : Nat
  service_draws : Nat
  ghost_departures_dispatched : Nat
  ghost_observations : List (Observation T)
deriving DecidableEq, Repr

section

variable {T : Type} [LinearOrder T] [Add T] [Zero T]

/-- Constructor `Simulation::Simulation`: no server, no queue, no event yet; the
customer counter is zero when the run starts. -/
def Simulation.new (number_of_servers number_of_customers : Nat) : Simulation T :=
  { number_of_servers := number_of_servers
    number_of_customers := number_of_customers
    clock := 0
    servers := []
    service_queues := []
    event_queue := []
    simulation_log := { event_records := [], customer_records := [] }
    total_customers := 0
    inter_arrival_draws := 0
    service_draws := 0
    ghost_departures_dispatched := 0
    ghost_observations := [] }

/-- Number of servers whose status is Busy. -/
def busyCount (servers : List (Server T)) : Nat :=
  servers.countP (fun sv => sv.status = ServerStatus.BUSY)

/-- The sizes of the wait queues, in slot order (the loop at the head of each of
the three log functions). -/
def queueSizes (s : Simulation T) : List Nat :=
  s.service_queues.map List.length

/-- Write one event record, and note the state of the engine next to it. -/
def Simulation.logEvent (s : Simulation T) (kind : String) (serial : Nat) (sizes : List Nat)
    (server_index : Int) : Simulation T :=
  { s with
    simulation_log := s.simulation_log.CreateEventRecord kind s.clock serial sizes server_index
    ghost_observations := s.ghost_observations ++
      [{ record := { event_type := kind, current_simulation_time := s.clock,
                     customer_serial := serial, current_queue_size := sizes,
                     server_index := server_index }
         busy_servers := busyCount s.servers
         customers_created := s.total_customers
         departures_dispatched := s.ghost_departures_dispatched }] }

/-- Push on the event queue. -/
def Simulation.pushEvent (s : Simulation T) (e : Event T) : Simulation T :=
  { s with event_queue := s.event_queue ++ [e] }

/-! ## Assignment policy -/

/-- The loop of `GetAvailableServerIndex`: `n` slots remain, the next one is `i`. -/
def GetAvailableServerIndex.scan (servers : List (Server T)) : Nat → Nat → Int
  | 0, _ => -1
  | n + 1, i =>
    match servers[i]? with
    | some sv => if sv.status = ServerStatus.IDLE then (i : Int)
                 else GetAvailableServerIndex.scan servers n (i + 1)
    | none => GetAvailableServerIndex.scan servers n (i + 1)

/-- Function `Simulation::GetAvailableServerIndex`: the first Idle server among
the slots `0 .. number_of_servers - 1`, or `-1`. -/
def GetAvailableServerIndex (s : Simulation T) : Int :=
  GetAvailableServerIndex.scan s.servers s.number_of_servers 0

/-- The loop of `GetSmallestQueue` over the queues from slot `i` on, with the
running `minIdx` and `min`. -/
def GetSmallestQueue.scan : List (List (Customer T)) → Nat → Nat → Nat → Nat
  | [], _, minIdx, _ => minIdx
  | q :: rest, i, minIdx, min =>
    if q.length = 0 then i
    else if q.length < min then GetSmallestQueue.scan rest (i + 1) i q.length
    else GetSmallestQueue.scan rest (i + 1) minIdx min

/-- Function `Simulation::GetSmallestQueue`: `minIdx` and `min` both start at 0. -/
def GetSmallestQueue (s : Simulation T) : Nat :=
  GetSmallestQueue.scan s.service_queues 0 0 0

/-! ## Log functions -/

/-- Function `Simulation::CreateArrivalLog`. -/
def CreateArrivalLog (s : Simulation T) (customer : Customer T) : Simulation T :=
  s.logEvent "Arrival" customer.serial (queueSizes s) (-1)

/-- Function `Simulation::CreateServiceLog`. -/
def CreateServiceLog (s : Simulation T) (server_index : Nat) : Simulation T :=
  let currently_served_customer := (s.servers.getD server_index default).current_customer
  s.logEvent "Service" currently_served_customer.serial (queueSizes s)
    currently_served_customer.server

/-- Function `Simulation::CreateDepartureLog`: the departure time is set on the
local copy that is then persisted. -/
def CreateDepartureLog (s : Simulation T) (server_index : Nat) : Simulation T :=
  let currently_served_customer := (s.servers.getD server_index default).current_customer
  let s1 := s.logEvent "Departure" currently_served_customer.serial (queueSizes s)
    currently_served_customer.server
  let persisted := { currently_served_customer with departure_time := some s.clock }
  { s1 with simulation_log := s1.simulation_log.CreateCustomerRecord persisted }

/-! ## Handlers -/

/-- Put `customer` on server `i`, mark the server Busy, schedule the end of
service and write the Service record (the four statements shared by
`HandleArrival` and the refill of `HandleDeparture`). -/
def startService (sv : Nat → T) (s : Simulation T) (customer : Customer T) (i : Nat) :
    Simulation T :=
  let s1 := { s with servers := s.servers.modify (Server.SetCurrentCustomer customer) i }
  let s2 := { s1 with servers := s1.servers.modify (Server.SetServerStatus ServerStatus.BUSY) i }
  let departure_event : Event T :=
    { type := EventType.DEPARTURE, invoke_time := s2.clock + sv s2.service_draws,
      target_server := i }
  let s3 := { s2.pushEvent departure_event with service_draws := s2.service_draws + 1 }
  CreateServiceLog s3 i

/-- The statement `if (number_of_customers > Customer::GetTotalCustomers())` of
`HandleArrival` with its body: schedule the next arrival while the customer
limit is not reached. -/
def scheduleNextArrival (ia : Nat → T) (s : Simulation T) : Simulation T :=
  if s.number_of_customers > s.total_customers then
    { s.pushEvent { type := EventType.ARRIVAL,
                    invoke_time := s.clock + ia s.inter_arrival_draws,
                    target_server := 0 } with
      inter_arrival_draws := s.inter_arrival_draws + 1 }
  else s

/-- The statement `service_queues[queue_no].push(customer)`. -/
def joinQueue (s : Simulation T) (customer : Customer T) (queue_no : Nat) : Simulation T :=
  { s with service_queues := s.service_queues.modify (fun q => q ++ [customer]) queue_no }

/-- Function `Simulation::HandleArrival`. -/
def HandleArrival (ia sv : Nat → T) (s : Simulation T) : Simulation T :=
  let customer : Customer T := Customer.create s.clock s.total_customers
  let s1 := { s with total_customers := s.total_customers + 1 }
  let s2 := scheduleNextArrival ia s1
  let available_server_index := GetAvailableServerIndex s2
  if available_server_index = -1 then
    let queue_no := GetSmallestQueue s2
    let s3 := joinQueue s2 customer queue_no
    CreateArrivalLog s3 customer
  else
    let s3 := CreateArrivalLog s2 customer
    let customer1 := { customer with server := available_server_index }
    let customer2 := { customer1 with service_start_time := some s3.clock }
    startService sv s3 customer2 available_server_index.toNat

/-- The body of the loop of `HandleDeparture` for queue `i`. -/
def HandleDeparture.refill (sv : Nat → T) (target_server_index : Nat) (s : Simulation T)
    (i : Nat) : Simulation T :=
  match s.service_queues[i]? with
  | some (front :: rest) =>
    let customer1 := { front with server := (target_server_index : Int) }
    let customer2 := { customer1 with service_start_time := some s.clock }
    let s1 := { s with service_queues := s.service_queues.set i rest }
    startService sv s1 customer2 target_server_index
  | _ => s

/-- The first statement of `HandleDeparture`: the target server becomes Idle. -/
def freeServer (s : Simulation T) (target_server_index : Nat) : Simulation T :=
  { s with
    servers := s.servers.modify (Server.SetServerStatus ServerStatus.IDLE) target_server_index }

/-- Function `Simulation::HandleDeparture`. -/
def HandleDeparture (sv : Nat → T) (s : Simulation T) (target_server_index : Nat) :
    Simulation T :=
  let s1 := freeServer s target_server_index
  let s2 := CreateDepartureLog s1 target_server_index
  (List.range s2.service_queues.length).foldl (HandleDeparture.refill sv target_server_index) s2

/-! ## Initialisation and the dispatch loop -/

/-- The call `service_queues.resize(n)`. -/
def resizeQueues (qs : List (List (Customer T))) (n : Nat) : List (List (Customer T)) :=
  qs.take n ++ List.replicate (n - qs.length) []

/-- Function `Simulation::Initialize`. -/
def Initialize (ia : Nat → T) (s : Simulation T) : Simulation T :=
  let s1 := { s with clock := 0 }
  let s2 := { s1 with servers := s1.servers ++ List.replicate s1.number_of_servers Server.new }
  let arrival_event : Event T :=
    { type := EventType.ARRIVAL, invoke_time := s2.clock + ia s2.inter_arrival_draws,
      target_server := 0 }
  let s3 := { s2 with inter_arrival_draws := s2.inter_arrival_draws + 1 }
  let s4 := { s3 with service_queues := resizeQueues s3.service_queues s3.number_of_servers }
  s4.pushEvent arrival_event

/-- The statements `event_queue.pop()` and `UpdateTime(...)` of `Run`, for the
event `current_event` found at position `i` of the event queue. -/
def popEvent (s : Simulation T) (i : Nat) (current_event : Event T) : Simulation T :=
  { s with event_queue := s.event_queue.eraseIdx i, clock := current_event.invoke_time }

/-- Count one more dispatched Departure event (not in the source). -/
def noteDeparture (s : Simulation T) : Simulation T :=
  { s with ghost_departures_dispatched := s.ghost_departures_dispatched + 1 }

/-- One pass of the loop of `Run` once `top()` has returned `current_event`,
which sat at position `i` of the event queue. -/
def dispatchEvent (ia sv : Nat → T) (s : Simulation T) (i : Nat) (current_event : Event T) :
    Simulation T :=
  let s1 := popEvent s i current_event
  match current_event.type with
  | EventType.ARRIVAL => HandleArrival ia sv s1
  | EventType.DEPARTURE => HandleDeparture sv (noteDeparture s1) current_event.target_server

/-- One pass of the loop of `Run` in which `top()` returns the event at position
`i` of the event queue; `none` when there is no such event. -/
def dispatch (ia sv : Nat → T) (s : Simulation T) (i : Nat) : Option (Simulation T) :=
  match s.event_queue[i]? with
  | some current_event => some (dispatchEvent ia sv s i current_event)
  | none => none

/-- Successive passes of the loop of `Run`, the `k`-th pass popping the event at
the position given by the `k`-th element of `picks`. -/
def runPicks (ia sv : Nat → T) : Simulation T → List Nat → Option (Simulation T)
  | s, [] => some s
  | s, i :: picks =>
    match dispatch ia sv s i with
    | some s1 => runPicks ia sv s1 picks
    | none => none

/-- The event at position `i` is one that a min-first priority queue may return:
it exists and no pending event fires earlier. -/
def minPick (s : Simulation T) (i : Nat) : Bool :=
  match s.event_queue[i]? with
  | some e => s.event_queue.all (fun e1 => decide (e.invoke_time ≤ e1.invoke_time))
  | none => false

/-- Every pass of the run driven by `picks` pops an event of least `invoke_time`. -/
def minFirst (ia sv : Nat → T) : Simulation T → List Nat → Bool
  | _, [] => true
  | s, i :: picks =>
    minPick s i &&
      match dispatch ia sv s i with
      | some s1 => minFirst ia sv s1 picks
      | none => false

/-- The run driven by `picks` is one of a min-first event queue. -/
def MinFirst (ia sv : Nat → T) (s : Simulation T) (picks : List Nat) : Prop :=
  minFirst ia sv s picks = true

instance MinFirst.decidable (ia sv : Nat → T) (s : Simulation T) (picks : List Nat) :
    Decidable (MinFirst ia sv s picks) :=
  inferInstanceAs (Decidable (minFirst ia sv s picks = true))

/-- The clock values set by the successive passes of the run driven by `picks`. -/
def clockTrace (ia sv : Nat → T) : Simulation T → List Nat → List T
  | _, [] => []
  | s, i :: picks =>
    match dispatch ia sv s i with
    | some s1 => s1.clock :: clockTrace ia sv s1 picks
    | none => []

/-- Position of the first event of least `invoke_time` in a non-empty queue whose
head is `e` (at position `i`) and whose tail is the list argument; `best` at
`bestIdx` is the least seen so far. -/
def topIndex.scan : List (Event T) → Nat → Event T → Nat → Nat
  | [], _, _, bestIdx => bestIdx
  | e :: rest, i, best, bestIdx =>
    if e.invoke_time < best.invoke_time then topIndex.scan rest (i + 1) e i
    else topIndex.scan rest (i + 1) best bestIdx

/-- A deterministic `top()`: the earliest event, and among simultaneous events
the one scheduled first. -/
def topIndex (q : List (Event T)) : Nat :=
  match q with
  | [] => 0
  | e :: rest => topIndex.scan rest 1 e 0

/-- Function `Simulation::Run` with the deterministic `top()` above; `fuel`
bounds the number of passes of the loop, and `none` means it was too small. -/
def Run (ia sv : Nat → T) : Nat → Simulation T → Option (Simulation T)
  | fuel, s =>
    if s.event_queue = [] then some s
    else
      match fuel with
      | 0 => none
      | fuel + 1 =>
        match dispatch ia sv s (topIndex s.event_queue) with
        | some s1 => Run ia sv fuel s1
        | none => none

/-- The state in which `Run` is started: construction followed by `Initialize`. -/
def start (ia : Nat → T) (number_of_servers number_of_customers : Nat) : Simulation T :=
  Initialize ia (Simulation.new number_of_servers number_of_customers)

/-- States reached from `start` by complete passes of the loop of `Run`, whatever
event each pass pops. -/
inductive Reachable (ia sv : Nat → T) (n k : Nat) : Simulation T → Prop where
  | init : Reachable ia sv n k (start ia n k)
  | step (s s1 : Simulation T) (i : Nat) :
      Reachable ia sv n k s → dispatch ia sv s i = some s1 → Reachable ia sv n k s1

/-! ## Quantities the properties are stated with -/

/-- Number of pending Arrival events. -/
def arrivalsPending (s : Simulation T) : Nat :=
  s.event_queue.countP (fun e => e.type = EventType.ARRIVAL)

/-- Number of pending Departure events. -/
def departuresPending (s : Simulation T) : Nat :=
  s.event_queue.countP (fun e => e.type = EventType.DEPARTURE)

/-- Number of customers in the wait queues. -/
def waitingCount (s : Simulation T) : Nat :=
  (queueSizes s).sum

/-- Number of event records of the given kind written so far. -/
def recordsOfKind (kind : String) (s : Simulation T) : Nat :=
  s.simulation_log.event_records.countP (fun r => r.event_type = kind)

/-- The snapshot bound for one event record: the sizes in its snapshot plus the
number of Busy servers is at most the number of customers created minus the
number of Departure events dispatched (written without subtraction). -/
def Observation.WithinBound (o : Observation T) : Prop :=
  o.record.current_queue_size.sum + o.busy_servers + o.departures_dispatched
    ≤ o.customers_created

/-- A customer record is causal: it was served no earlier than it arrived and
left no earlier than its service started. -/
def Customer.Causal (c : Customer T) : Prop :=
  ∃ st dp, c.service_start_time = some st ∧ c.departure_time = some dp ∧
    c.arrival_time ≤ st ∧ st ≤ dp

/-- The half-open service window `[service_start_time, departure_time)` of a
customer record contains the instant `t`. -/
def Customer.covers (c : Customer T) (t : T) : Bool :=
  match c.service_start_time, c.departure_time with
  | some st, some dp => decide (st ≤ t ∧ t < dp)
  | _, _ => false

/-- Every Busy server has a pending Departure event that targets it. -/
def BusyCovered (servers : List (Server T)) (q : List (Event T)) : Prop :=
  ∀ j sv, servers[j]? = some sv → sv.status = ServerStatus.BUSY →
    ∃ e ∈ q, e.type = EventType.DEPARTURE ∧ e.target_server = j

/-- The bookkeeping of the engine for `n` servers and target `k`: the shape of
the pools, what has been written to the log, where every customer created so far
is, and how many arrivals are still to come. Inside `HandleArrival` the new
customer is for a while neither waiting nor served (`d = 1`) and its Arrival
record not yet written (`da = 1`); between two passes of the loop of `Run` both
are 0. -/
structure CountInv (d da n k : Nat) (s : Simulation T) : Prop where
  servers_n : s.number_of_servers = n
  customers_k : s.number_of_customers = k
  servers_len : s.servers.length = n
  queues_len : s.service_queues.length = n
  arrivals : recordsOfKind "Arrival" s + da = s.total_customers
  departures : recordsOfKind "Departure" s = s.ghost_departures_dispatched
  customers : s.simulation_log.customer_records.length = s.ghost_departures_dispatched
  services : recordsOfKind "Service" s = departuresPending s + s.ghost_departures_dispatched
  balance : waitingCount s + departuresPending s + s.ghost_departures_dispatched + d
    = s.total_customers
  pending : arrivalsPending s = if s.total_customers < max k 1 then 1 else 0
  bounded : s.total_customers ≤ max k 1
  covered : BusyCovered s.servers s.event_queue
  observed : ∀ o ∈ s.ghost_observations, o.WithinBound

/-- Somebody waiting implies that a Departure event is pending. -/
def Draining (s : Simulation T) : Prop :=
  0 < waitingCount s → 0 < departuresPending s

/-- The number of passes of the loop of `Run` still to come. -/
def passesLeft (k : Nat) (s : Simulation T) : Nat :=
  2 * (max k 1 - s.total_customers) + departuresPending s + waitingCount s

/-- The events popped by the successive passes of the run driven by `picks`. -/
def dispatchedEvents (ia sv : Nat → T) : Simulation T → List Nat → List (Event T)
  | _, [] => []
  | s, i :: picks =>
    match s.event_queue[i]? with
    | some e => e :: dispatchedEvents ia sv (dispatchEvent ia sv s i e) picks
    | none => []

/-- The customer has been put on a server by time `t`, no earlier than it
arrived. -/
def Customer.Served (c : Customer T) (t : T) : Prop :=
  ∃ st, c.service_start_time = some st ∧ c.arrival_time ≤ st ∧ st ≤ t

/-- How the times kept in the state relate to the clock: no pending event lies
in the past, every pending Departure event targets a server that is serving a
customer, nobody waiting has arrived in the future, and every persisted
customer record is causal. -/
structure TimeInv (s : Simulation T) : Prop where
  shape : s.servers.length = s.number_of_servers
  future : ∀ e ∈ s.event_queue, s.clock ≤ e.invoke_time
  serving : ∀ e ∈ s.event_queue, e.type = EventType.DEPARTURE →
    ∃ sv, s.servers[e.target_server]? = some sv ∧ sv.current_customer.Served s.clock
  waiting : ∀ q ∈ s.service_queues, ∀ c ∈ q, c.arrival_time ≤ s.clock
  records : ∀ r ∈ s.simulation_log.customer_records, r.Causal

/-! ## Concrete states used to exercise the theorems -/

/-- A customer with the given serial that arrived at time 0 and is still waiting. -/
def waiting (serial : Nat) : Customer ℤ :=
  { serial := serial, arrival_time := 0, service_start_time := none,
    departure_time := none, server := -1 }

/-- An engine whose servers have the given statuses and whose wait queues hold
the given customers. -/
def poolState (statuses : List ServerStatus) (queues : List (List (Customer ℤ))) :
    Simulation ℤ :=
  { (Simulation.new statuses.length 10 : Simulation ℤ) with
    servers := statuses.map (fun st => { status := st, current_customer := Customer.blank })
    service_queues := queues }

/-- Samples that are all 1. -/
def unitSamples : Nat → ℤ := fun _ => 1

/-- Service samples 10, 20, 1, 2 and then 1 for ever. -/
def stormService : Nat → ℤ := fun m => [10, 20, 1, 2].getD m 1

/-- The positions popped by a min-first event queue in the run with two servers,
target 4, inter-arrival samples `unitSamples` and service samples
`stormService`. -/
def stormPicks : List Nat := [0, 0, 1, 2, 0, 1, 1, 0]

/-- The state in which `Run` is started with two servers, target 4 and
inter-arrival samples `unitSamples`. -/
def stormStart : Simulation ℤ := start unitSamples 2 4

/-- Customer 4 as persisted by the Departure event of time 12. -/
def stormRecordAt12 : Customer ℤ :=
  { serial := 4, arrival_time := 4, service_start_time := some 11,
    departure_time := some 12, server := 0 }

/-- Customer 4 as persisted by the Departure event of time 13. -/
def stormRecordAt13 : Customer ℤ :=
  { serial := 4, arrival_time := 4, service_start_time := some 11,
    departure_time := some 13, server := 0 }

/-- Modelled from the spec: the error `InvalidConfigurationError` of the error
taxonomy; no source file declares or raises it. -/
inductive ConfigurationError where
  | InvalidConfigurationError
deriving DecidableEq, Repr

/-- What the constructor `Simulation::Simulation` leaves behind: the four values
it stores and the log built by its member initialiser. The number of servers and
the target are `int` in the source, so they can be zero or negative here. The
containers are still empty; `Initialize` sets the clock. -/
structure Simulation.Constructed (T : Type) where
  number_of_servers : Int
  inter_arrival_time_mean : T
  service_time_mean : T
  number_of_customers : Int
  simulation_log : SimulationLog T
deriving DecidableEq, Repr

/-- Constructor `Simulation::Simulation`. The two functions it calls,
`SimulationLog(int)` and `SetMean`, are not among the sources: they are the
parameters `newLog` and `SetMean`, and each may fail with an error of type `ε`.
The constructor runs the member initialiser `simulation_log(number_of_servers)`,
stores its four parameters and hands each mean to its generator; it compares
nothing and raises nothing itself. -/
def Simulation.construct {ε : Type} (newLog : Int → Except ε (SimulationLog T))
    (SetMean : T → Except ε Unit) (number_of_servers : Int)
    (inter_arrival_time_mean service_time_mean : T) (number_of_customers : Int) :
    Except ε (Simulation.Constructed T) :=
  match newLog number_of_servers with
  | Except.error e => Except.error e
  | Except.ok log =>
    match SetMean inter_arrival_time_mean with
    | Except.error e => Except.error e
    | Except.ok _ =>
      match SetMean service_time_mean with
      | Except.error e => Except.error e
      | Except.ok _ =>
        Except.ok
          { number_of_servers := number_of_servers
            inter_arrival_time_mean := inter_arrival_time_mean
            service_time_mean := service_time_mean
            number_of_customers := number_of_customers
            simulation_log := log }

/-- Modelled from the spec: the constructor `SimulationLog(int)`
(`simulation_log.h` is not among the sources). The log sink of the spec is
append-only with the two operations `record_event` and `record_customer` and has
no error of its own: the new log is empty, whatever the number of servers. -/
def SimulationLog.new (number_of_servers : Int) :
    Except ConfigurationError (SimulationLog T) :=
  Except.ok { event_records := [], customer_records := [] }

/-- Modelled from the spec: `SetMean` of the generator
(`exponential_random_number.h` is not among the sources). The collaborator of
the spec is configured by `configure(mean: double)`, for which the spec names no
error; it asks only that `sample()` return a non-negative number. -/
def ExponentialRandomNumber.SetMean (mean : T) : Except ConfigurationError Unit :=
  Except.ok ()

/-- The error `Initialize` can end with: `std::length_error`, thrown by
`service_queues.resize`. -/
inductive InitializeError where
  | length_error
deriving DecidableEq, Repr

/-- The engine state a constructed object with a non-negative number of servers
stands for. A negative target behaves as the target 0: the only use of the
target is the comparison `number_of_customers > GetTotalCustomers()`, false in
both cases. -/
def Simulation.Constructed.state (c : Simulation.Constructed T) : Simulation T :=
  { (Simulation.new c.number_of_servers.toNat c.number_of_customers.toNat : Simulation T) with
    simulation_log := c.simulation_log }

/-- Function `Simulation::Initialize` on the object left by the constructor.
With a negative number of servers the loop creates no server and
`service_queues.resize(number_of_servers)` turns the `int` into a size beyond
`max_size()` and throws `std::length_error` before the event is pushed;
otherwise it is `Initialize` above. -/
def Simulation.Constructed.Initialize (ia : Nat → T) (c : Simulation.Constructed T) :
    Except InitializeError (Simulation T) :=
  if c.number_of_servers < 0 then Except.error InitializeError.length_error
  else Except.ok (QS.Initialize ia c.state)

/-- The statements `customer.SetServer(server_index)` and
`customer.SetServiceStartTime(clock)`. -/
def Customer.assign (c : Customer T) (server_index : Nat) (clock : T) : Customer T :=
  { c with server := (server_index : Int), service_start_time := some clock }

/-- The customers at the front of the non-empty wait queues, in slot order. -/
def fronts (qs : List (List (Customer T))) : List (Customer T) :=
  qs.filterMap List.head?

/-- The Departure events that `HandleDeparture` schedules for server
`target_server_index` when it refills from `m` queues: the `k`-th one fires at
the clock plus the `k`-th next service sample. -/
def refillEvents (sv : Nat → T) (s : Simulation T) (target_server_index m : Nat) :
    List (Event T) :=
  (List.range m).map (fun k =>
    { type := EventType.DEPARTURE, invoke_time := s.clock + sv (s.service_draws + k),
      target_server := target_server_index })

/-- The serials of the customers in the wait queues, queue after queue. -/
def waitingSerials (s : Simulation T) : List Nat :=
  s.service_queues.flatten.map Customer.serial

/-- Who is where: no serial waits twice, no serial is beyond the customer
counter, and no Busy server holds a customer whose serial is waiting. -/
structure SerialInv (s : Simulation T) : Prop where
  nodup : (waitingSerials s).Nodup
  waiting_le : ∀ x ∈ waitingSerials s, x ≤ s.total_customers
  serving_le : ∀ (j : Nat) (srv : Server T), s.servers[j]? = some srv →
    srv.current_customer.serial ≤ s.total_customers
  apart : ∀ (j : Nat) (srv : Server T), s.servers[j]? = some srv →
    srv.status = ServerStatus.BUSY →
    srv.current_customer.serial ∉ waitingSerials s

/-- Samples that are all 0.5. -/
def halfSamples : Nat → ℚ := fun _ => 1 / 2

/-- Samples that are all 2.0. -/
def twoSamples : Nat → ℚ := fun _ => 2

/-- Scenario B after `m` passes of the loop of `Run` (one server, target 2,
inter-arrival samples 0.5, service samples 2.0); every pass pops the event at
position 0. -/
def scenarioBState (m : Nat) : Simulation ℚ :=
  (runPicks halfSamples twoSamples (start halfSamples 1 2) (List.replicate m 0)).getD
    (start halfSamples 1 2)

/-- The six event records of Scenario B. -/
def scenarioBTrace : List (EventRecord ℚ) :=
  [{ event_type := "Arrival", current_simulation_time := 1 / 2, customer_serial := 1,
     current_queue_size := [0], server_index := -1 },
   { event_type := "Service", current_simulation_time := 1 / 2, customer_serial := 1,
     current_queue_size := [0], server_index := 0 },
   { event_type := "Arrival", current_simulation_time := 1, customer_serial := 2,
     current_queue_size := [1], server_index := -1 },
   { event_type := "Departure", current_simulation_time := 5 / 2, customer_serial := 1,
     current_queue_size := [1], server_index := 0 },
   { event_type := "Service", current_simulation_time := 5 / 2, customer_serial := 2,
     current_queue_size := [0], server_index := 0 },
   { event_type := "Departure", current_simulation_time := 9 / 2, customer_serial := 2,
     current_queue_size := [0], server_index := 0 }]

/-- The two customer records of Scenario B. -/
def scenarioBCustomers : List (Customer ℚ) :=
  [{ serial := 1, arrival_time := 1 / 2, service_start_time := some (1 / 2),
     departure_time := some (5 / 2), server := 0 },
   { serial := 2, arrival_time := 1, service_start_time := some (5 / 2),
     departure_time := some (9 / 2), server := 0 }]

/-- The arrival time of customer `i` in the single-server recursion: the sum of
the first `i` inter-arrival samples. -/
def arrivalAt (ia : Nat → T) : Nat → T
  | 0 => 0
  | i + 1 => arrivalAt ia i + ia i

/-- The departure time of customer `i` in the single-server recursion:
`departure 0 = 0` and customer `i + 1` leaves one service sample after the later
of its arrival and the departure of customer `i`. -/
def departureAt (ia sv : Nat → T) : Nat → T
  | 0 => 0
  | i + 1 => max (arrivalAt ia (i + 1)) (departureAt ia sv i) + sv i

/-- The service start time of customer `i + 1` in the single-server recursion. -/
def serviceStartAt (ia sv : Nat → T) (i : Nat) : T :=
  max (arrivalAt ia (i + 1)) (departureAt ia sv i)

/-- The customer record of customer `i + 1` according to the single-server
recursion. -/
def fifoRecord (ia sv : Nat → T) (i : Nat) : Customer T :=
  { serial := i + 1, arrival_time := arrivalAt ia (i + 1),
    service_start_time := some (serviceStartAt ia sv i),
    departure_time := some (departureAt ia sv (i + 1)), server := 0 }

/-- The customer records of customers `1 .. m` according to the single-server
recursion, in arrival order. -/
def fifoRecords (ia sv : Nat → T) (m : Nat) : List (Customer T) :=
  (List.range m).map (fifoRecord ia sv)

/-- Customer `d + 1` while it is served by the single server. -/
def fifoServing (ia sv : Nat → T) (d : Nat) : Customer T :=
  { serial := d + 1, arrival_time := arrivalAt ia (d + 1),
    service_start_time := some (serviceStartAt ia sv d),
    departure_time := none, server := 0 }

/-- Customers `d + 2 .. c` while they wait for the single server. -/
def fifoWaiting (ia : Nat → T) (c d : Nat) : List (Customer T) :=
  (List.range (c - d - 1)).map (fun k => Customer.create (arrivalAt ia (d + 2 + k)) (d + 1 + k))

/-- The state of the single-server engine with target `K` when `c` customers
have been created and `d` of them have left: the persisted records are those of
the recursion, customer `d + 1` is on the server and the later ones wait in
arrival order, and the pending events are the next arrival and the departure of
customer `d + 1`. -/
structure FifoInv (ia sv : Nat → T) (K c d : Nat) (st : Simulation T) : Prop where
  servers_n : st.number_of_servers = 1
  customers_k : st.number_of_customers = K
  total : st.total_customers = c
  departed_le : d ≤ c
  created_le : c ≤ K
  records : st.simulation_log.customer_records = fifoRecords ia sv d
  arrivals : st.event_queue.filter (fun e => e.type = EventType.ARRIVAL) =
    if c < K then [{ type := EventType.ARRIVAL, invoke_time := arrivalAt ia (c + 1),
                     target_server := 0 }] else []
  departures : st.event_queue.filter (fun e => e.type = EventType.DEPARTURE) =
    if d < c then [{ type := EventType.DEPARTURE, invoke_time := departureAt ia sv (d + 1),
                     target_server := 0 }] else []
  queue : st.service_queues = [fifoWaiting ia c d]
  server : ∃ srv, st.servers = [srv] ∧
    (d < c → srv = { status := ServerStatus.BUSY, current_customer := fifoServing ia sv d }) ∧
    (d = c → srv.status = ServerStatus.IDLE)
  service_draws : st.service_draws = if d < c then d + 1 else d
  arrival_draws : c < K → st.inter_arrival_draws = c + 1
  departed_time : departureAt ia sv d ≤ st.clock
  arrived_time : arrivalAt ia c ≤ st.clock

/-- The positions popped by a min-first event queue in the run with one server,
target 3, inter-arrival samples `unitSamples` and service samples
`stormService`. -/
def fifoPicks : List Nat := [0, 0, 1, 0, 0, 0]

/-- The three event records of customer `i + 1` in Scenario A, with the times
the engine computes: the arrival time is the running sum `arrivalAt` of `i + 1`
inter-arrival samples `a`, the customer is served at once by server 0 and leaves
at that time plus `s`; nobody ever waits. -/
def scenarioARecords (a s : T) (i : Nat) : List (EventRecord T) :=
  [{ event_type := "Arrival", current_simulation_time := arrivalAt (fun _ => a) (i + 1),
     customer_serial := i + 1, current_queue_size := [0], server_index := -1 },
   { event_type := "Service", current_simulation_time := arrivalAt (fun _ => a) (i + 1),
     customer_serial := i + 1, current_queue_size := [0], server_index := 0 },
   { event_type := "Departure", current_simulation_time := arrivalAt (fun _ => a) (i + 1) + s,
     customer_serial := i + 1, current_queue_size := [0], server_index := 0 }]

/-- The event trace of Scenario A for the customers `1 .. m`. -/
def scenarioATrace (a s : T) (m : Nat) : List (EventRecord T) :=
  ((List.range m).map (scenarioARecords a s)).flatten

/-- Customer `d + 1` of Scenario A while it is served. -/
def scenarioAServing (a : T) (d : Nat) : Customer T :=
  { serial := d + 1, arrival_time := arrivalAt (fun _ => a) (d + 1),
    service_start_time := some (arrivalAt (fun _ => a) (d + 1)),
    departure_time := none, server := 0 }

/-- The customer record of customer `i + 1` in Scenario A. -/
def scenarioACustomer (a s : T) (i : Nat) : Customer T :=
  { serial := i + 1, arrival_time := arrivalAt (fun _ => a) (i + 1),
    service_start_time := some (arrivalAt (fun _ => a) (i + 1)),
    departure_time := some (arrivalAt (fun _ => a) (i + 1) + s), server := 0 }

/-- The state of Scenario A when `c` customers have been created and `d` have
left: at most one customer is in the system, nobody waits, the pending events
are the next Arrival and the Departure of the customer in service, and the log
holds the whole trace of the customers that have left and the Arrival and
Service records of the one in service. -/
structure ScenarioAInv (a s : T) (K c d : Nat) (st : Simulation T) : Prop where
  servers_n : st.number_of_servers = 1
  customers_k : st.number_of_customers = K
  total : st.total_customers = c
  departed_le : d ≤ c
  close : c ≤ d + 1
  created_le : c ≤ K
  arrivals : st.event_queue.filter (fun e => e.type = EventType.ARRIVAL) =
    if c < K then [{ type := EventType.ARRIVAL, invoke_time := arrivalAt (fun _ => a) (c + 1),
                     target_server := 0 }] else []
  departures : st.event_queue.filter (fun e => e.type = EventType.DEPARTURE) =
    if d < c then [{ type := EventType.DEPARTURE,
                     invoke_time := arrivalAt (fun _ => a) (d + 1) + s,
                     target_server := 0 }] else []
  queue : st.service_queues = [[]]
  server : ∃ srv, st.servers = [srv] ∧
    (d < c → srv = { status := ServerStatus.BUSY, current_customer := scenarioAServing a d }) ∧
    (d = c → srv.status = ServerStatus.IDLE)
  trace : st.simulation_log.event_records =
    scenarioATrace a s d ++ (if d < c then (scenarioARecords a s d).take 2 else [])
  customers : st.simulation_log.customer_records = (List.range d).map (scenarioACustomer a s)

/-! ## Time as `double` -/

/-- A finite `double` (IEEE 754 binary64), held as the whole number of units of
`2 ^ (-1074)` it is worth: every finite `double` is a whole number of such
units, so the sum of two of them is exact before it is rounded. -/
structure Binary64 where
  units : Int
deriving DecidableEq, Repr

/-- The number of low bits that `m` has beyond a significand of 53 bits: the
least `k` with `m / 2 ^ k < 2 ^ 53`, found in at most `fuel` halvings. -/
def Binary64.excess : Nat → Nat → Nat
  | 0, _ => 0
  | fuel + 1, m => if m < 2 ^ 53 then 0 else Binary64.excess fuel (m / 2) + 1

/-- Rounding of the exact value `n * 2 ^ (-1074)` to a `double`: to the nearest
number with a significand of 53 bits, a tie going to the even significand (the
rounding of `+` on `double` in the source). Values below `2 ^ 53` units are
exact. Overflow is not modelled: a value beyond the largest finite `double`,
which the source would turn into an infinity, is rounded the same way. -/
def Binary64.round (n : Int) : Int :=
  let m := n.natAbs
  let quantum := 2 ^ Binary64.excess m m
  let significand := m / quantum
  let rest := m % quantum
  let up := decide (quantum < 2 * rest) || (decide (2 * rest = quantum) && significand % 2 == 1)
  let rounded := (if up then significand + 1 else significand) * quantum
  if n < 0 then -(rounded : Int) else (rounded : Int)

/-- The `double` that is exactly `m * 2 ^ (-e)`, for a significand `m` below
`2 ^ 53` in absolute value and `e` at most 1074. -/
def Binary64.ofScaled (m : Int) (e : Nat) : Binary64 :=
  { units := m * 2 ^ (1074 - e) }

instance : Zero Binary64 := ⟨{ units := 0 }⟩

/-- Addition of two `double`s: the exact sum, rounded. -/
instance : Add Binary64 := ⟨fun x y => { units := Binary64.round (x.units + y.units) }⟩

/-- The order of `double`s is the order of their values. -/
instance : LinearOrder Binary64 :=
  LinearOrder.lift' Binary64.units (fun x y h => by
    cases x
    cases y
    simp only [Binary64.mk.injEq]
    exact h)

/-- The `double` 1.0. -/
def Binary64.one : Binary64 := Binary64.ofScaled 1 0

/-- The `double` 0.5. -/
def Binary64.half : Binary64 := Binary64.ofScaled 1 1

/-- The largest `double` below 1.0: `1 - 2 ^ (-53)`. -/
def Binary64.belowOne : Binary64 := Binary64.ofScaled (2 ^ 53 - 1) 53

/-- The event trace of the run with one server, target 2, every inter-arrival
sample the `double` 1.0 and every service sample the largest `double` below 1.0:
the Departure of customer 1 is due at the rounded sum 2.0, the time of the
Arrival of customer 2, which is popped first and finds the server busy. -/
def roundingTrace : List (EventRecord Binary64) :=
  [{ event_type := "Arrival", current_simulation_time := Binary64.ofScaled 1 0,
     customer_serial := 1, current_queue_size := [0], server_index := -1 },
   { event_type := "Service", current_simulation_time := Binary64.ofScaled 1 0,
     customer_serial := 1, current_queue_size := [0], server_index := 0 },
   { event_type := "Arrival", current_simulation_time := Binary64.ofScaled 2 0,
     customer_serial := 2, current_queue_size := [1], server_index := -1 },
   { event_type := "Departure", current_simulation_time := Binary64.ofScaled 2 0,
     customer_serial := 1, current_queue_size := [1], server_index := 0 },
   { event_type := "Service", current_simulation_time := Binary64.ofScaled 2 0,
     customer_serial := 2, current_queue_size := [0], server_index := 0 },
   { event_type := "Departure", current_simulation_time := Binary64.ofScaled 3 0,
     customer_serial := 2, current_queue_size := [0], server_index := 0 }]

/-- The event trace of Scenario A with the `double`s 1.0 and 0.5 and target 3. -/
def scenarioAWitnessTrace : List (EventRecord Binary64) :=
  [{ event_type := "Arrival", current_simulation_time := Binary64.ofScaled 1 0,
     customer_serial := 1, current_queue_size := [0], server_index := -1 },
   { event_type := "Service", current_simulation_time := Binary64.ofScaled 1 0,
     customer_serial := 1, current_queue_size := [0], server_index := 0 },
   { event_type := "Departure", current_simulation_time := Binary64.ofScaled 3 1,
     customer_serial := 1, current_queue_size := [0], server_index := 0 },
   { event_type := "Arrival", current_simulation_time := Binary64.ofScaled 2 0,
     customer_serial := 2, current_queue_size := [0], server_index := -1 },
   { event_type := "Service", current_simulation_time := Binary64.ofScaled 2 0,
     customer_serial := 2, current_queue_size := [0], server_index := 0 },
   { event_type := "Departure", current_simulation_time := Binary64.ofScaled 5 1,
     customer_serial := 2, current_queue_size := [0], server_index := 0 },
   { event_type := "Arrival", current_simulation_time := Binary64.ofScaled 3 0,
     customer_serial := 3, current_queue_size := [0], server_index := -1 },
   { event_type := "Service", current_simulation_time := Binary64.ofScaled 3 0,
     customer_serial := 3, current_queue_size := [0], server_index := 0 },
   { event_type := "Departure", current_simulation_time := Binary64.ofScaled 7 1,
     customer_serial := 3, current_queue_size := [0], server_index := 0 }]

/-! ## Facts about lists -/

theorem countP_eraseIdx_add {α : Type} (p : α → Bool) :
    ∀ (l : List α) (i : Nat) (a : α), l[i]? = some a →
      (l.eraseIdx i).countP p + (if p a then 1 else 0) = l.countP p := by
  intro l
  induction l with
  | nil =>
    intro i a h
    simp at h
  | cons x xs ih =>
    intro i a h
    cases i with
    | zero =>
      simp only [List.getElem?_cons_zero, Option.some.injEq] at h
      subst h
      simp only [List.eraseIdx_cons_zero, List.countP_cons]
    | succ i =>
      simp only [List.getElem?_cons_succ] at h
      simp only [List.eraseIdx_cons_succ, List.countP_cons]
      have := ih i a h
      omega

theorem mem_eraseIdx_of_ne {α : Type} :
    ∀ (l : List α) (i : Nat) (a b : α), l[i]? = some a → b ∈ l → b ≠ a → b ∈ l.eraseIdx i := by
  intro l
  induction l with
  | nil =>
    intro i a b h
    simp at h
  | cons x xs ih =>
    intro i a b h hb hne
    cases i with
    | zero =>
      simp only [List.getElem?_cons_zero, Option.some.injEq] at h
      subst h
      simp only [List.eraseIdx_cons_zero]
      rcases List.mem_cons.mp hb with h1 | h1
      · exact absurd h1 hne
      · exact h1
    | succ i =>
      simp only [List.getElem?_cons_succ] at h
      simp only [List.eraseIdx_cons_succ]
      rcases List.mem_cons.mp hb with h1 | h1
      · rw [h1]
        exact List.mem_cons_self _ _
      · exact List.mem_cons_of_mem _ (ih i a b h h1 hne)

theorem mem_of_mem_eraseIdx_list {α : Type} :
    ∀ (l : List α) (i : Nat) (b : α), b ∈ l.eraseIdx i → b ∈ l := by
  intro l
  induction l with
  | nil =>
    intro i b h
    simp at h
  | cons x xs ih =>
    intro i b h
    cases i with
    | zero =>
      simp only [List.eraseIdx_cons_zero] at h
      exact List.mem_cons_of_mem _ h
    | succ i =>
      simp only [List.eraseIdx_cons_succ] at h
      rcases List.mem_cons.mp h with h1 | h1
      · rw [h1]
        exact List.mem_cons_self _ _
      · exact List.mem_cons_of_mem _ (ih i b h1)

theorem sum_length_set {α : Type} :
    ∀ (qs : List (List α)) (i : Nat) (front : α) (rest : List α),
      qs[i]? = some (front :: rest) →
      ((qs.set i rest).map List.length).sum + 1 = (qs.map List.length).sum := by
  intro qs
  induction qs with
  | nil =>
    intro i front rest h
    simp at h
  | cons q qs ih =>
    intro i front rest h
    cases i with
    | zero =>
      simp only [List.getElem?_cons_zero, Option.some.injEq] at h
      subst h
      simp only [List.set_cons_zero, List.map_cons, List.sum_cons, List.length_cons]
      omega
    | succ i =>
      simp only [List.getElem?_cons_succ] at h
      simp only [List.set_cons_succ, List.map_cons, List.sum_cons]
      have := ih i front rest h
      omega

theorem sum_length_modify {α : Type} (c : α) :
    ∀ (qs : List (List α)) (i : Nat), i < qs.length →
      ((qs.modify (fun q => q ++ [c]) i).map List.length).sum = (qs.map List.length).sum + 1 := by
  intro qs
  induction qs with
  | nil =>
    intro i h
    simp at h
  | cons q qs ih =>
    intro i h
    cases i with
    | zero =>
      simp only [List.modify_zero_cons, List.map_cons, List.sum_cons, List.length_append,
        List.length_singleton]
      omega
    | succ i =>
      simp only [List.length_cons, Nat.add_lt_add_iff_right] at h
      simp only [List.modify_succ_cons, List.map_cons, List.sum_cons]
      have := ih i h
      omega

theorem countP_split {α : Type} (p q r : α → Bool)
    (h : ∀ a, p a = true ↔ (q a = true ∨ r a = true))
    (hdisj : ∀ a, ¬ (q a = true ∧ r a = true)) :
    ∀ l : List α, l.countP p = l.countP q + l.countP r := by
  intro l
  induction l with
  | nil => rfl
  | cons a as ih =>
    simp only [List.countP_cons, ih]
    have h1 := h a
    have h2 := hdisj a
    cases hp : p a <;> cases hq : q a <;> cases hr : r a <;> simp_all <;> omega

theorem countP_type_split (q : List (Event T)) :
    q.countP (fun e => e.type = EventType.ARRIVAL) +
      q.countP (fun e => e.type = EventType.DEPARTURE) = q.length := by
  induction q with
  | nil => rfl
  | cons e es ih =>
    simp only [List.countP_cons, List.length_cons]
    cases h : e.type <;> simp <;> omega

/-- Counting: when every Busy server has a pending Departure event of its own,
there are at least as many pending Departure events as Busy servers. -/
theorem busyCount_le_of_covered (q : List (Event T)) :
    ∀ (servers : List (Server T)), BusyCovered servers q →
      busyCount servers ≤
        q.countP (fun e => e.type = EventType.DEPARTURE ∧ e.target_server < servers.length) := by
  intro servers
  induction servers using List.reverseRecOn with
  | nil =>
    intro _
    simp [busyCount]
  | append_singleton init sv ih =>
    intro hcov
    have hinit : BusyCovered init q := by
      intro j sv1 hj hb
      have hlt : j < init.length := by
        by_contra hcon
        rw [List.getElem?_eq_none (by omega)] at hj
        cases hj
      exact hcov j sv1 (by rw [List.getElem?_append_left hlt]; exact hj) hb
    have h1 := ih hinit
    have hsplit : q.countP (fun e => e.type = EventType.DEPARTURE ∧
          e.target_server < (init ++ [sv]).length) =
        q.countP (fun e => e.type = EventType.DEPARTURE ∧ e.target_server < init.length) +
        q.countP (fun e => e.type = EventType.DEPARTURE ∧ e.target_server = init.length) := by
      apply countP_split
      · intro e
        simp only [List.length_append, List.length_singleton, decide_eq_true_eq]
        constructor
        · rintro ⟨hd, hlt⟩
          rcases Nat.lt_or_ge e.target_server init.length with h | h
          · exact Or.inl ⟨hd, h⟩
          · exact Or.inr ⟨hd, by omega⟩
        · rintro (⟨hd, hlt⟩ | ⟨hd, heq⟩)
          · exact ⟨hd, by omega⟩
          · exact ⟨hd, by omega⟩
      · intro e
        simp only [decide_eq_true_eq]
        rintro ⟨⟨_, hlt⟩, ⟨_, heq⟩⟩
        omega
    rw [hsplit]
    have hb : busyCount (init ++ [sv]) =
        busyCount init + (if sv.status = ServerStatus.BUSY then 1 else 0) := by
      simp [busyCount, List.countP_append, List.countP_cons]
    rw [hb]
    by_cases hbusy : sv.status = ServerStatus.BUSY
    · obtain ⟨e, he, hd, ht⟩ := hcov init.length sv (by simp) hbusy
      have hpos : 0 < q.countP (fun e => e.type = EventType.DEPARTURE ∧
          e.target_server = init.length) := by
        apply List.countP_pos_iff.mpr
        exact ⟨e, he, by simp [hd, ht]⟩
      simp only [hbusy, if_true]
      omega
    · simp only [hbusy, if_false]
      omega

theorem busyCount_le_departures (servers : List (Server T)) (q : List (Event T))
    (h : BusyCovered servers q) :
    busyCount servers ≤ q.countP (fun e => e.type = EventType.DEPARTURE) := by
  refine le_trans (busyCount_le_of_covered q servers h) ?_
  apply List.countP_mono_left
  intro e _ he
  simp only [decide_eq_true_eq] at he ⊢
  exact he.1

theorem foldl_preserves {α β : Type} (P : α → Prop) (f : α → β → α)
    (h : ∀ a b, P a → P (f a b)) : ∀ (l : List β) (a : α), P a → P (l.foldl f a) := by
  intro l
  induction l with
  | nil =>
    intro a ha
    exact ha
  | cons b bs ih =>
    intro a ha
    exact ih (f a b) (h a b ha)

/-! ## Busy servers and their pending departures -/

theorem BusyCovered_push (servers : List (Server T)) (q : List (Event T)) (e : Event T)
    (h : BusyCovered servers q) : BusyCovered servers (q ++ [e]) := by
  intro j sv hj hb
  obtain ⟨e1, he1, hd, ht⟩ := h j sv hj hb
  exact ⟨e1, List.mem_append_left _ he1, hd, ht⟩

theorem BusyCovered_start (servers : List (Server T)) (q : List (Event T)) (c : Customer T)
    (i : Nat) (t : T) (h : BusyCovered servers q) :
    BusyCovered
      ((servers.modify (Server.SetCurrentCustomer c) i).modify
        (Server.SetServerStatus ServerStatus.BUSY) i)
      (q ++ [{ type := EventType.DEPARTURE, invoke_time := t, target_server := i }]) := by
  intro j sv hj hb
  by_cases hij : i = j
  · subst hij
    exact ⟨_, List.mem_append_right _ (List.mem_singleton_self _), rfl, rfl⟩
  · simp only [List.getElem?_modify, hij, if_false] at hj
    cases hsv : servers[j]? with
    | none => simp [hsv] at hj
    | some sv0 =>
      simp only [hsv, Option.map_eq_map, Option.map_some', id_eq, Option.some.injEq] at hj
      subst hj
      obtain ⟨e1, he1, hd, ht⟩ := h j sv0 hsv hb
      exact ⟨e1, List.mem_append_left _ he1, hd, ht⟩

theorem BusyCovered_free (servers : List (Server T)) (q : List (Event T)) (i : Nat) (e : Event T)
    (hi : q[i]? = some e) (h : BusyCovered servers q) :
    BusyCovered (servers.modify (Server.SetServerStatus ServerStatus.IDLE) e.target_server)
      (q.eraseIdx i) := by
  intro j sv hj hb
  by_cases hij : e.target_server = j
  · exfalso
    simp only [List.getElem?_modify, hij, if_true] at hj
    cases hsv : servers[j]? with
    | none => simp [hsv] at hj
    | some sv0 =>
      simp only [hsv, Option.map_eq_map, Option.map_some', Option.some.injEq] at hj
      subst hj
      simp [Server.SetServerStatus] at hb
  · simp only [List.getElem?_modify, hij, if_false] at hj
    cases hsv : servers[j]? with
    | none => simp [hsv] at hj
    | some sv0 =>
      simp only [hsv, Option.map_eq_map, Option.map_some', id_eq, Option.some.injEq] at hj
      subst hj
      obtain ⟨e1, he1, hd, ht⟩ := h j sv0 hsv hb
      refine ⟨e1, mem_eraseIdx_of_ne q i e e1 hi he1 ?_, hd, ht⟩
      intro heq
      rw [heq] at ht
      exact hij ht

theorem BusyCovered_pop_arrival (servers : List (Server T)) (q : List (Event T)) (i : Nat)
    (e : Event T) (hi : q[i]? = some e) (he : e.type = EventType.ARRIVAL)
    (h : BusyCovered servers q) : BusyCovered servers (q.eraseIdx i) := by
  intro j sv hj hb
  obtain ⟨e1, he1, hd, ht⟩ := h j sv hj hb
  refine ⟨e1, mem_eraseIdx_of_ne q i e e1 hi he1 ?_, hd, ht⟩
  intro heq
  rw [heq, he] at hd
  cases hd

/-! ## What the steps of the handlers change -/

@[simp] theorem startService_servers (sv : Nat → T) (s : Simulation T) (c : Customer T)
    (i : Nat) : (startService sv s c i).servers =
      (s.servers.modify (Server.SetCurrentCustomer c) i).modify
        (Server.SetServerStatus ServerStatus.BUSY) i := rfl

@[simp] theorem startService_event_queue (sv : Nat → T) (s : Simulation T) (c : Customer T)
    (i : Nat) : (startService sv s c i).event_queue = s.event_queue ++
      [{ type := EventType.DEPARTURE, invoke_time := s.clock + sv s.service_draws,
         target_server := i }] := rfl

@[simp] theorem startService_service_queues (sv : Nat → T) (s : Simulation T) (c : Customer T)
    (i : Nat) : (startService sv s c i).service_queues = s.service_queues := rfl

@[simp] theorem startService_clock (sv : Nat → T) (s : Simulation T) (c : Customer T)
    (i : Nat) : (startService sv s c i).clock = s.clock := rfl

@[simp] theorem startService_total (sv : Nat → T) (s : Simulation T) (c : Customer T)
    (i : Nat) : (startService sv s c i).total_customers = s.total_customers := rfl

@[simp] theorem startService_ghost (sv : Nat → T) (s : Simulation T) (c : Customer T)
    (i : Nat) : (startService sv s c i).ghost_departures_dispatched =
      s.ghost_departures_dispatched := rfl

@[simp] theorem startService_number_of_servers (sv : Nat → T) (s : Simulation T)
    (c : Customer T) (i : Nat) :
    (startService sv s c i).number_of_servers = s.number_of_servers := rfl

@[simp] theorem startService_number_of_customers (sv : Nat → T) (s : Simulation T)
    (c : Customer T) (i : Nat) :
    (startService sv s c i).number_of_customers = s.number_of_customers := rfl

@[simp] theorem startService_customer_records (sv : Nat → T) (s : Simulation T)
    (c : Customer T) (i : Nat) : (startService sv s c i).simulation_log.customer_records =
      s.simulation_log.customer_records := rfl

theorem startService_current (servers : List (Server T)) (c : Customer T) (i : Nat)
    (hi : i < servers.length) :
    (((servers.modify (Server.SetCurrentCustomer c) i).modify
        (Server.SetServerStatus ServerStatus.BUSY) i).getD i default).current_customer = c := by
  rw [List.getD_eq_getElem?_getD, List.getElem?_modify, List.getElem?_modify,
    List.getElem?_eq_getElem hi]
  simp [Server.SetServerStatus, Server.SetCurrentCustomer]

@[simp] theorem startService_event_records (sv : Nat → T) (s : Simulation T) (c : Customer T)
    (i : Nat) : (startService sv s c i).simulation_log.event_records =
      s.simulation_log.event_records ++
        [{ event_type := "Service", current_simulation_time := s.clock,
           customer_serial := (((s.servers.modify (Server.SetCurrentCustomer c) i).modify
             (Server.SetServerStatus ServerStatus.BUSY) i).getD i default).current_customer.serial
           current_queue_size := s.service_queues.map List.length
           server_index := (((s.servers.modify (Server.SetCurrentCustomer c) i).modify
             (Server.SetServerStatus ServerStatus.BUSY) i).getD i default).current_customer.server }] :=
  rfl

@[simp] theorem startService_observations (sv : Nat → T) (s : Simulation T) (c : Customer T)
    (i : Nat) : (startService sv s c i).ghost_observations =
      s.ghost_observations ++
        [{ record :=
            { event_type := "Service", current_simulation_time := s.clock,
              customer_serial := (((s.servers.modify (Server.SetCurrentCustomer c) i).modify
                (Server.SetServerStatus ServerStatus.BUSY) i).getD i default).current_customer.serial
              current_queue_size := s.service_queues.map List.length
              server_index := (((s.servers.modify (Server.SetCurrentCustomer c) i).modify
                (Server.SetServerStatus ServerStatus.BUSY) i).getD i default).current_customer.server }
           busy_servers := busyCount ((s.servers.modify (Server.SetCurrentCustomer c) i).modify
                (Server.SetServerStatus ServerStatus.BUSY) i)
           customers_created := s.total_customers
           departures_dispatched := s.ghost_departures_dispatched }] :=
  rfl

/-- Starting a service for the customer that is neither waiting nor served
restores the balance. -/
theorem CountInv_startService (sv : Nat → T) (da n k : Nat) (s : Simulation T) (c : Customer T)
    (i : Nat) (h : CountInv 1 da n k s) : CountInv 0 da n k (startService sv s c i) := by
  have hcov : BusyCovered (startService sv s c i).servers (startService sv s c i).event_queue := by
    rw [startService_servers, startService_event_queue]
    exact BusyCovered_start _ _ _ _ _ h.covered
  have hbusy := busyCount_le_departures _ _ hcov
  have hD : departuresPending (startService sv s c i) = departuresPending s + 1 := by
    simp [departuresPending, List.countP_append]
  have hQ : waitingCount (startService sv s c i) = waitingCount s := by
    simp [waitingCount, queueSizes]
  have h1 := h.arrivals
  have h2 := h.departures
  have h3 := h.services
  have h4 := h.balance
  have h5 := h.pending
  constructor
  · simpa using h.servers_n
  · simpa using h.customers_k
  · simp [h.servers_len]
  · simpa using h.queues_len
  · simpa [recordsOfKind, List.countP_append] using h1
  · simpa [recordsOfKind, List.countP_append] using h2
  · simpa using h.customers
  · rw [hD]
    simp only [recordsOfKind] at h3
    simp [recordsOfKind, List.countP_append, h3]
    omega
  · rw [hD, hQ]
    simp only [startService_ghost, startService_total]
    omega
  · simpa [arrivalsPending, List.countP_append] using h5
  · simpa using h.bounded
  · exact hcov
  · intro o ho
    simp only [startService_observations, List.mem_append, List.mem_singleton] at ho
    rcases ho with ho | ho
    · exact h.observed o ho
    · subst ho
      simp only [Observation.WithinBound]
      rw [startService_servers, startService_event_queue] at hbusy
      simp only [departuresPending, waitingCount, queueSizes] at h4
      simp only [List.countP_append, List.countP_cons, List.countP_nil, decide_True,
        if_true] at hbusy
      omega

/-- Taking the customer at the front of a wait queue out of the queue. -/
theorem CountInv_dequeue (da n k : Nat) (s : Simulation T) (i : Nat) (front : Customer T)
    (rest : List (Customer T)) (hq : s.service_queues[i]? = some (front :: rest))
    (h : CountInv 0 da n k s) :
    CountInv 1 da n k { s with service_queues := s.service_queues.set i rest } := by
  have hsum := sum_length_set s.service_queues i front rest hq
  have h4 := h.balance
  constructor
  · exact h.servers_n
  · exact h.customers_k
  · exact h.servers_len
  · simp [h.queues_len]
  · exact h.arrivals
  · exact h.departures
  · exact h.customers
  · exact h.services
  · simp only [waitingCount, queueSizes, departuresPending] at h4 ⊢
    omega
  · exact h.pending
  · exact h.bounded
  · exact h.covered
  · exact h.observed

/-- One pass of the loop of `HandleDeparture` keeps the bookkeeping. -/
theorem CountInv_refill (sv : Nat → T) (da n k t : Nat) (s : Simulation T) (i : Nat)
    (h : CountInv 0 da n k s) : CountInv 0 da n k (HandleDeparture.refill sv t s i) := by
  unfold HandleDeparture.refill
  split
  · rename_i front rest hq
    exact CountInv_startService sv da n k _ _ t (CountInv_dequeue da n k s i front rest hq h)
  · exact h

/-- Joining a wait queue restores the balance. -/
theorem CountInv_joinQueue (da n k : Nat) (s : Simulation T) (c : Customer T) (q : Nat)
    (hq : q < s.service_queues.length) (h : CountInv 1 da n k s) :
    CountInv 0 da n k (joinQueue s c q) := by
  have hsum := sum_length_modify c s.service_queues q hq
  have h4 := h.balance
  constructor
  · exact h.servers_n
  · exact h.customers_k
  · exact h.servers_len
  · simp [joinQueue, h.queues_len]
  · exact h.arrivals
  · exact h.departures
  · exact h.customers
  · exact h.services
  · simp only [waitingCount, queueSizes, departuresPending, joinQueue] at h4 ⊢
    omega
  · exact h.pending
  · exact h.bounded
  · exact h.covered
  · exact h.observed

/-- Writing the Arrival record of the new customer. -/
theorem CountInv_CreateArrivalLog (d n k : Nat) (s : Simulation T) (c : Customer T)
    (h : CountInv d 1 n k s) : CountInv d 0 n k (CreateArrivalLog s c) := by
  have hbusy := busyCount_le_departures _ _ h.covered
  have h1 := h.arrivals
  have h2 := h.departures
  have h3 := h.services
  have h4 := h.balance
  constructor
  · exact h.servers_n
  · exact h.customers_k
  · exact h.servers_len
  · exact h.queues_len
  · simp only [recordsOfKind] at h1
    simp [CreateArrivalLog, Simulation.logEvent, SimulationLog.CreateEventRecord, recordsOfKind,
      List.countP_append]
    omega
  · simpa [CreateArrivalLog, Simulation.logEvent, SimulationLog.CreateEventRecord, recordsOfKind,
      List.countP_append] using h2
  · exact h.customers
  · simp only [recordsOfKind, departuresPending] at h3
    simp [CreateArrivalLog, Simulation.logEvent, SimulationLog.CreateEventRecord, recordsOfKind,
      List.countP_append, departuresPending, h3]
  · exact h4
  · exact h.pending
  · exact h.bounded
  · exact h.covered
  · intro o ho
    simp only [CreateArrivalLog, Simulation.logEvent, List.mem_append, List.mem_singleton] at ho
    rcases ho with ho | ho
    · exact h.observed o ho
    · subst ho
      simp only [Observation.WithinBound]
      simp only [departuresPending, waitingCount] at h4
      omega

theorem GetSmallestQueue.scan_range :
    ∀ (qs : List (List (Customer T))) (base minIdx min : Nat),
      GetSmallestQueue.scan qs base minIdx min = minIdx ∨
      (base ≤ GetSmallestQueue.scan qs base minIdx min ∧
        GetSmallestQueue.scan qs base minIdx min < base + qs.length) := by
  intro qs
  induction qs with
  | nil =>
    intro base minIdx min
    left
    rfl
  | cons q rest ih =>
    intro base minIdx min
    unfold GetSmallestQueue.scan
    simp only [List.length_cons]
    split_ifs with h1 h2
    · right
      omega
    · right
      rcases ih (base + 1) base q.length with h | h
      · rw [h]
        omega
      · omega
    · rcases ih (base + 1) minIdx min with h | h
      · left
        exact h
      · right
        omega

/-- The queue chosen by `GetSmallestQueue` exists as soon as there is a queue. -/
theorem GetSmallestQueue_lt (s : Simulation T) (h : 0 < s.service_queues.length) :
    GetSmallestQueue s < s.service_queues.length := by
  unfold GetSmallestQueue
  rcases GetSmallestQueue.scan_range s.service_queues 0 0 0 with h1 | h1
  · rw [h1]
    exact h
  · omega

/-- Popping an Arrival event, creating the customer and scheduling the next
arrival: the new customer is not placed yet and its record not written. -/
theorem CountInv_newCustomer (ia : Nat → T) (n k : Nat) (s : Simulation T) (i : Nat)
    (e : Event T) (hi : s.event_queue[i]? = some e) (he : e.type = EventType.ARRIVAL)
    (h : CountInv 0 0 n k s) :
    CountInv 1 1 n k (scheduleNextArrival ia
      { popEvent s i e with total_customers := (popEvent s i e).total_customers + 1 }) := by
  have hA := countP_eraseIdx_add (fun e : Event T => decide (e.type = EventType.ARRIVAL))
    s.event_queue i e hi
  have hD := countP_eraseIdx_add (fun e : Event T => decide (e.type = EventType.DEPARTURE))
    s.event_queue i e hi
  simp [he] at hA
  simp [he] at hD
  have h1 := h.arrivals
  have h2 := h.departures
  have h3 := h.services
  have h4 := h.balance
  have h5 := h.pending
  have h6 := h.bounded
  have hk := h.customers_k
  simp only [arrivalsPending] at h5
  simp only [recordsOfKind, departuresPending] at h1 h2 h3
  simp only [waitingCount, queueSizes, departuresPending] at h4
  have hlt : s.total_customers < max k 1 := by
    by_contra hcon
    simp only [hcon, if_false] at h5
    omega
  simp only [hlt, if_true] at h5
  have hcov := BusyCovered_pop_arrival s.servers s.event_queue i e hi he h.covered
  unfold scheduleNextArrival
  simp only [popEvent, gt_iff_lt]
  split_ifs with hmore
  · rw [hk] at hmore
    constructor
    · exact h.servers_n
    · exact h.customers_k
    · exact h.servers_len
    · exact h.queues_len
    · simp only [recordsOfKind, Simulation.pushEvent]
      omega
    · exact h.departures
    · exact h.customers
    · simp only [recordsOfKind, departuresPending, Simulation.pushEvent]
      simp [List.countP_append]
      omega
    · simp only [waitingCount, queueSizes, departuresPending, Simulation.pushEvent]
      simp [List.countP_append]
      omega
    · have : s.total_customers + 1 < max k 1 := by omega
      simp only [arrivalsPending, Simulation.pushEvent, this, if_true, List.countP_append,
        List.countP_cons, List.countP_nil, decide_True]
      omega
    · simp only [Simulation.pushEvent]
      omega
    · exact BusyCovered_push _ _ _ hcov
    · exact h.observed
  · rw [hk] at hmore
    constructor
    · exact h.servers_n
    · exact h.customers_k
    · exact h.servers_len
    · exact h.queues_len
    · simp only [recordsOfKind]
      omega
    · exact h.departures
    · exact h.customers
    · simp only [recordsOfKind, departuresPending]
      omega
    · simp only [waitingCount, queueSizes, departuresPending]
      omega
    · have : ¬ s.total_customers + 1 < max k 1 := by omega
      simp only [arrivalsPending, this, if_false]
      omega
    · show s.total_customers + 1 ≤ max k 1
      omega
    · exact hcov
    · exact h.observed

/-- Dispatching an Arrival event keeps the bookkeeping. -/
theorem CountInv_HandleArrival (ia sv : Nat → T) (n k : Nat) (hn : 1 ≤ n) (s : Simulation T)
    (i : Nat) (e : Event T) (hi : s.event_queue[i]? = some e) (he : e.type = EventType.ARRIVAL)
    (h : CountInv 0 0 n k s) : CountInv 0 0 n k (HandleArrival ia sv (popEvent s i e)) := by
  have h1 := CountInv_newCustomer ia n k s i e hi he h
  unfold HandleArrival
  simp only []
  split_ifs with hidx
  · apply CountInv_CreateArrivalLog
    apply CountInv_joinQueue
    · apply GetSmallestQueue_lt
      rw [h1.queues_len]
      exact hn
    · exact h1
  · apply CountInv_startService
    apply CountInv_CreateArrivalLog
    exact h1

/-- The head of `HandleDeparture` (with the pop that precedes it) keeps the
bookkeeping. -/
theorem CountInv_departureHead (n k : Nat) (s : Simulation T) (i : Nat) (e : Event T)
    (hi : s.event_queue[i]? = some e) (he : e.type = EventType.DEPARTURE)
    (h : CountInv 0 0 n k s) :
    CountInv 0 0 n k
      (CreateDepartureLog (freeServer (noteDeparture (popEvent s i e)) e.target_server)
        e.target_server) := by
  have hA := countP_eraseIdx_add (fun e : Event T => decide (e.type = EventType.ARRIVAL))
    s.event_queue i e hi
  have hD := countP_eraseIdx_add (fun e : Event T => decide (e.type = EventType.DEPARTURE))
    s.event_queue i e hi
  simp [he] at hA
  simp [he] at hD
  have h1 := h.arrivals
  have h2 := h.departures
  have h3 := h.services
  have h4 := h.balance
  have h5 := h.pending
  have hcov := BusyCovered_free s.servers s.event_queue i e hi h.covered
  have hbusy := busyCount_le_departures _ _ hcov
  constructor
  · exact h.servers_n
  · exact h.customers_k
  · simp [CreateDepartureLog, freeServer, noteDeparture, popEvent, Simulation.logEvent,
      SimulationLog.CreateCustomerRecord, h.servers_len]
  · exact h.queues_len
  · simpa [CreateDepartureLog, freeServer, noteDeparture, popEvent, Simulation.logEvent,
      SimulationLog.CreateCustomerRecord, SimulationLog.CreateEventRecord, recordsOfKind,
      List.countP_append] using h1
  · simpa [CreateDepartureLog, freeServer, noteDeparture, popEvent, Simulation.logEvent,
      SimulationLog.CreateCustomerRecord, SimulationLog.CreateEventRecord, recordsOfKind,
      List.countP_append] using h2
  · simpa [CreateDepartureLog, freeServer, noteDeparture, popEvent, Simulation.logEvent,
      SimulationLog.CreateCustomerRecord, SimulationLog.CreateEventRecord] using h.customers
  · simp only [recordsOfKind, departuresPending] at h3
    simp [CreateDepartureLog, freeServer, noteDeparture, popEvent, Simulation.logEvent,
      SimulationLog.CreateCustomerRecord, SimulationLog.CreateEventRecord, recordsOfKind,
      List.countP_append, departuresPending, h3]
    omega
  · simp only [waitingCount, queueSizes, departuresPending] at h4
    simp [CreateDepartureLog, freeServer, noteDeparture, popEvent, Simulation.logEvent,
      SimulationLog.CreateCustomerRecord, SimulationLog.CreateEventRecord, waitingCount,
      queueSizes, departuresPending]
    omega
  · simp only [arrivalsPending] at h5
    simp only [CreateDepartureLog, freeServer, noteDeparture, popEvent, Simulation.logEvent,
      SimulationLog.CreateCustomerRecord, SimulationLog.CreateEventRecord, arrivalsPending]
    omega
  · exact h.bounded
  · exact hcov
  · intro o ho
    simp only [CreateDepartureLog, freeServer, noteDeparture, popEvent, Simulation.logEvent,
      List.mem_append, List.mem_singleton] at ho
    rcases ho with ho | ho
    · exact h.observed o ho
    · subst ho
      simp only [Observation.WithinBound, queueSizes]
      simp only [departuresPending, waitingCount, queueSizes] at h4
      omega

/-- Dispatching a Departure event keeps the bookkeeping. -/
theorem CountInv_HandleDeparture (sv : Nat → T) (n k : Nat) (s : Simulation T)
    (i : Nat) (e : Event T) (hi : s.event_queue[i]? = some e) (he : e.type = EventType.DEPARTURE)
    (h : CountInv 0 0 n k s) :
    CountInv 0 0 n k (HandleDeparture sv (noteDeparture (popEvent s i e)) e.target_server) := by
  unfold HandleDeparture
  simp only []
  apply foldl_preserves
  · intro a b ha
    exact CountInv_refill sv 0 n k e.target_server a b ha
  · exact CountInv_departureHead n k s i e hi he h

/-- One pass of the loop of `Run` keeps the bookkeeping. -/
theorem CountInv_dispatch (ia sv : Nat → T) (n k : Nat) (hn : 1 ≤ n) (s s1 : Simulation T)
    (i : Nat) (hd : dispatch ia sv s i = some s1) (h : CountInv 0 0 n k s) :
    CountInv 0 0 n k s1 := by
  unfold dispatch at hd
  cases hi : s.event_queue[i]? with
  | none => simp [hi] at hd
  | some e =>
    simp only [hi, Option.some.injEq] at hd
    subst hd
    unfold dispatchEvent
    cases he : e.type with
    | ARRIVAL => exact CountInv_HandleArrival ia sv n k hn s i e hi he h
    | DEPARTURE => exact CountInv_HandleDeparture sv n k s i e hi he h

/-- The bookkeeping holds when `Run` is started. -/
theorem CountInv_start (ia : Nat → T) (n k : Nat) : CountInv 0 0 n k (start ia n k) := by
  constructor
  · rfl
  · rfl
  · simp [start, Initialize, Simulation.new, Simulation.pushEvent]
  · simp [start, Initialize, Simulation.new, Simulation.pushEvent, resizeQueues]
  · rfl
  · rfl
  · rfl
  · rfl
  · simp [start, Initialize, Simulation.new, Simulation.pushEvent, resizeQueues, waitingCount,
      queueSizes, departuresPending]
  · simp [start, Initialize, Simulation.new, Simulation.pushEvent, arrivalsPending]
  · simp [start, Initialize, Simulation.new, Simulation.pushEvent]
  · intro j sv hj hb
    simp only [start, Initialize, Simulation.new, Simulation.pushEvent, List.nil_append] at hj
    have hmem := List.getElem?_mem hj
    rw [List.mem_replicate] at hmem
    rw [hmem.2] at hb
    cases hb
  · intro o ho
    simp [start, Initialize, Simulation.new, Simulation.pushEvent] at ho

/-- The bookkeeping holds in every state reached by the loop of `Run`. -/
theorem CountInv_reachable (ia sv : Nat → T) (n k : Nat) (hn : 1 ≤ n) (s : Simulation T)
    (h : Reachable ia sv n k s) : CountInv 0 0 n k s := by
  induction h with
  | init => exact CountInv_start ia n k
  | step s s1 i _ hd ih => exact CountInv_dispatch ia sv n k hn s s1 i hd ih

/-! ## The assignment policy -/

theorem status_ne_idle {st : ServerStatus} (h : ¬ st = ServerStatus.IDLE) :
    st = ServerStatus.BUSY := by
  cases st
  · exact absurd rfl h
  · rfl

/-- What the scan of `GetAvailableServerIndex` over the slots `i .. i+n-1`
returns: `-1` when all of them are Busy, otherwise the first Idle one. -/
theorem GetAvailableServerIndex.scan_spec (servers : List (Server T)) :
    ∀ (n i : Nat), i + n ≤ servers.length →
      (GetAvailableServerIndex.scan servers n i = -1 ∧
        ∀ j, i ≤ j → j < i + n → ∀ sv, servers[j]? = some sv → sv.status = ServerStatus.BUSY) ∨
      (∃ k, i ≤ k ∧ k < i + n ∧ GetAvailableServerIndex.scan servers n i = (k : Int) ∧
        (∃ sv, servers[k]? = some sv ∧ sv.status = ServerStatus.IDLE) ∧
        ∀ j, i ≤ j → j < k → ∀ sv, servers[j]? = some sv → sv.status = ServerStatus.BUSY) := by
  intro n
  induction n with
  | zero =>
    intro i _
    left
    refine ⟨rfl, ?_⟩
    intro j h1 h2
    omega
  | succ n ih =>
    intro i hlen
    have hi : i < servers.length := by omega
    have hget : servers[i]? = some servers[i] := List.getElem?_eq_getElem hi
    unfold GetAvailableServerIndex.scan
    rw [hget]
    by_cases hidle : servers[i].status = ServerStatus.IDLE
    · right
      refine ⟨i, le_refl i, by omega, ?_, ⟨servers[i], hget, hidle⟩, ?_⟩
      · simp [hidle]
      · intro j h1 h2
        omega
    · have hbusy := status_ne_idle hidle
      simp only [hidle, if_false]
      rcases ih (i + 1) (by omega) with ⟨hres, hall⟩ | ⟨k, hk1, hk2, hres, hk, hall⟩
      · left
        refine ⟨hres, ?_⟩
        intro j h1 h2 sv hsv
        rcases Nat.eq_or_lt_of_le h1 with heq | hlt
        · subst heq
          rw [hget] at hsv
          cases hsv
          exact hbusy
        · exact hall j hlt (by omega) sv hsv
      · right
        refine ⟨k, by omega, by omega, hres, hk, ?_⟩
        intro j h1 h2 sv hsv
        rcases Nat.eq_or_lt_of_le h1 with heq | hlt
        · subst heq
          rw [hget] at hsv
          cases hsv
          exact hbusy
        · exact hall j hlt h2 sv hsv

/-- When `GetAvailableServerIndex` returns `-1` every server is Busy. -/
theorem GetAvailableServerIndex_none (s : Simulation T)
    (hlen : s.servers.length = s.number_of_servers) (h : GetAvailableServerIndex s = -1) :
    ∀ sv ∈ s.servers, sv.status = ServerStatus.BUSY := by
  have hspec := GetAvailableServerIndex.scan_spec s.servers s.number_of_servers 0 (by omega)
  simp only [Nat.zero_le, zero_add, true_implies, true_and] at hspec
  unfold GetAvailableServerIndex at h
  rcases hspec with ⟨_, hall⟩ | ⟨k, _, hres, _, _⟩
  · intro sv hsv
    obtain ⟨j, hj, hjv⟩ := List.getElem_of_mem hsv
    exact hall j (by omega) sv (by rw [List.getElem?_eq_getElem hj, hjv])
  · rw [hres] at h
    omega

/-- When `GetAvailableServerIndex` does not return `-1` it returns the index of
an Idle server of the pool. -/
theorem GetAvailableServerIndex_some (s : Simulation T)
    (hlen : s.servers.length = s.number_of_servers) (h : ¬ GetAvailableServerIndex s = -1) :
    ∃ (i : Nat) (sv : Server T), GetAvailableServerIndex s = (i : Int) ∧
      s.servers[i]? = some sv ∧ sv.status = ServerStatus.IDLE := by
  have hspec := GetAvailableServerIndex.scan_spec s.servers s.number_of_servers 0 (by omega)
  simp only [Nat.zero_le, zero_add, true_implies, true_and] at hspec
  unfold GetAvailableServerIndex at h ⊢
  rcases hspec with ⟨hres, _⟩ | ⟨k, _, hres, ⟨sv, hsv, hidle⟩, _⟩
  · exact absurd hres h
  · exact ⟨k, sv, hres, hsv, hidle⟩

/-- C8: `GetAvailableServerIndex` is first-fit. On a pool of `number_of_servers`
servers it returns `-1` exactly when every server is Busy, and it returns the
index `i` exactly when server `i` is Idle and every server before it is Busy;
it returns nothing else. -/
theorem GetAvailableServerIndex_first_fit (s : Simulation T)
    (hlen : s.servers.length = s.number_of_servers) :
    (GetAvailableServerIndex s = -1 ↔ ∀ sv ∈ s.servers, sv.status = ServerStatus.BUSY) ∧
    (∀ i : Nat, GetAvailableServerIndex s = (i : Int) ↔
      ((∃ sv, s.servers[i]? = some sv ∧ sv.status = ServerStatus.IDLE) ∧
        ∀ j, j < i → ∀ sv, s.servers[j]? = some sv → sv.status = ServerStatus.BUSY)) ∧
    (GetAvailableServerIndex s = -1 ∨
      ∃ i : Nat, i < s.number_of_servers ∧ GetAvailableServerIndex s = (i : Int)) := by
  have hspec := GetAvailableServerIndex.scan_spec s.servers s.number_of_servers 0 (by omega)
  simp only [Nat.zero_le, zero_add, true_implies, true_and] at hspec
  unfold GetAvailableServerIndex
  rcases hspec with ⟨hres, hall⟩ | ⟨k, hk2, hres, ⟨svk, hsvk, hidle⟩, hall⟩
  · refine ⟨?_, ?_, Or.inl hres⟩
    · refine ⟨fun _ sv hsv => ?_, fun _ => hres⟩
      obtain ⟨j, hj, hjv⟩ := List.getElem_of_mem hsv
      exact hall j (by omega) sv (by rw [List.getElem?_eq_getElem hj, hjv])
    · intro i
      rw [hres]
      constructor
      · intro h
        omega
      · rintro ⟨⟨sv, hsv, hidle⟩, _⟩
        have hi : i < s.servers.length := by
          by_contra hcon
          rw [List.getElem?_eq_none (by omega)] at hsv
          cases hsv
        have := hall i (by omega) sv hsv
        rw [hidle] at this
        cases this
  · refine ⟨?_, ?_, Or.inr ⟨k, hk2, hres⟩⟩
    · rw [hres]
      constructor
      · intro h
        omega
      · intro hall2
        have hmem : svk ∈ s.servers := List.getElem?_mem hsvk
        have := hall2 svk hmem
        rw [hidle] at this
        cases this
    · intro i
      rw [hres]
      constructor
      · intro h
        have hik : k = i := by exact_mod_cast h
        subst hik
        exact ⟨⟨svk, hsvk, hidle⟩, hall⟩
      · rintro ⟨⟨sv, hsv, hidle2⟩, hall2⟩
        have hik : k = i := by
          rcases Nat.lt_trichotomy k i with hlt | heq | hgt
          · have := hall2 k hlt svk hsvk
            rw [hidle] at this
            cases this
          · exact heq
          · have := hall i hgt sv hsv
            rw [hidle2] at this
            cases this
        rw [hik]

/-- Witness for C8: with servers Busy, Idle, Idle the scan returns 1. -/
theorem GetAvailableServerIndex_first_fit_witness :
    GetAvailableServerIndex
        (poolState [ServerStatus.BUSY, ServerStatus.IDLE, ServerStatus.IDLE] [[], [], []]) = 1 ∧
      GetAvailableServerIndex
        (poolState [ServerStatus.BUSY, ServerStatus.BUSY, ServerStatus.BUSY] [[], [], []]) = -1 :=
  ⟨((GetAvailableServerIndex_first_fit
      (poolState [ServerStatus.BUSY, ServerStatus.IDLE, ServerStatus.IDLE] [[], [], []])
      (by decide)).2.1 1).2 (by decide),
   (GetAvailableServerIndex_first_fit
      (poolState [ServerStatus.BUSY, ServerStatus.BUSY, ServerStatus.BUSY] [[], [], []])
      (by decide)).1.2 (by decide)⟩

/-- The scan of `GetSmallestQueue` stops at the first empty queue. -/
theorem GetSmallestQueue.scan_empty :
    ∀ (qs : List (List (Customer T))) (base minIdx min i : Nat),
      qs[i]? = some [] → (∀ j, j < i → ∀ q, qs[j]? = some q → q ≠ []) →
      GetSmallestQueue.scan qs base minIdx min = base + i := by
  intro qs
  induction qs with
  | nil =>
    intro base minIdx min i h _
    simp at h
  | cons q rest ih =>
    intro base minIdx min i h hbefore
    cases i with
    | zero =>
      simp only [List.getElem?_cons_zero, Option.some.injEq] at h
      subst h
      simp [GetSmallestQueue.scan]
    | succ i =>
      have hq : q ≠ [] := hbefore 0 (Nat.succ_pos i) q (by simp)
      have hq0 : ¬ q.length = 0 := by
        intro h0
        exact hq (List.length_eq_zero.mp h0)
      simp only [List.getElem?_cons_succ] at h
      have hrest : ∀ j, j < i → ∀ q1, rest[j]? = some q1 → q1 ≠ [] := by
        intro j hj q1 hq1
        exact hbefore (j + 1) (by omega) q1 (by simpa using hq1)
      unfold GetSmallestQueue.scan
      simp only [hq0, if_false]
      split
      · rw [ih (base + 1) base q.length i h hrest]
        omega
      · rw [ih (base + 1) minIdx min i h hrest]
        omega

/-- With `min` equal to 0 the scan of `GetSmallestQueue` never updates `minIdx`
when no queue is empty. -/
theorem GetSmallestQueue.scan_nonempty :
    ∀ (qs : List (List (Customer T))) (base minIdx : Nat),
      (∀ q ∈ qs, q ≠ []) → GetSmallestQueue.scan qs base minIdx 0 = minIdx := by
  intro qs
  induction qs with
  | nil =>
    intro base minIdx _
    rfl
  | cons q rest ih =>
    intro base minIdx hall
    have hq : q ≠ [] := hall q (List.mem_cons_self q rest)
    have hq0 : ¬ q.length = 0 := by
      intro h0
      exact hq (List.length_eq_zero.mp h0)
    unfold GetSmallestQueue.scan
    simp only [hq0, if_false, Nat.not_lt_zero]
    exact ih (base + 1) minIdx (fun q1 hq1 => hall q1 (List.mem_cons_of_mem q hq1))

/-- C9: when some wait queue is empty, `GetSmallestQueue` returns the lowest
index among the empty queues: if queue `i` is empty and every queue before it
is non-empty, the result is `i`. -/
theorem GetSmallestQueue_lowest_empty (s : Simulation T) (i : Nat)
    (hempty : s.service_queues[i]? = some [])
    (hbefore : ∀ j, j < i → ∀ q, s.service_queues[j]? = some q → q ≠ []) :
    GetSmallestQueue s = i := by
  unfold GetSmallestQueue
  rw [GetSmallestQueue.scan_empty s.service_queues 0 0 0 i hempty hbefore]
  omega

/-- Witness for C9: queues of sizes 2, 0, 1, 0 give queue 1. -/
theorem GetSmallestQueue_lowest_empty_witness :
    GetSmallestQueue
      (poolState [ServerStatus.BUSY, ServerStatus.BUSY, ServerStatus.BUSY, ServerStatus.BUSY]
        [[waiting 1, waiting 2], [], [waiting 3], []]) = 1 :=
  GetSmallestQueue_lowest_empty
    (poolState [ServerStatus.BUSY, ServerStatus.BUSY, ServerStatus.BUSY, ServerStatus.BUSY]
      [[waiting 1, waiting 2], [], [waiting 3], []]) 1 (by decide)
    (by
      intro j hj q hq
      have hj0 : j = 0 := by omega
      subst hj0
      simp [poolState] at hq
      subst hq
      simp)

/-- C10: when there is at least one wait queue and none is empty,
`GetSmallestQueue` returns 0 whatever the sizes are; so whenever some queue is
strictly shorter than queue 0, the queue returned is not one with the fewest
waiting customers. -/
theorem GetSmallestQueue_degenerate (s : Simulation T)
    (hsome : s.service_queues ≠ [])
    (hall : ∀ q ∈ s.service_queues, q ≠ []) :
    GetSmallestQueue s = 0 ∧
    ∀ q0 q, s.service_queues[0]? = some q0 → q ∈ s.service_queues → q.length < q0.length →
      ¬ ∀ q1 ∈ s.service_queues,
          (s.service_queues.getD (GetSmallestQueue s) []).length ≤ q1.length := by
  have hres : GetSmallestQueue s = 0 := by
    unfold GetSmallestQueue
    exact GetSmallestQueue.scan_nonempty s.service_queues 0 0 hall
  refine ⟨hres, ?_⟩
  intro q0 q hq0 hq hlt hmin
  have h := hmin q hq
  rw [hres] at h
  have hget : s.service_queues.getD 0 [] = q0 := by
    simp [List.getD_eq_getElem?_getD, hq0]
  rw [hget] at h
  omega

/-- Witness for C10: queues of sizes 3, 1, 2 give queue 0, which is not the
shortest. -/
theorem GetSmallestQueue_degenerate_witness :
    GetSmallestQueue
        (poolState [ServerStatus.BUSY, ServerStatus.BUSY, ServerStatus.BUSY]
          [[waiting 1, waiting 4, waiting 5], [waiting 2], [waiting 3, waiting 6]]) = 0 ∧
      ¬ ∀ q1 ∈ (poolState [ServerStatus.BUSY, ServerStatus.BUSY, ServerStatus.BUSY]
          [[waiting 1, waiting 4, waiting 5], [waiting 2], [waiting 3, waiting 6]]).service_queues,
          ((poolState [ServerStatus.BUSY, ServerStatus.BUSY, ServerStatus.BUSY]
            [[waiting 1, waiting 4, waiting 5], [waiting 2], [waiting 3, waiting 6]]).service_queues.getD
            (GetSmallestQueue (poolState [ServerStatus.BUSY, ServerStatus.BUSY, ServerStatus.BUSY]
              [[waiting 1, waiting 4, waiting 5], [waiting 2], [waiting 3, waiting 6]])) []).length
            ≤ q1.length :=
  ⟨(GetSmallestQueue_degenerate
      (poolState [ServerStatus.BUSY, ServerStatus.BUSY, ServerStatus.BUSY]
        [[waiting 1, waiting 4, waiting 5], [waiting 2], [waiting 3, waiting 6]])
      (by decide) (by decide)).1,
   (GetSmallestQueue_degenerate
      (poolState [ServerStatus.BUSY, ServerStatus.BUSY, ServerStatus.BUSY]
        [[waiting 1, waiting 4, waiting 5], [waiting 2], [waiting 3, waiting 6]])
      (by decide) (by decide)).2
      [waiting 1, waiting 4, waiting 5] [waiting 2] (by decide) (by decide) (by decide)⟩

/-! ## Draining and the number of passes -/

theorem refill_cases (sv : Nat → T) (t : Nat) (s : Simulation T) (i : Nat) :
    (HandleDeparture.refill sv t s i = s ∧
      ∀ q, s.service_queues[i]? = some q → q = []) ∨
    (∃ front rest, s.service_queues[i]? = some (front :: rest) ∧
      HandleDeparture.refill sv t s i =
        startService sv { s with service_queues := s.service_queues.set i rest }
          { front with server := (t : Int), service_start_time := some s.clock } t) := by
  unfold HandleDeparture.refill
  split
  · rename_i front rest hq
    right
    exact ⟨front, rest, hq, rfl⟩
  · rename_i hno
    left
    refine ⟨rfl, ?_⟩
    intro q hq
    cases q with
    | nil => rfl
    | cons front rest => exact absurd hq (hno front rest)

theorem refill_departures_mono (sv : Nat → T) (t : Nat) (s : Simulation T) (i : Nat) :
    departuresPending s ≤ departuresPending (HandleDeparture.refill sv t s i) := by
  rcases refill_cases sv t s i with ⟨h, _⟩ | ⟨front, rest, _, h⟩
  · rw [h]
  · rw [h]
    simp [departuresPending, List.countP_append]

theorem sum_length_eq_zero {α : Type} :
    ∀ (qs : List (List α)), (∀ (j : Nat) (q : List α), qs[j]? = some q → q = []) →
      (qs.map List.length).sum = 0 := by
  intro qs
  induction qs with
  | nil =>
    intro _
    rfl
  | cons q qs ih =>
    intro h
    have hq : q = [] := h 0 q (by simp)
    have hrest : ∀ (j : Nat) (q1 : List α), qs[j]? = some q1 → q1 = [] := by
      intro j q1 hj
      exact h (j + 1) q1 (by simpa using hj)
    simp [hq, ih hrest]

/-- After the first `m` passes of the loop of `HandleDeparture` either a
Departure event is pending or nothing was waiting in the first `m` queues and no
queue has changed. -/
theorem refill_loop_draining (sv : Nat → T) (t : Nat) (s : Simulation T) :
    ∀ m : Nat,
      0 < departuresPending ((List.range m).foldl (HandleDeparture.refill sv t) s) ∨
      (((List.range m).foldl (HandleDeparture.refill sv t) s).service_queues = s.service_queues ∧
        ∀ j, j < m → ∀ q, s.service_queues[j]? = some q → q = []) := by
  intro m
  induction m with
  | zero =>
    right
    refine ⟨rfl, ?_⟩
    intro j hj
    omega
  | succ m ih =>
    rw [List.range_succ, List.foldl_append]
    simp only [List.foldl_cons, List.foldl_nil]
    rcases ih with hpos | ⟨hsame, hempty⟩
    · left
      exact lt_of_lt_of_le hpos (refill_departures_mono sv t _ m)
    · rcases refill_cases sv t ((List.range m).foldl (HandleDeparture.refill sv t) s) m with
        ⟨h, hq⟩ | ⟨front, rest, _, h⟩
      · right
        rw [h]
        refine ⟨hsame, ?_⟩
        intro j hj q hjq
        rcases Nat.lt_succ_iff_lt_or_eq.mp hj with hlt | heq
        · exact hempty j hlt q hjq
        · subst heq
          rw [hsame] at hq
          exact hq q hjq
      · left
        rw [h]
        simp [departuresPending, List.countP_append]

/-- After `HandleDeparture`, somebody waiting implies that a Departure event is
pending. -/
theorem Draining_HandleDeparture (sv : Nat → T) (s : Simulation T) (t : Nat) :
    Draining (HandleDeparture sv s t) := by
  unfold HandleDeparture
  simp only []
  intro hw
  rcases refill_loop_draining sv t (CreateDepartureLog (freeServer s t) t)
      (CreateDepartureLog (freeServer s t) t).service_queues.length with hpos | ⟨hsame, hempty⟩
  · exact hpos
  · exfalso
    have hz := sum_length_eq_zero (CreateDepartureLog (freeServer s t) t).service_queues
      (by
        intro j q hj
        have hlt : j < (CreateDepartureLog (freeServer s t) t).service_queues.length := by
          by_contra hcon
          rw [List.getElem?_eq_none (by omega)] at hj
          cases hj
        exact hempty j hlt q hj)
    simp only [waitingCount, queueSizes, hsame] at hw
    omega

/-- After `HandleArrival`, somebody waiting implies that a Departure event is
pending. -/
theorem Draining_HandleArrival (ia sv : Nat → T) (n k : Nat) (hn : 1 ≤ n) (s : Simulation T)
    (i : Nat) (e : Event T) (hi : s.event_queue[i]? = some e) (he : e.type = EventType.ARRIVAL)
    (h : CountInv 0 0 n k s) : Draining (HandleArrival ia sv (popEvent s i e)) := by
  have h1 := CountInv_newCustomer ia n k s i e hi he h
  intro _
  unfold HandleArrival
  simp only []
  split_ifs with hidx
  · have hall := GetAvailableServerIndex_none _ (by rw [h1.servers_len, h1.servers_n]) hidx
    have hlen := h1.servers_len
    have h0 : 0 < (scheduleNextArrival ia
      { popEvent s i e with total_customers := (popEvent s i e).total_customers + 1 }).servers.length := by
      omega
    obtain ⟨e1, he1, hd, _⟩ := h1.covered 0 _ (List.getElem?_eq_getElem h0)
      (hall _ (List.getElem_mem h0))
    simp only [departuresPending, CreateArrivalLog, Simulation.logEvent, joinQueue]
    apply List.countP_pos_iff.mpr
    exact ⟨e1, he1, by simp [hd]⟩
  · simp [departuresPending, List.countP_append]

/-- One pass of the loop of `Run` leaves a state in which somebody waiting
implies that a Departure event is pending. -/
theorem Draining_dispatch (ia sv : Nat → T) (n k : Nat) (hn : 1 ≤ n) (s s1 : Simulation T)
    (i : Nat) (hd : dispatch ia sv s i = some s1) (h : CountInv 0 0 n k s) : Draining s1 := by
  unfold dispatch at hd
  cases hi : s.event_queue[i]? with
  | none => simp [hi] at hd
  | some e =>
    simp only [hi, Option.some.injEq] at hd
    subst hd
    unfold dispatchEvent
    cases he : e.type with
    | ARRIVAL => exact Draining_HandleArrival ia sv n k hn s i e hi he h
    | DEPARTURE => exact Draining_HandleDeparture sv _ _

theorem Draining_start (ia : Nat → T) (n k : Nat) : Draining (start ia n k : Simulation T) := by
  intro h
  simp [start, Initialize, Simulation.new, Simulation.pushEvent, resizeQueues, waitingCount,
    queueSizes] at h

/-- In every state reached by the loop of `Run`, somebody waiting implies that a
Departure event is pending. -/
theorem Draining_reachable (ia sv : Nat → T) (n k : Nat) (hn : 1 ≤ n) (s : Simulation T)
    (h : Reachable ia sv n k s) : Draining s := by
  cases h with
  | init => exact Draining_start ia n k
  | step s0 _ i h0 hd =>
    exact Draining_dispatch ia sv n k hn s0 s i hd (CountInv_reachable ia sv n k hn s0 h0)

theorem refill_counters (sv : Nat → T) (t : Nat) (s : Simulation T) (i : Nat) :
    (HandleDeparture.refill sv t s i).total_customers = s.total_customers ∧
    (HandleDeparture.refill sv t s i).ghost_departures_dispatched =
      s.ghost_departures_dispatched := by
  rcases refill_cases sv t s i with ⟨h, _⟩ | ⟨front, rest, _, h⟩
  · rw [h]
    exact ⟨rfl, rfl⟩
  · rw [h]
    exact ⟨rfl, rfl⟩

theorem HandleDeparture_counters (sv : Nat → T) (s : Simulation T) (t : Nat) :
    (HandleDeparture sv s t).total_customers = s.total_customers ∧
    (HandleDeparture sv s t).ghost_departures_dispatched = s.ghost_departures_dispatched := by
  unfold HandleDeparture
  simp only []
  apply foldl_preserves
    (fun a : Simulation T => a.total_customers = s.total_customers ∧
      a.ghost_departures_dispatched = s.ghost_departures_dispatched)
  · intro a b ha
    have := refill_counters sv t a b
    exact ⟨this.1.trans ha.1, this.2.trans ha.2⟩
  · exact ⟨rfl, rfl⟩

theorem HandleArrival_counters (ia sv : Nat → T) (s : Simulation T) :
    (HandleArrival ia sv s).total_customers = s.total_customers + 1 ∧
    (HandleArrival ia sv s).ghost_departures_dispatched = s.ghost_departures_dispatched := by
  unfold HandleArrival scheduleNextArrival
  simp only []
  split_ifs <;> exact ⟨rfl, rfl⟩

/-- What one pass of the loop of `Run` does to the two counters. -/
theorem dispatchEvent_counters (ia sv : Nat → T) (s : Simulation T) (i : Nat) (e : Event T) :
    (dispatchEvent ia sv s i e).total_customers =
      s.total_customers + (if e.type = EventType.ARRIVAL then 1 else 0) ∧
    (dispatchEvent ia sv s i e).ghost_departures_dispatched =
      s.ghost_departures_dispatched + (if e.type = EventType.DEPARTURE then 1 else 0) := by
  unfold dispatchEvent
  cases he : e.type with
  | ARRIVAL =>
    have := HandleArrival_counters ia sv (popEvent s i e)
    simpa [popEvent] using this
  | DEPARTURE =>
    have := HandleDeparture_counters sv (noteDeparture (popEvent s i e)) e.target_server
    simpa [popEvent, noteDeparture] using this

theorem dispatch_eq (ia sv : Nat → T) (s s1 : Simulation T) (i : Nat)
    (hd : dispatch ia sv s i = some s1) :
    ∃ e, s.event_queue[i]? = some e ∧ s1 = dispatchEvent ia sv s i e := by
  unfold dispatch at hd
  cases hi : s.event_queue[i]? with
  | none => simp [hi] at hd
  | some e =>
    simp only [hi, Option.some.injEq] at hd
    exact ⟨e, rfl, hd.symm⟩

/-- Each pass of the loop of `Run` brings the end one pass closer. -/
theorem passesLeft_dispatch (ia sv : Nat → T) (n k : Nat) (hn : 1 ≤ n) (s s1 : Simulation T)
    (i : Nat) (hd : dispatch ia sv s i = some s1) (h : CountInv 0 0 n k s) :
    passesLeft k s1 + 1 = passesLeft k s := by
  have h1 := CountInv_dispatch ia sv n k hn s s1 i hd h
  obtain ⟨e, hi, hs1⟩ := dispatch_eq ia sv s s1 i hd
  have hc := dispatchEvent_counters ia sv s i e
  rw [← hs1] at hc
  have hb := h.balance
  have hb1 := h1.balance
  have hle1 := h1.bounded
  unfold passesLeft
  cases he : e.type with
  | ARRIVAL =>
    simp [he] at hc
    omega
  | DEPARTURE =>
    simp [he] at hc
    omega

/-- The loop of `Run` has nothing left to do exactly when the event queue is
empty. -/
theorem passesLeft_eq_zero_iff (n k : Nat) (s : Simulation T) (h : CountInv 0 0 n k s)
    (hdr : Draining s) : s.event_queue = [] ↔ passesLeft k s = 0 := by
  have hsplit := countP_type_split s.event_queue
  have hp := h.pending
  have hle := h.bounded
  simp only [arrivalsPending] at hp
  unfold Draining at hdr
  unfold passesLeft
  simp only [departuresPending] at hdr ⊢
  constructor
  · intro hq
    rw [hq] at hsplit hp hdr ⊢
    simp only [List.countP_nil, List.length_nil] at hsplit hp hdr ⊢
    by_cases hlt : s.total_customers < max k 1
    · simp [hlt] at hp
    · have hw : ¬ 0 < waitingCount s := fun hw => absurd (hdr hw) (lt_irrefl 0)
      omega
  · intro hz
    have hlt : ¬ s.total_customers < max k 1 := by omega
    simp only [hlt, if_false] at hp
    apply List.eq_nil_of_length_eq_zero
    omega

theorem Reachable_runPicks (ia sv : Nat → T) (n k : Nat) :
    ∀ (picks : List Nat) (s s1 : Simulation T), Reachable ia sv n k s →
      runPicks ia sv s picks = some s1 → Reachable ia sv n k s1 := by
  intro picks
  induction picks with
  | nil =>
    intro s s1 h hr
    simp only [runPicks, Option.some.injEq] at hr
    rw [← hr]
    exact h
  | cons i picks ih =>
    intro s s1 h hr
    simp only [runPicks] at hr
    cases hd : dispatch ia sv s i with
    | none => simp [hd] at hr
    | some s2 =>
      simp only [hd] at hr
      exact ih s2 s1 (Reachable.step s s2 i h hd) hr

/-- A run of `m` passes from a reachable state uses up `m` of the passes left. -/
theorem passesLeft_runPicks (ia sv : Nat → T) (n k : Nat) (hn : 1 ≤ n) :
    ∀ (picks : List Nat) (s s1 : Simulation T), Reachable ia sv n k s →
      runPicks ia sv s picks = some s1 → picks.length + passesLeft k s1 = passesLeft k s := by
  intro picks
  induction picks with
  | nil =>
    intro s s1 h hr
    simp only [runPicks, Option.some.injEq] at hr
    rw [← hr]
    simp
  | cons i picks ih =>
    intro s s1 h hr
    simp only [runPicks] at hr
    cases hd : dispatch ia sv s i with
    | none => simp [hd] at hr
    | some s2 =>
      simp only [hd] at hr
      have h2 := ih s2 s1 (Reachable.step s s2 i h hd) hr
      have h3 := passesLeft_dispatch ia sv n k hn s s2 i hd (CountInv_reachable ia sv n k hn s h)
      simp only [List.length_cons]
      omega

theorem passesLeft_start (ia : Nat → T) (n k : Nat) :
    passesLeft k (start ia n k : Simulation T) = 2 * max k 1 := by
  simp [passesLeft, start, Initialize, Simulation.new, Simulation.pushEvent, resizeQueues,
    waitingCount, queueSizes, departuresPending]

theorem topIndex.scan_bounds :
    ∀ (rest : List (Event T)) (i : Nat) (best : Event T) (bestIdx : Nat),
      topIndex.scan rest i best bestIdx = bestIdx ∨
      (i ≤ topIndex.scan rest i best bestIdx ∧
        topIndex.scan rest i best bestIdx < i + rest.length) := by
  intro rest
  induction rest with
  | nil =>
    intro i best bestIdx
    left
    rfl
  | cons e rest ih =>
    intro i best bestIdx
    unfold topIndex.scan
    simp only [List.length_cons]
    split_ifs with h1
    · right
      rcases ih (i + 1) e i with h | h
      · rw [h]
        omega
      · omega
    · rcases ih (i + 1) best bestIdx with h | h
      · left
        exact h
      · right
        omega

theorem topIndex_lt (q : List (Event T)) (h : q ≠ []) : topIndex q < q.length := by
  cases q with
  | nil => exact absurd rfl h
  | cons e rest =>
    simp only [topIndex, List.length_cons]
    rcases topIndex.scan_bounds rest 1 e 0 with h1 | h1
    · rw [h1]
      omega
    · omega

/-- With enough fuel `Run` returns, and it returns a reachable state whose event
queue is empty. -/
theorem Run_returns (ia sv : Nat → T) (n k : Nat) (hn : 1 ≤ n) :
    ∀ (fuel : Nat) (s : Simulation T), Reachable ia sv n k s → passesLeft k s ≤ fuel →
      ∃ s1, Run ia sv fuel s = some s1 ∧ s1.event_queue = [] ∧ Reachable ia sv n k s1 := by
  intro fuel
  induction fuel with
  | zero =>
    intro s h hle
    have hinv := CountInv_reachable ia sv n k hn s h
    have hdr := Draining_reachable ia sv n k hn s h
    have hq : s.event_queue = [] := (passesLeft_eq_zero_iff n k s hinv hdr).2 (by omega)
    refine ⟨s, ?_, hq, h⟩
    unfold Run
    simp [hq]
  | succ fuel ih =>
    intro s h hle
    have hinv := CountInv_reachable ia sv n k hn s h
    have hdr := Draining_reachable ia sv n k hn s h
    by_cases hq : s.event_queue = []
    · refine ⟨s, ?_, hq, h⟩
      unfold Run
      simp [hq]
    · have hlt := topIndex_lt s.event_queue hq
      have hd : dispatch ia sv s (topIndex s.event_queue) =
          some (dispatchEvent ia sv s (topIndex s.event_queue)
            (s.event_queue[topIndex s.event_queue])) := by
        unfold dispatch
        rw [List.getElem?_eq_getElem hlt]
      have hstep := passesLeft_dispatch ia sv n k hn s _ _ hd hinv
      obtain ⟨s1, hrun, hempty, hreach⟩ := ih _ (Reachable.step s _ _ h hd) (by omega)
      refine ⟨s1, ?_, hempty, hreach⟩
      rw [Run]
      simp only [hq, if_false, hd]
      exact hrun

/-! ## Times -/

theorem minPick_spec (s : Simulation T) (i : Nat) (h : minPick s i = true) :
    ∃ e, s.event_queue[i]? = some e ∧ ∀ e1 ∈ s.event_queue, e.invoke_time ≤ e1.invoke_time := by
  unfold minPick at h
  cases hi : s.event_queue[i]? with
  | none => simp [hi] at h
  | some e =>
    simp only [hi, List.all_eq_true, decide_eq_true_eq] at h
    exact ⟨e, rfl, h⟩

theorem Served_mono (c : Customer T) (t1 t2 : T) (h : c.Served t1) (hle : t1 ≤ t2) :
    c.Served t2 := by
  obtain ⟨st, h1, h2, h3⟩ := h
  exact ⟨st, h1, h2, le_trans h3 hle⟩

theorem dispatchEvent_clock (ia sv : Nat → T) (s : Simulation T) (i : Nat) (e : Event T) :
    (dispatchEvent ia sv s i e).clock = e.invoke_time := by
  unfold dispatchEvent
  cases he : e.type with
  | ARRIVAL =>
    simp only []
    unfold HandleArrival scheduleNextArrival
    simp only []
    split_ifs <;> rfl
  | DEPARTURE =>
    simp only []
    unfold HandleDeparture
    simp only []
    apply foldl_preserves (fun a : Simulation T => a.clock = e.invoke_time)
    · intro a b ha
      rcases refill_cases sv e.target_server a b with ⟨heq, _⟩ | ⟨front, rest, _, heq⟩
      · rw [heq]
        exact ha
      · rw [heq]
        exact ha
    · rfl

end

section

variable {T : Type} [LinearOrderedCommRing T]

/-- Starting the service of a customer that arrived no later than now. -/
theorem TimeInv_startService (sv : Nat → T) (hsv : ∀ m, 0 ≤ sv m) (s : Simulation T)
    (c : Customer T) (i : Nat) (hi : i < s.servers.length) (hc : c.Served s.clock)
    (h : TimeInv s) : TimeInv (startService sv s c i) := by
  have hnew : ∃ sv1, (startService sv s c i).servers[i]? = some sv1 ∧
      sv1.current_customer.Served (startService sv s c i).clock := by
    refine ⟨Server.SetServerStatus ServerStatus.BUSY
      (Server.SetCurrentCustomer c (s.servers[i])), ?_, ?_⟩
    · rw [startService_servers, List.getElem?_modify, List.getElem?_modify,
        List.getElem?_eq_getElem hi]
      simp only [if_true, Option.map_eq_map, Option.map_some']
    · simpa [Server.SetServerStatus, Server.SetCurrentCustomer] using hc
  constructor
  · simp [h.shape]
  · intro e he
    simp only [startService_event_queue, startService_clock, List.mem_append,
      List.mem_singleton] at he ⊢
    rcases he with he | he
    · exact h.future e he
    · subst he
      exact le_add_of_nonneg_right (hsv _)
  · intro e he hd
    simp only [startService_event_queue, List.mem_append, List.mem_singleton] at he
    rcases he with he | he
    · by_cases hit : i = e.target_server
      · rw [← hit]
        exact hnew
      · obtain ⟨sv1, h1, h2⟩ := h.serving e he hd
        refine ⟨sv1, ?_, h2⟩
        rw [startService_servers, List.getElem?_modify, List.getElem?_modify, h1]
        simp [hit]
    · subst he
      exact hnew
  · exact h.waiting
  · exact h.records

/-- Popping an event of least `invoke_time` and moving the clock to it. -/
theorem TimeInv_popEvent (s : Simulation T) (i : Nat) (e : Event T)
    (hi : s.event_queue[i]? = some e)
    (hmin : ∀ e1 ∈ s.event_queue, e.invoke_time ≤ e1.invoke_time) (h : TimeInv s) :
    TimeInv (popEvent s i e) := by
  have hle : s.clock ≤ e.invoke_time := h.future e (List.getElem?_mem hi)
  constructor
  · exact h.shape
  · intro e1 he1
    exact hmin e1 (mem_of_mem_eraseIdx_list _ _ _ he1)
  · intro e1 he1 hd
    obtain ⟨sv1, h1, h2⟩ := h.serving e1 (mem_of_mem_eraseIdx_list _ _ _ he1) hd
    exact ⟨sv1, h1, Served_mono _ _ _ h2 hle⟩
  · intro q hq c hc
    exact le_trans (h.waiting q hq c hc) hle
  · exact h.records

theorem TimeInv_scheduleNextArrival (ia : Nat → T) (hia : ∀ m, 0 ≤ ia m) (s : Simulation T)
    (h : TimeInv s) : TimeInv (scheduleNextArrival ia s) := by
  unfold scheduleNextArrival
  split_ifs
  · constructor
    · exact h.shape
    · intro e he
      simp only [Simulation.pushEvent, List.mem_append, List.mem_singleton] at he ⊢
      rcases he with he | he
      · exact h.future e he
      · subst he
        exact le_add_of_nonneg_right (hia _)
    · intro e he hd
      simp only [Simulation.pushEvent, List.mem_append, List.mem_singleton] at he
      rcases he with he | he
      · exact h.serving e he hd
      · subst he
        cases hd
    · exact h.waiting
    · exact h.records
  · exact h

theorem mem_modify_append {α : Type} (c : α) :
    ∀ (qs : List (List α)) (i : Nat) (q : List α),
      q ∈ qs.modify (fun q => q ++ [c]) i → q ∈ qs ∨ ∃ q0 ∈ qs, q = q0 ++ [c] := by
  intro qs
  induction qs with
  | nil =>
    intro i q h
    cases i <;> simp [List.modify] at h
  | cons q0 qs ih =>
    intro i q h
    cases i with
    | zero =>
      simp only [List.modify_zero_cons, List.mem_cons] at h
      rcases h with h | h
      · right
        exact ⟨q0, List.mem_cons_self _ _, h⟩
      · left
        exact List.mem_cons_of_mem _ h
    | succ i =>
      simp only [List.modify_succ_cons, List.mem_cons] at h
      rcases h with h | h
      · left
        rw [h]
        exact List.mem_cons_self _ _
      · rcases ih i q h with h1 | ⟨q1, h1, h2⟩
        · left
          exact List.mem_cons_of_mem _ h1
        · right
          exact ⟨q1, List.mem_cons_of_mem _ h1, h2⟩

theorem TimeInv_joinQueue (s : Simulation T) (c : Customer T) (i : Nat)
    (hc : c.arrival_time ≤ s.clock) (h : TimeInv s) : TimeInv (joinQueue s c i) := by
  constructor
  · exact h.shape
  · exact h.future
  · exact h.serving
  · intro q hq c1 hc1
    rcases mem_modify_append c s.service_queues i q hq with h1 | ⟨q0, h1, h2⟩
    · exact h.waiting q h1 c1 hc1
    · subst h2
      rcases List.mem_append.mp hc1 with h3 | h3
      · exact h.waiting q0 h1 c1 h3
      · rw [List.mem_singleton.mp h3]
        exact hc
  · exact h.records

theorem TimeInv_CreateArrivalLog (s : Simulation T) (c : Customer T) (h : TimeInv s) :
    TimeInv (CreateArrivalLog s c) :=
  ⟨h.shape, h.future, h.serving, h.waiting, h.records⟩

/-- Handling an Arrival event keeps the times in order. -/
theorem TimeInv_HandleArrival (ia sv : Nat → T) (hia : ∀ m, 0 ≤ ia m) (hsv : ∀ m, 0 ≤ sv m)
    (s : Simulation T) (h : TimeInv s) : TimeInv (HandleArrival ia sv s) := by
  have h1 : TimeInv (scheduleNextArrival ia { s with total_customers := s.total_customers + 1 }) :=
    TimeInv_scheduleNextArrival ia hia _ ⟨h.shape, h.future, h.serving, h.waiting, h.records⟩
  have hclock : (scheduleNextArrival ia
      { s with total_customers := s.total_customers + 1 }).clock = s.clock := by
    unfold scheduleNextArrival
    split_ifs <;> rfl
  unfold HandleArrival
  simp only []
  split_ifs with hidx
  · apply TimeInv_CreateArrivalLog
    apply TimeInv_joinQueue
    · rw [hclock]
      exact le_refl _
    · exact h1
  · obtain ⟨j, svj, hj, hsvj, _⟩ := GetAvailableServerIndex_some _ h1.shape hidx
    have hjlt : j < (scheduleNextArrival ia
        { s with total_customers := s.total_customers + 1 }).servers.length := by
      by_contra hcon
      rw [List.getElem?_eq_none (by omega)] at hsvj
      cases hsvj
    rw [hj]
    apply TimeInv_startService sv hsv
    · simpa [CreateArrivalLog, Simulation.logEvent] using hjlt
    · refine ⟨s.clock, ?_, ?_, ?_⟩
      · simp [CreateArrivalLog, Simulation.logEvent, hclock]
      · exact le_refl _
      · simp [CreateArrivalLog, Simulation.logEvent, hclock]
    · exact TimeInv_CreateArrivalLog _ _ h1

/-- One pass of the loop of `HandleDeparture` keeps the times in order. -/
theorem TimeInv_refill (sv : Nat → T) (hsv : ∀ m, 0 ≤ sv m) (t : Nat) (s : Simulation T) (i : Nat)
    (h : TimeInv s ∧ t < s.servers.length) :
    TimeInv (HandleDeparture.refill sv t s i) ∧
      t < (HandleDeparture.refill sv t s i).servers.length := by
  rcases refill_cases sv t s i with ⟨heq, _⟩ | ⟨front, rest, hq, heq⟩
  · rw [heq]
    exact h
  · rw [heq]
    have hmem : front :: rest ∈ s.service_queues := List.getElem?_mem hq
    constructor
    · apply TimeInv_startService sv hsv
      · exact h.2
      · exact ⟨s.clock, rfl, h.1.waiting _ hmem front (List.mem_cons_self _ _), le_refl _⟩
      · constructor
        · exact h.1.shape
        · exact h.1.future
        · exact h.1.serving
        · intro q hq1 c hc
          rcases List.mem_or_eq_of_mem_set hq1 with h1 | h1
          · exact h.1.waiting q h1 c hc
          · subst h1
            exact h.1.waiting _ hmem c (List.mem_cons_of_mem _ hc)
        · exact h.1.records
    · simpa using h.2

/-- The head of `HandleDeparture` (with the pop that precedes it) keeps the times
in order, and the record it persists is causal. -/
theorem TimeInv_departureHead (s : Simulation T) (i : Nat) (e : Event T)
    (hi : s.event_queue[i]? = some e)
    (hmin : ∀ e1 ∈ s.event_queue, e.invoke_time ≤ e1.invoke_time)
    (he : e.type = EventType.DEPARTURE) (h : TimeInv s) :
    TimeInv (CreateDepartureLog (freeServer (noteDeparture (popEvent s i e)) e.target_server)
        e.target_server) ∧
      e.target_server < (CreateDepartureLog
        (freeServer (noteDeparture (popEvent s i e)) e.target_server)
        e.target_server).servers.length := by
  have h1 := TimeInv_popEvent s i e hi hmin h
  have hle : s.clock ≤ e.invoke_time := h.future e (List.getElem?_mem hi)
  obtain ⟨sv0, hsv0, st, hst, harr, hstle⟩ := h.serving e (List.getElem?_mem hi) he
  have hlt : e.target_server < s.servers.length := by
    by_contra hcon
    rw [List.getElem?_eq_none (by omega)] at hsv0
    cases hsv0
  constructor
  · constructor
    · simpa [CreateDepartureLog, freeServer, noteDeparture, popEvent, Simulation.logEvent]
        using h.shape
    · exact h1.future
    · intro e1 he1 hd
      obtain ⟨sv1, h2, h3⟩ := h1.serving e1 he1 hd
      refine ⟨(if e.target_server = e1.target_server
        then Server.SetServerStatus ServerStatus.IDLE sv1 else sv1), ?_, ?_⟩
      · simp only [popEvent] at h2
        simp only [CreateDepartureLog, freeServer, noteDeparture, popEvent, Simulation.logEvent,
          List.getElem?_modify, h2, Option.map_eq_map, Option.map_some']
      · split_ifs
        · exact h3
        · exact h3
    · exact h1.waiting
    · intro r hr
      simp only [CreateDepartureLog, freeServer, noteDeparture, popEvent, Simulation.logEvent,
        SimulationLog.CreateCustomerRecord, List.mem_append, List.mem_singleton] at hr
      rcases hr with hr | hr
      · exact h.records r hr
      · subst hr
        have hcc : ((List.modify (Server.SetServerStatus ServerStatus.IDLE) e.target_server
            s.servers).getD e.target_server default).current_customer = sv0.current_customer := by
          rw [List.getD_eq_getElem?_getD, List.getElem?_modify, hsv0]
          simp [Server.SetServerStatus]
        refine ⟨st, e.invoke_time, ?_, rfl, ?_, le_trans hstle hle⟩
        · simp only [hcc]
          exact hst
        · simp only [hcc]
          exact harr
  · simpa [CreateDepartureLog, freeServer, noteDeparture, popEvent, Simulation.logEvent]
      using hlt

/-- One pass of the loop of `Run` that pops an event of least `invoke_time` keeps
the times in order. -/
theorem TimeInv_dispatchEvent (ia sv : Nat → T) (hia : ∀ m, 0 ≤ ia m) (hsv : ∀ m, 0 ≤ sv m)
    (s : Simulation T) (i : Nat) (e : Event T) (hi : s.event_queue[i]? = some e)
    (hmin : ∀ e1 ∈ s.event_queue, e.invoke_time ≤ e1.invoke_time) (h : TimeInv s) :
    TimeInv (dispatchEvent ia sv s i e) := by
  unfold dispatchEvent
  cases he : e.type with
  | ARRIVAL =>
    exact TimeInv_HandleArrival ia sv hia hsv _ (TimeInv_popEvent s i e hi hmin h)
  | DEPARTURE =>
    simp only []
    unfold HandleDeparture
    simp only []
    exact (foldl_preserves
      (fun a : Simulation T => TimeInv a ∧ e.target_server < a.servers.length)
      (HandleDeparture.refill sv e.target_server)
      (fun a b ha => TimeInv_refill sv hsv e.target_server a b ha) _ _
      (TimeInv_departureHead s i e hi hmin he h)).1

theorem TimeInv_start (ia : Nat → T) (hia : ∀ m, 0 ≤ ia m) (n k : Nat) :
    TimeInv (start ia n k) := by
  constructor
  · simp [start, Initialize, Simulation.new, Simulation.pushEvent]
  · intro e he
    simp only [start, Initialize, Simulation.new, Simulation.pushEvent, List.nil_append,
      List.mem_singleton] at he ⊢
    subst he
    simpa using hia 0
  · intro e he hd
    simp only [start, Initialize, Simulation.new, Simulation.pushEvent, List.nil_append,
      List.mem_singleton] at he
    subst he
    cases hd
  · intro q hq c hc
    simp only [start, Initialize, Simulation.new, Simulation.pushEvent, resizeQueues,
      List.take_nil, List.nil_append, List.length_nil, Nat.sub_zero] at hq
    rw [List.mem_replicate] at hq
    rw [hq.2] at hc
    cases hc
  · intro r hr
    simp [start, Initialize, Simulation.new, Simulation.pushEvent] at hr

/-- Along a min-first run with non-negative samples the times stay in order and
the clock never goes back. -/
theorem TimeInv_run (ia sv : Nat → T) (hia : ∀ m, 0 ≤ ia m) (hsv : ∀ m, 0 ≤ sv m) :
    ∀ (picks : List Nat) (s : Simulation T), TimeInv s → MinFirst ia sv s picks →
      List.Chain' (fun a b => a ≤ b) (s.clock :: clockTrace ia sv s picks) ∧
      ∀ s1, runPicks ia sv s picks = some s1 → TimeInv s1 := by
  intro picks
  induction picks with
  | nil =>
    intro s h _
    refine ⟨by simp [clockTrace], ?_⟩
    intro s1 hr
    simp only [runPicks, Option.some.injEq] at hr
    rw [← hr]
    exact h
  | cons i picks ih =>
    intro s h hmf
    simp only [MinFirst, minFirst, Bool.and_eq_true] at hmf
    obtain ⟨e, hi, hmin⟩ := minPick_spec s i hmf.1
    have hd : dispatch ia sv s i = some (dispatchEvent ia sv s i e) := by
      simp [dispatch, hi]
    have hmf2 := hmf.2
    simp only [hd] at hmf2
    have h1 := TimeInv_dispatchEvent ia sv hia hsv s i e hi hmin h
    obtain ⟨hchain, hinv⟩ := ih _ h1 hmf2
    constructor
    · simp only [clockTrace, hd]
      refine List.Chain'.cons ?_ hchain
      rw [dispatchEvent_clock]
      exact h.future e (List.getElem?_mem hi)
    · intro s1 hr
      simp only [runPicks, hd] at hr
      exact hinv s1 hr

end

section

variable {T : Type} [LinearOrder T] [Add T] [Zero T]

/-- A min-first run never gets stuck: every pass finds its event. -/
theorem MinFirst_runs (ia sv : Nat → T) :
    ∀ (picks : List Nat) (s : Simulation T), MinFirst ia sv s picks →
      ∃ s1, runPicks ia sv s picks = some s1 := by
  intro picks
  induction picks with
  | nil =>
    intro s _
    exact ⟨s, rfl⟩
  | cons i picks ih =>
    intro s hmf
    simp only [MinFirst, minFirst, Bool.and_eq_true] at hmf
    cases hd : dispatch ia sv s i with
    | none => simp [hd] at hmf
    | some s2 =>
      have hmf2 := hmf.2
      simp only [hd] at hmf2
      obtain ⟨s1, hr⟩ := ih s2 hmf2
      exact ⟨s1, by simp [runPicks, hd, hr]⟩

/-! ## Runs -/

theorem eq_some_getD {α : Type} (o : Option α) (d : α) (h : o.isSome = true) :
    o = some (o.getD d) := by
  cases o with
  | none => simp at h
  | some a => rfl

theorem unitSamples_nonneg : ∀ m, 0 ≤ unitSamples m := by
  intro m
  simp [unitSamples]

theorem stormService_nonneg : ∀ m, 0 ≤ stormService m := by
  intro m
  unfold stormService
  rcases m with _ | _ | _ | _ | m <;> simp

/-- The events popped by a run are counted by the two counters. -/
theorem dispatchedEvents_counters (ia sv : Nat → T) :
    ∀ (picks : List Nat) (s s1 : Simulation T), runPicks ia sv s picks = some s1 →
      (dispatchedEvents ia sv s picks).countP (fun e => e.type = EventType.ARRIVAL)
          + s.total_customers = s1.total_customers ∧
      (dispatchedEvents ia sv s picks).countP (fun e => e.type = EventType.DEPARTURE)
          + s.ghost_departures_dispatched = s1.ghost_departures_dispatched ∧
      (dispatchedEvents ia sv s picks).length = picks.length := by
  intro picks
  induction picks with
  | nil =>
    intro s s1 hr
    simp only [runPicks, Option.some.injEq] at hr
    rw [← hr]
    simp [dispatchedEvents]
  | cons i picks ih =>
    intro s s1 hr
    simp only [runPicks] at hr
    cases hd : dispatch ia sv s i with
    | none => simp [hd] at hr
    | some s2 =>
      simp only [hd] at hr
      obtain ⟨e, hi, hs2⟩ := dispatch_eq ia sv s s2 i hd
      have hc := dispatchEvent_counters ia sv s i e
      rw [← hs2] at hc
      obtain ⟨h1, h2, h3⟩ := ih s2 s1 hr
      simp only [dispatchedEvents, hi, List.countP_cons, List.length_cons, ← hs2]
      cases he : e.type with
      | ARRIVAL =>
        simp [he] at hc ⊢
        omega
      | DEPARTURE =>
        simp [he] at hc ⊢
        omega

theorem clockTrace_eq (ia sv : Nat → T) :
    ∀ (picks : List Nat) (s : Simulation T),
      clockTrace ia sv s picks = (dispatchedEvents ia sv s picks).map Event.invoke_time := by
  intro picks
  induction picks with
  | nil =>
    intro s
    rfl
  | cons i picks ih =>
    intro s
    cases hi : s.event_queue[i]? with
    | none => simp [clockTrace, dispatchedEvents, dispatch, hi]
    | some e =>
      simp [clockTrace, dispatchedEvents, dispatch, hi, ih, dispatchEvent_clock]

/-- Every event record has its observation. -/
theorem observations_records (ia sv : Nat → T) (n k : Nat) (s : Simulation T)
    (h : Reachable ia sv n k s) :
    s.ghost_observations.map Observation.record = s.simulation_log.event_records := by
  induction h with
  | init => rfl
  | step s0 s1 i _ hd ih =>
    obtain ⟨e, hi, hs1⟩ := dispatch_eq ia sv s0 s1 i hd
    rw [hs1]
    unfold dispatchEvent
    cases he : e.type with
    | ARRIVAL =>
      simp only []
      unfold HandleArrival scheduleNextArrival
      simp only []
      split_ifs <;>
        simp [CreateArrivalLog, Simulation.logEvent, SimulationLog.CreateEventRecord, joinQueue,
          Simulation.pushEvent, popEvent, ih, queueSizes]
    | DEPARTURE =>
      simp only []
      unfold HandleDeparture
      simp only []
      apply foldl_preserves (fun a : Simulation T =>
        a.ghost_observations.map Observation.record = a.simulation_log.event_records)
      · intro a b ha
        rcases refill_cases sv e.target_server a b with ⟨heq, _⟩ | ⟨front, rest, _, heq⟩
        · rw [heq]
          exact ha
        · rw [heq]
          simp [ha]
      · simp [CreateDepartureLog, Simulation.logEvent, SimulationLog.CreateEventRecord,
          SimulationLog.CreateCustomerRecord, freeServer, noteDeparture, popEvent, ih]

/-- When the loop of `Run` has finished, `max k 1` customers have been created,
each has its Arrival record and each has left: there are `max k 1` Departure
records and `max k 1` customer records. -/
theorem complete_run_counts (ia sv : Nat → T) (n k : Nat) (hn : 1 ≤ n) (s : Simulation T)
    (h : Reachable ia sv n k s) (hq : s.event_queue = []) :
    recordsOfKind "Arrival" s = max k 1 ∧ recordsOfKind "Departure" s = max k 1 ∧
      s.simulation_log.customer_records.length = max k 1 := by
  have hinv := CountInv_reachable ia sv n k hn s h
  have hdr := Draining_reachable ia sv n k hn s h
  have hz := (passesLeft_eq_zero_iff n k s hinv hdr).1 hq
  have h1 := hinv.arrivals
  have h2 := hinv.departures
  have h3 := hinv.customers
  have h4 := hinv.balance
  have h5 := hinv.bounded
  unfold passesLeft at hz
  omega

/-! ## The run as a whole -/

end

section

variable {T : Type} [LinearOrderedCommRing T]

/-- C1: Monotonic clock. In every run started from `Initialize` with at least
one server, non-negative inter-arrival and service samples and an event queue
that pops an event of least `invoke_time`, every pass of the loop sets the clock
(to the `invoke_time` of the event it pops), and the clock values, starting with
the one before the first pop, never decrease. -/
theorem clock_monotone (ia sv : Nat → T) (n k : Nat) (hn : 1 ≤ n)
    (hia : ∀ m, 0 ≤ ia m) (hsv : ∀ m, 0 ≤ sv m) (picks : List Nat)
    (hmf : MinFirst ia sv (start ia n k) picks) :
    List.Chain' (fun a b => a ≤ b)
        ((start ia n k).clock :: clockTrace ia sv (start ia n k) picks) ∧
      clockTrace ia sv (start ia n k) picks =
        (dispatchedEvents ia sv (start ia n k) picks).map Event.invoke_time ∧
      (clockTrace ia sv (start ia n k) picks).length = picks.length := by
  refine ⟨(TimeInv_run ia sv hia hsv picks _ (TimeInv_start ia hia n k) hmf).1,
    clockTrace_eq ia sv picks _, ?_⟩
  obtain ⟨s1, hr⟩ := MinFirst_runs ia sv picks _ hmf
  rw [clockTrace_eq, List.length_map]
  exact (dispatchedEvents_counters ia sv picks _ s1 hr).2.2

/-- Witness for C1: two servers, target 4, inter-arrival samples 1 and service
samples 10, 20, 1, 2. -/
theorem clock_monotone_witness :
    MinFirst unitSamples stormService stormStart stormPicks ∧
      clockTrace unitSamples stormService stormStart stormPicks = [1, 2, 3, 4, 11, 12, 13, 22] ∧
      List.Chain' (fun a b => a ≤ b)
        (stormStart.clock :: clockTrace unitSamples stormService stormStart stormPicks) :=
  ⟨by decide, by decide,
    (clock_monotone unitSamples stormService 2 4 (by decide) unitSamples_nonneg
      stormService_nonneg stormPicks (by decide)).1⟩

/-- C2: with target 0 the run still emits one Arrival record, where the claim
says none: `Initialize` schedules the first arrival without looking at the
target. One server, samples all 1; the run is complete after two passes. -/
theorem arrival_records_target_zero :
    (runPicks unitSamples unitSamples (start unitSamples 1 0) [0, 0]).map
      (fun s => (s.event_queue, recordsOfKind "Arrival" s)) = some ([], 1) := by
  decide

/-- C3: with target 0 the finished run has one Departure record and one
customer record, where the claim says at most 0 and exactly 0. -/
theorem departure_records_target_zero :
    (runPicks unitSamples unitSamples (start unitSamples 1 0) [0, 0]).map
      (fun s => (s.event_queue, recordsOfKind "Departure" s,
        s.simulation_log.customer_records.length)) = some ([], 1, 1) := by
  decide

/-- C4: two customer records of one run carry server 0 and both cover the
instant 11. Two servers, target 4, inter-arrival samples 1, service samples 10,
20, 1, 2: customers 3 and 4 wait in queues 0 and 1; the departure at time 11
puts both on server 0, and customer 4 is persisted by each of the two Departure
events that were scheduled. -/
theorem storm_records_overlap :
    MinFirst unitSamples stormService stormStart stormPicks ∧
      (runPicks unitSamples stormService stormStart stormPicks).map
          (fun s => (s.event_queue, s.simulation_log.customer_records)) =
        some ([],
          [{ serial := 1, arrival_time := 1, service_start_time := some 1,
             departure_time := some 11, server := 0 },
           stormRecordAt12, stormRecordAt13,
           { serial := 2, arrival_time := 2, service_start_time := some 2,
             departure_time := some 22, server := 1 }]) ∧
      stormRecordAt12.server = stormRecordAt13.server ∧
      stormRecordAt12.covers 11 = true ∧ stormRecordAt13.covers 11 = true := by
  decide

/-- C5: Causality. In every run with non-negative samples and a min-first event
queue, every customer record persisted by `CreateDepartureLog` has a service
start time and a departure time, and
`arrival_time ≤ service_start_time ≤ departure_time`. -/
theorem customer_records_causal (ia sv : Nat → T) (n k : Nat) (hn : 1 ≤ n)
    (hia : ∀ m, 0 ≤ ia m) (hsv : ∀ m, 0 ≤ sv m) (picks : List Nat) (s : Simulation T)
    (hmf : MinFirst ia sv (start ia n k) picks)
    (hr : runPicks ia sv (start ia n k) picks = some s) :
    ∀ r ∈ s.simulation_log.customer_records,
      ∃ st dp, r.service_start_time = some st ∧ r.departure_time = some dp ∧
        r.arrival_time ≤ st ∧ st ≤ dp :=
  ((TimeInv_run ia sv hia hsv picks _ (TimeInv_start ia hia n k) hmf).2 s hr).records

/-- Witness for C5: the four customer records of the run with two servers,
target 4, inter-arrival samples 1 and service samples 10, 20, 1, 2. -/
theorem customer_records_causal_witness :
    ((runPicks unitSamples stormService stormStart stormPicks).getD
        stormStart).simulation_log.customer_records.length = 4 ∧
      ∀ r ∈ ((runPicks unitSamples stormService stormStart stormPicks).getD
          stormStart).simulation_log.customer_records,
        ∃ st dp, r.service_start_time = some st ∧ r.departure_time = some dp ∧
          r.arrival_time ≤ st ∧ st ≤ dp :=
  ⟨by decide,
    customer_records_causal unitSamples stormService 2 4 (by decide) unitSamples_nonneg
      stormService_nonneg stormPicks _ (by decide)
      (eq_some_getD _ stormStart (by decide))⟩

end

section

variable {T : Type} [LinearOrder T] [Add T] [Zero T]

/-- C6: Snapshot bound. In every run, every event record (Arrival, Service or
Departure) was written in a state in which the sizes in its snapshot plus the
number of Busy servers was at most the number of customers created so far minus
the number of Departure events dispatched so far (the one being handled
included), and that difference is a true difference. -/
theorem snapshot_bound (ia sv : Nat → T) (n k : Nat) (hn : 1 ≤ n) (picks : List Nat)
    (s : Simulation T) (hr : runPicks ia sv (start ia n k) picks = some s) :
    s.ghost_observations.map Observation.record = s.simulation_log.event_records ∧
      ∀ o ∈ s.ghost_observations,
        o.departures_dispatched ≤ o.customers_created ∧
        o.record.current_queue_size.sum + o.busy_servers
          ≤ o.customers_created - o.departures_dispatched := by
  have hreach := Reachable_runPicks ia sv n k picks _ s Reachable.init hr
  refine ⟨observations_records ia sv n k s hreach, ?_⟩
  intro o ho
  have := (CountInv_reachable ia sv n k hn s hreach).observed o ho
  unfold Observation.WithinBound at this
  omega

/-- Witness for C6: the twelve event records of the run with two servers,
target 4, inter-arrival samples 1 and service samples 10, 20, 1, 2. -/
theorem snapshot_bound_witness :
    ((runPicks unitSamples stormService stormStart stormPicks).getD
        stormStart).simulation_log.event_records.length = 12 ∧
      ∀ o ∈ ((runPicks unitSamples stormService stormStart stormPicks).getD
          stormStart).ghost_observations,
        o.departures_dispatched ≤ o.customers_created ∧
        o.record.current_queue_size.sum + o.busy_servers
          ≤ o.customers_created - o.departures_dispatched :=
  ⟨by decide,
    (snapshot_bound unitSamples stormService 2 4 (by decide) stormPicks _
      (eq_some_getD _ stormStart (by decide))).2⟩

/-- C7: with target 0 the complete run dispatches one Arrival event, where the
claim bounds the number of Arrival dispatches by the target: `Initialize`
schedules the first arrival without the comparison of the customer counter with
the target that `HandleArrival` makes before it schedules the next one (the
defect behind C2 and C3). One server, samples all 1; the loop ends after two
passes. -/
theorem arrival_dispatches_exceed_target_zero :
    (runPicks unitSamples unitSamples (start unitSamples 1 0) [0, 0]).map
        (fun s => s.event_queue) = some [] ∧
      (dispatchedEvents unitSamples unitSamples (start unitSamples 1 0) [0, 0]).countP
        (fun e => e.type = EventType.ARRIVAL) = 1 ∧
      ¬ (dispatchedEvents unitSamples unitSamples (start unitSamples 1 0) [0, 0]).countP
        (fun e => e.type = EventType.ARRIVAL)
          ≤ (start unitSamples 1 0 : Simulation ℤ).number_of_customers := by
  decide

/-- The loop of `Run` ends. For at least one server, every target `k` and
arbitrary sample sequences there is a bound (`2 * k` when the target is at least
1) such that `Run` returns with an empty event queue as soon as its fuel reaches
the bound and such that, whatever events the passes pop, no run has more passes
than the bound. The loop has no check of the customer counter: when the target
is at least 1 the number of Arrival dispatches is at most the target, and every
Departure dispatch has a Service record of its own (Departure dispatches plus
pending Departure events equal the Service records). -/
theorem run_terminates (ia sv : Nat → T) (n k : Nat) (hn : 1 ≤ n) :
    ∃ bound, (1 ≤ k → bound = 2 * k) ∧
      (∀ fuel, bound ≤ fuel →
        ∃ s, Run ia sv fuel (start ia n k) = some s ∧ s.event_queue = []) ∧
      ∀ picks s, runPicks ia sv (start ia n k) picks = some s →
        picks.length ≤ bound ∧
        (s.event_queue = [] ↔ picks.length = bound) ∧
        (1 ≤ k → (dispatchedEvents ia sv (start ia n k) picks).countP
          (fun e => e.type = EventType.ARRIVAL) ≤ k) ∧
        (dispatchedEvents ia sv (start ia n k) picks).countP
          (fun e => e.type = EventType.DEPARTURE) + departuresPending s
            = recordsOfKind "Service" s := by
  refine ⟨2 * max k 1, ?_, ?_, ?_⟩
  · intro hk
    rw [max_eq_left hk]
  · intro fuel hfuel
    obtain ⟨s, h1, h2, _⟩ := Run_returns ia sv n k hn fuel (start ia n k) Reachable.init
      (by rw [passesLeft_start]; exact hfuel)
    exact ⟨s, h1, h2⟩
  · intro picks s hr
    have hreach := Reachable_runPicks ia sv n k picks _ s Reachable.init hr
    have hinv := CountInv_reachable ia sv n k hn s hreach
    have hdr := Draining_reachable ia sv n k hn s hreach
    have hlen := passesLeft_runPicks ia sv n k hn picks _ s Reachable.init hr
    rw [passesLeft_start] at hlen
    have hz := passesLeft_eq_zero_iff n k s hinv hdr
    obtain ⟨hc1, hc2, _⟩ := dispatchedEvents_counters ia sv picks _ s hr
    have hb := hinv.bounded
    have hs := hinv.services
    have ht0 : (start ia n k : Simulation T).total_customers = 0 := rfl
    have hg0 : (start ia n k : Simulation T).ghost_departures_dispatched = 0 := rfl
    rw [ht0] at hc1
    rw [hg0] at hc2
    refine ⟨by omega, ?_, ?_, by omega⟩
    · rw [hz]
      omega
    · intro hk
      have : max k 1 = k := max_eq_left hk
      omega

/-- The bound of `run_terminates` at work: two servers, target 4, inter-arrival
samples 1 and service samples 10, 20, 1, 2: the bound is 8, and the run of
`stormPicks` has 8 passes and leaves the event queue empty. -/
theorem run_terminates_witness :
    (runPicks unitSamples stormService stormStart stormPicks).map
        (fun s => s.event_queue) = some [] ∧
      ∃ bound, (1 ≤ 4 → bound = 2 * 4) ∧
        (∀ fuel, bound ≤ fuel →
          ∃ s, Run unitSamples stormService fuel (start unitSamples 2 4) = some s ∧
            s.event_queue = []) ∧
        ∀ picks s, runPicks unitSamples stormService (start unitSamples 2 4) picks = some s →
          picks.length ≤ bound ∧
          (s.event_queue = [] ↔ picks.length = bound) ∧
          (1 ≤ 4 → (dispatchedEvents unitSamples stormService (start unitSamples 2 4)
            picks).countP (fun e => e.type = EventType.ARRIVAL) ≤ 4) ∧
          (dispatchedEvents unitSamples stormService (start unitSamples 2 4) picks).countP
            (fun e => e.type = EventType.DEPARTURE) + departuresPending s
              = recordsOfKind "Service" s :=
  ⟨by decide, run_terminates unitSamples stormService 2 4 (by decide)⟩

/-! ## Construction -/

/-- C11, the claim as stated fails: with the log constructor and `SetMean` of
the spec, construction with no server, and construction with a zero and a
negative mean, both return an object; `Initialize` is then reached and schedules
an event. -/
theorem construct_accepts_invalid :
    (Simulation.construct SimulationLog.new ExponentialRandomNumber.SetMean 0 (1 : ℤ) 1 3 =
      Except.ok { number_of_servers := 0, inter_arrival_time_mean := 1,
                  service_time_mean := 1, number_of_customers := 3,
                  simulation_log := { event_records := [], customer_records := [] } }) ∧
    (Simulation.construct SimulationLog.new ExponentialRandomNumber.SetMean 1 (0 : ℤ) (-1) 3 =
      Except.ok { number_of_servers := 1, inter_arrival_time_mean := 0,
                  service_time_mean := -1, number_of_customers := 3,
                  simulation_log := { event_records := [], customer_records := [] } }) ∧
    (Simulation.Constructed.Initialize unitSamples
        { number_of_servers := 0, inter_arrival_time_mean := 1, service_time_mean := 1,
          number_of_customers := 3,
          simulation_log := { event_records := [], customer_records := [] } }).map
      (fun s => (s.servers.length, s.event_queue)) =
        Except.ok (0, [{ type := EventType.ARRIVAL, invoke_time := 1, target_server := 0 }]) ∧
    (Simulation.Constructed.Initialize unitSamples
        { number_of_servers := 1, inter_arrival_time_mean := 0, service_time_mean := -1,
          number_of_customers := 3,
          simulation_log := { event_records := [], customer_records := [] } }).map
      (fun s => (s.servers.length, s.event_queue)) =
        Except.ok (1, [{ type := EventType.ARRIVAL, invoke_time := 1, target_server := 0 }]) :=
  ⟨rfl, rfl, rfl, rfl⟩

/-- C11, amended: the constructor validates nothing itself. Whatever
`SimulationLog(int)` and `SetMean` do, construction fails only with an error that
one of them raised on its own argument; when they return, construction returns
an object that holds the four parameters unchanged, for every number of servers
(zero and negative ones included) and every pair of means (non-positive ones
included). On that object `Initialize` is reached: with a non-negative number
of servers it creates that many servers and queues and schedules the first
Arrival; with a negative one it ends with `std::length_error`. -/
theorem construct_validates_nothing {ε : Type} (newLog : Int → Except ε (SimulationLog T))
    (SetMean : T → Except ε Unit) (ia : Nat → T) (number_of_servers : Int)
    (inter_arrival_time_mean service_time_mean : T) (number_of_customers : Int) :
    (∀ e, Simulation.construct newLog SetMean number_of_servers inter_arrival_time_mean
        service_time_mean number_of_customers = Except.error e →
      newLog number_of_servers = Except.error e ∨
      SetMean inter_arrival_time_mean = Except.error e ∨
      SetMean service_time_mean = Except.error e) ∧
    (∀ log, newLog number_of_servers = Except.ok log →
      SetMean inter_arrival_time_mean = Except.ok () →
      SetMean service_time_mean = Except.ok () →
      Simulation.construct newLog SetMean number_of_servers inter_arrival_time_mean
        service_time_mean number_of_customers =
          Except.ok { number_of_servers := number_of_servers
                      inter_arrival_time_mean := inter_arrival_time_mean
                      service_time_mean := service_time_mean
                      number_of_customers := number_of_customers
                      simulation_log := log }) ∧
    (∀ c, Simulation.construct newLog SetMean number_of_servers inter_arrival_time_mean
        service_time_mean number_of_customers = Except.ok c →
      c.number_of_servers = number_of_servers ∧
      c.inter_arrival_time_mean = inter_arrival_time_mean ∧
      c.service_time_mean = service_time_mean ∧
      c.number_of_customers = number_of_customers ∧
      newLog number_of_servers = Except.ok c.simulation_log ∧
      (0 ≤ number_of_servers →
        ∃ s, c.Initialize ia = Except.ok s ∧
          (s.servers.length : Int) = number_of_servers ∧
          (s.service_queues.length : Int) = number_of_servers ∧
          s.event_queue =
            [{ type := EventType.ARRIVAL, invoke_time := 0 + ia 0, target_server := 0 }]) ∧
      (number_of_servers < 0 →
        c.Initialize ia = Except.error InitializeError.length_error)) := by
  unfold Simulation.construct
  refine ⟨?_, ?_, ?_⟩
  · intro e h
    cases h1 : newLog number_of_servers with
    | error e1 =>
      rw [h1] at h
      simp only [Except.error.injEq] at h
      left
      rw [h]
    | ok log =>
      cases h2 : SetMean inter_arrival_time_mean with
      | error e2 =>
        rw [h1, h2] at h
        simp only [Except.error.injEq] at h
        right
        left
        rw [h]
      | ok u2 =>
        cases h3 : SetMean service_time_mean with
        | error e3 =>
          rw [h1, h2, h3] at h
          simp only [Except.error.injEq] at h
          right
          right
          rw [h]
        | ok u3 =>
          rw [h1, h2, h3] at h
          cases h
  · intro log h1 h2 h3
    rw [h1, h2, h3]
  · intro c h
    cases h1 : newLog number_of_servers with
    | error e1 =>
      rw [h1] at h
      cases h
    | ok log =>
      cases h2 : SetMean inter_arrival_time_mean with
      | error e2 =>
        rw [h1, h2] at h
        cases h
      | ok u2 =>
        cases h3 : SetMean service_time_mean with
        | error e3 =>
          rw [h1, h2, h3] at h
          cases h
        | ok u3 =>
          rw [h1, h2, h3] at h
          simp only [Except.ok.injEq] at h
          subst h
          refine ⟨rfl, rfl, rfl, rfl, rfl, ?_, ?_⟩
          · intro hn
            have hnot : ¬ number_of_servers < 0 := not_lt.mpr hn
            refine ⟨Initialize ia (Simulation.Constructed.state
              { number_of_servers := number_of_servers
                inter_arrival_time_mean := inter_arrival_time_mean
                service_time_mean := service_time_mean
                number_of_customers := number_of_customers
                simulation_log := log }), ?_, ?_, ?_, rfl⟩
            · simp only [Simulation.Constructed.Initialize, hnot, if_false]
            · simp [Initialize, Simulation.Constructed.state, Simulation.new,
                Simulation.pushEvent, Int.toNat_of_nonneg hn]
            · simp [Initialize, Simulation.Constructed.state, Simulation.new,
                Simulation.pushEvent, resizeQueues, Int.toNat_of_nonneg hn]
          · intro hn
            simp only [Simulation.Constructed.Initialize, hn, if_true]

/-- Witness for C11: with the log constructor and `SetMean` of the spec,
construction with no server and non-positive means returns the object that holds
these values. -/
theorem construct_validates_nothing_witness :
    Simulation.construct SimulationLog.new ExponentialRandomNumber.SetMean 0 (0 : ℤ) (-1) 3 =
      Except.ok { number_of_servers := 0, inter_arrival_time_mean := 0,
                  service_time_mean := -1, number_of_customers := 3,
                  simulation_log := { event_records := [], customer_records := [] } } :=
  (construct_validates_nothing SimulationLog.new ExponentialRandomNumber.SetMean unitSamples 0
    (0 : ℤ) (-1) 3).2.1 _ rfl rfl rfl

/-! ## The drained final state -/

theorem waitingCount_pos_iff (s : Simulation T) :
    0 < waitingCount s ↔ ∃ q ∈ s.service_queues, q ≠ [] := by
  unfold waitingCount queueSizes
  generalize s.service_queues = qs
  induction qs with
  | nil => simp
  | cons q qs ih =>
    simp only [List.map_cons, List.sum_cons, List.mem_cons, exists_eq_or_imp]
    constructor
    · intro h
      by_cases hq : q = []
      · right
        apply ih.1
        simp only [hq, List.length_nil, zero_add] at h
        exact h
      · left
        exact hq
    · rintro (h | h)
      · have : 0 < q.length := List.length_pos.mpr h
        omega
      · have := ih.2 h
        omega

/-- C18: Drained final state. In every state reached from `Initialize` by
complete passes of the loop of `Run` with at least one server, every Busy server
has a pending Departure event that targets it, and a non-empty wait queue
implies a pending Departure event; so when the event queue is empty every wait
queue is empty and every server is Idle. -/
theorem drained_final_state (ia sv : Nat → T) (n k : Nat) (hn : 1 ≤ n) (picks : List Nat)
    (s : Simulation T) (hr : runPicks ia sv (start ia n k) picks = some s) :
    (∀ j srv, s.servers[j]? = some srv → srv.status = ServerStatus.BUSY →
      ∃ e ∈ s.event_queue, e.type = EventType.DEPARTURE ∧ e.target_server = j) ∧
    ((∃ q ∈ s.service_queues, q ≠ []) →
      ∃ e ∈ s.event_queue, e.type = EventType.DEPARTURE) ∧
    (s.event_queue = [] →
      (∀ q ∈ s.service_queues, q = []) ∧
      ∀ srv ∈ s.servers, srv.status = ServerStatus.IDLE) := by
  have hreach := Reachable_runPicks ia sv n k picks _ s Reachable.init hr
  have hinv := CountInv_reachable ia sv n k hn s hreach
  have hdr := Draining_reachable ia sv n k hn s hreach
  have hwait : (∃ q ∈ s.service_queues, q ≠ []) →
      ∃ e ∈ s.event_queue, e.type = EventType.DEPARTURE := by
    intro hq
    have hpos := hdr ((waitingCount_pos_iff s).2 hq)
    obtain ⟨e, he, hd⟩ := List.countP_pos_iff.mp hpos
    exact ⟨e, he, by simpa using hd⟩
  refine ⟨hinv.covered, hwait, ?_⟩
  intro hempty
  constructor
  · intro q hq
    by_contra hne
    obtain ⟨e, he, _⟩ := hwait ⟨q, hq, hne⟩
    rw [hempty] at he
    cases he
  · intro srv hsrv
    by_contra hidle
    obtain ⟨j, hj⟩ := List.getElem?_of_mem hsrv
    obtain ⟨e, he, _⟩ := hinv.covered j srv hj (status_ne_idle hidle)
    rw [hempty] at he
    cases he

/-- Witness for C18: the run with two servers, target 4, inter-arrival samples 1
and service samples 10, 20, 1, 2 ends with every queue empty and every server
Idle. -/
theorem drained_final_state_witness :
    ((runPicks unitSamples stormService stormStart stormPicks).getD stormStart).event_queue = [] ∧
      (∀ q ∈ ((runPicks unitSamples stormService stormStart stormPicks).getD
          stormStart).service_queues, q = []) ∧
      ∀ srv ∈ ((runPicks unitSamples stormService stormStart stormPicks).getD
          stormStart).servers, srv.status = ServerStatus.IDLE :=
  ⟨by decide,
    (drained_final_state unitSamples stormService 2 4 (by decide) stormPicks _
      (eq_some_getD _ stormStart (by decide))).2.2 (by decide)⟩

/-! ## The two branches of `HandleArrival` -/

theorem scheduleNextArrival_frame (ia : Nat → T) (s : Simulation T) :
    (scheduleNextArrival ia s).servers = s.servers ∧
    (scheduleNextArrival ia s).service_queues = s.service_queues ∧
    (scheduleNextArrival ia s).number_of_servers = s.number_of_servers ∧
    (scheduleNextArrival ia s).clock = s.clock ∧
    (scheduleNextArrival ia s).total_customers = s.total_customers ∧
    (scheduleNextArrival ia s).simulation_log = s.simulation_log ∧
    (scheduleNextArrival ia s).service_draws = s.service_draws := by
  unfold scheduleNextArrival
  split_ifs <;> exact ⟨rfl, rfl, rfl, rfl, rfl, rfl, rfl⟩

theorem scheduleNextArrival_event_queue (ia : Nat → T) (s : Simulation T) :
    (scheduleNextArrival ia s).event_queue =
      if s.number_of_customers > s.total_customers then
        s.event_queue ++ [{ type := EventType.ARRIVAL,
                            invoke_time := s.clock + ia s.inter_arrival_draws,
                            target_server := 0 }]
      else s.event_queue := by
  unfold scheduleNextArrival
  split_ifs <;> rfl

/-- The scan returns the first Idle server. -/
theorem GetAvailableServerIndex_first (s : Simulation T)
    (hlen : s.servers.length = s.number_of_servers) (j : Nat) (srv : Server T)
    (hj : s.servers[j]? = some srv) (hidle : srv.status = ServerStatus.IDLE)
    (hbefore : ∀ i, i < j → ∀ x, s.servers[i]? = some x → x.status = ServerStatus.BUSY) :
    GetAvailableServerIndex s = (j : Int) := by
  have hspec := GetAvailableServerIndex.scan_spec s.servers s.number_of_servers 0 (by omega)
  simp only [Nat.zero_le, zero_add, true_implies, true_and] at hspec
  have hjlt : j < s.servers.length := by
    by_contra hcon
    rw [List.getElem?_eq_none (by omega)] at hj
    cases hj
  unfold GetAvailableServerIndex
  rcases hspec with ⟨_, hall⟩ | ⟨k, _, hres, ⟨svk, hsvk, hkidle⟩, hall⟩
  · have := hall j (by omega) srv hj
    rw [hidle] at this
    cases this
  · rw [hres]
    rcases Nat.lt_trichotomy k j with hlt | heq | hgt
    · have := hbefore k hlt svk hsvk
      rw [hkidle] at this
      cases this
    · rw [heq]
    · have := hall j hgt srv hj
      rw [hidle] at this
      cases this

/-- When every server of the pool is Busy the scan returns `-1`. -/
theorem GetAvailableServerIndex_all_busy (s : Simulation T)
    (hlen : s.servers.length = s.number_of_servers)
    (hall : ∀ srv ∈ s.servers, srv.status = ServerStatus.BUSY) :
    GetAvailableServerIndex s = -1 := by
  by_contra hne
  obtain ⟨i, srv, _, hi, hidle⟩ := GetAvailableServerIndex_some s hlen hne
  have := hall srv (List.getElem?_mem hi)
  rw [hidle] at this
  cases this

/-- What `HandleArrival` does when server `j` is the first Idle server of the pool. -/
theorem HandleArrival_idle_effect (ia sv : Nat → T) (s : Simulation T)
    (hlen : s.servers.length = s.number_of_servers) (j : Nat) (srv : Server T)
    (hj : s.servers[j]? = some srv) (hidle : srv.status = ServerStatus.IDLE)
    (hbefore : ∀ i, i < j → ∀ x, s.servers[i]? = some x → x.status = ServerStatus.BUSY) :
    (HandleArrival ia sv s).servers[j]? = some
      { status := ServerStatus.BUSY
        current_customer :=
          { serial := s.total_customers + 1, arrival_time := s.clock,
            service_start_time := some s.clock, departure_time := none,
            server := (j : Int) } } ∧
    (∀ i, i ≠ j → (HandleArrival ia sv s).servers[i]? = s.servers[i]?) ∧
    (HandleArrival ia sv s).servers.length = s.servers.length ∧
    (HandleArrival ia sv s).service_queues = s.service_queues ∧
    (HandleArrival ia sv s).event_queue =
      (if s.number_of_customers > s.total_customers + 1 then
        s.event_queue ++ [{ type := EventType.ARRIVAL,
                            invoke_time := s.clock + ia s.inter_arrival_draws,
                            target_server := 0 }]
      else s.event_queue) ++
      [{ type := EventType.DEPARTURE, invoke_time := s.clock + sv s.service_draws,
         target_server := j }] ∧
    departuresPending (HandleArrival ia sv s) = departuresPending s + 1 ∧
    (HandleArrival ia sv s).simulation_log.event_records =
      s.simulation_log.event_records ++
        [{ event_type := "Arrival", current_simulation_time := s.clock,
           customer_serial := s.total_customers + 1,
           current_queue_size := s.service_queues.map List.length, server_index := -1 },
         { event_type := "Service", current_simulation_time := s.clock,
           customer_serial := s.total_customers + 1,
           current_queue_size := s.service_queues.map List.length,
           server_index := (j : Int) }] ∧
    (HandleArrival ia sv s).simulation_log.customer_records =
      s.simulation_log.customer_records := by
  have hjlt : j < s.servers.length := by
    by_contra hcon
    rw [List.getElem?_eq_none (by omega)] at hj
    cases hj
  obtain ⟨f1, f2, f3, f4, f5, f6, f7⟩ :=
    scheduleNextArrival_frame ia { s with total_customers := s.total_customers + 1 }
  have hq := scheduleNextArrival_event_queue ia { s with total_customers := s.total_customers + 1 }
  simp only [] at f1 f2 f3 f4 f5 f6 f7 hq
  have hidx : GetAvailableServerIndex
      (scheduleNextArrival ia { s with total_customers := s.total_customers + 1 }) = (j : Int) :=
    GetAvailableServerIndex_first _ (by rw [f1, f3]; exact hlen) j srv (by rw [f1]; exact hj)
      hidle (by rw [f1]; exact hbefore)
  have hne : ¬ ((j : Int) = -1) := by omega
  have hcur := startService_current s.servers
    { serial := s.total_customers + 1, arrival_time := s.clock,
      service_start_time := some s.clock, departure_time := none, server := (j : Int) } j hjlt
  unfold HandleArrival
  simp only [hidx, hne, if_false, Int.toNat_ofNat]
  refine ⟨?_, ?_, ?_, ?_, ?_, ?_, ?_, ?_⟩
  · simp only [startService_servers, CreateArrivalLog, Simulation.logEvent, f1, f4,
      List.getElem?_modify, hj, Customer.create]
    simp [Server.SetServerStatus, Server.SetCurrentCustomer]
  · intro i hi
    have hji : ¬ j = i := fun h => hi h.symm
    simp only [startService_servers, CreateArrivalLog, Simulation.logEvent, f1,
      List.getElem?_modify, hji, if_false]
    cases s.servers[i]? <;> simp
  · simp [CreateArrivalLog, Simulation.logEvent, f1]
  · simp [CreateArrivalLog, Simulation.logEvent, f2]
  · simp only [startService_event_queue, CreateArrivalLog, Simulation.logEvent, hq, f4, f7]
  · simp only [departuresPending, startService_event_queue, CreateArrivalLog,
      Simulation.logEvent, hq]
    split_ifs <;> simp [List.countP_append]
  · simp only [startService_event_records, CreateArrivalLog, Simulation.logEvent,
      SimulationLog.CreateEventRecord, f1, f2, f4, f5, f6, queueSizes, Customer.create, hcur,
      List.append_assoc, List.singleton_append]
  · simp [CreateArrivalLog, Simulation.logEvent, SimulationLog.CreateEventRecord, f6]

/-- C16: `HandleArrival` with an Idle server. When server `j` is the first Idle
server of the pool, `HandleArrival` puts the new customer (serial the customer
counter plus one, arrival time the clock) on server `j` with service start time
the clock and assigned server `j`, makes server `j` Busy, leaves the other
servers and every wait queue as they were, pushes the Departure event for
server `j` at the clock plus the next service sample behind whatever Arrival
event the limit check scheduled, so exactly one more Departure event is pending,
and appends to the log an Arrival record with server index `-1` followed by a
Service record with server index `j`, both at the clock, with the new serial and
the unchanged snapshot; no customer record is written. -/
theorem HandleArrival_idle_server (ia sv : Nat → T) (s : Simulation T)
    (hlen : s.servers.length = s.number_of_servers) (j : Nat) (srv : Server T)
    (hj : s.servers[j]? = some srv) (hidle : srv.status = ServerStatus.IDLE)
    (hbefore : ∀ i, i < j → ∀ x, s.servers[i]? = some x → x.status = ServerStatus.BUSY) :
    (HandleArrival ia sv s).servers[j]? = some
      { status := ServerStatus.BUSY
        current_customer :=
          { serial := s.total_customers + 1, arrival_time := s.clock,
            service_start_time := some s.clock, departure_time := none,
            server := (j : Int) } } ∧
    (∀ i, i ≠ j → (HandleArrival ia sv s).servers[i]? = s.servers[i]?) ∧
    (HandleArrival ia sv s).servers.length = s.servers.length ∧
    (HandleArrival ia sv s).service_queues = s.service_queues ∧
    (HandleArrival ia sv s).event_queue =
      (if s.number_of_customers > s.total_customers + 1 then
        s.event_queue ++ [{ type := EventType.ARRIVAL,
                            invoke_time := s.clock + ia s.inter_arrival_draws,
                            target_server := 0 }]
      else s.event_queue) ++
      [{ type := EventType.DEPARTURE, invoke_time := s.clock + sv s.service_draws,
         target_server := j }] ∧
    departuresPending (HandleArrival ia sv s) = departuresPending s + 1 ∧
    (HandleArrival ia sv s).simulation_log.event_records =
      s.simulation_log.event_records ++
        [{ event_type := "Arrival", current_simulation_time := s.clock,
           customer_serial := s.total_customers + 1,
           current_queue_size := s.service_queues.map List.length, server_index := -1 },
         { event_type := "Service", current_simulation_time := s.clock,
           customer_serial := s.total_customers + 1,
           current_queue_size := s.service_queues.map List.length,
           server_index := (j : Int) }] ∧
    (HandleArrival ia sv s).simulation_log.customer_records =
      s.simulation_log.customer_records :=
  HandleArrival_idle_effect ia sv s hlen j srv hj hidle hbefore

/-- Witness for C16: servers Busy, Idle, Idle and empty queues, the customer
goes to server 1. -/
theorem HandleArrival_idle_server_witness :
    (HandleArrival unitSamples unitSamples
        (poolState [ServerStatus.BUSY, ServerStatus.IDLE, ServerStatus.IDLE]
          [[], [], []])).servers.map (fun srv => (srv.status, srv.current_customer.serial)) =
        [(ServerStatus.BUSY, 0), (ServerStatus.BUSY, 1), (ServerStatus.IDLE, 0)] ∧
      (HandleArrival unitSamples unitSamples
        (poolState [ServerStatus.BUSY, ServerStatus.IDLE, ServerStatus.IDLE]
          [[], [], []])).service_queues = [[], [], []] :=
  ⟨by decide,
    (HandleArrival_idle_server unitSamples unitSamples
      (poolState [ServerStatus.BUSY, ServerStatus.IDLE, ServerStatus.IDLE] [[], [], []])
      (by decide) 1 { status := ServerStatus.IDLE, current_customer := Customer.blank }
      (by decide) (by decide)
      (by
        intro i hi x hx
        have hi0 : i = 0 := by omega
        subst hi0
        simp [poolState] at hx
        subst hx
        rfl)).2.2.2.1⟩

/-- What `HandleArrival` does when every server of the pool is Busy. -/
theorem HandleArrival_busy_effect (ia sv : Nat → T) (s : Simulation T)
    (hlen : s.servers.length = s.number_of_servers)
    (hqlen : s.service_queues.length = s.number_of_servers)
    (hn : 1 ≤ s.number_of_servers)
    (hall : ∀ srv ∈ s.servers, srv.status = ServerStatus.BUSY) :
    GetSmallestQueue s < s.service_queues.length ∧
    (HandleArrival ia sv s).service_queues =
      s.service_queues.modify
        (fun q => q ++ [{ serial := s.total_customers + 1, arrival_time := s.clock,
                          service_start_time := none, departure_time := none, server := -1 }])
        (GetSmallestQueue s) ∧
    (∀ old, s.service_queues[GetSmallestQueue s]? = some old →
      (HandleArrival ia sv s).service_queues[GetSmallestQueue s]? =
        some (old ++ [{ serial := s.total_customers + 1, arrival_time := s.clock,
                        service_start_time := none, departure_time := none, server := -1 }])) ∧
    (∀ i, i ≠ GetSmallestQueue s →
      (HandleArrival ia sv s).service_queues[i]? = s.service_queues[i]?) ∧
    (HandleArrival ia sv s).servers = s.servers ∧
    (HandleArrival ia sv s).event_queue =
      (if s.number_of_customers > s.total_customers + 1 then
        s.event_queue ++ [{ type := EventType.ARRIVAL,
                            invoke_time := s.clock + ia s.inter_arrival_draws,
                            target_server := 0 }]
      else s.event_queue) ∧
    departuresPending (HandleArrival ia sv s) = departuresPending s ∧
    (HandleArrival ia sv s).simulation_log.event_records =
      s.simulation_log.event_records ++
        [{ event_type := "Arrival", current_simulation_time := s.clock,
           customer_serial := s.total_customers + 1,
           current_queue_size := (HandleArrival ia sv s).service_queues.map List.length,
           server_index := -1 }] ∧
    ((HandleArrival ia sv s).service_queues.map List.length).length = s.number_of_servers ∧
    ((HandleArrival ia sv s).service_queues.map List.length).sum =
      (s.service_queues.map List.length).sum + 1 ∧
    (HandleArrival ia sv s).simulation_log.customer_records =
      s.simulation_log.customer_records := by
  obtain ⟨f1, f2, f3, f4, f5, f6, f7⟩ :=
    scheduleNextArrival_frame ia { s with total_customers := s.total_customers + 1 }
  have hq := scheduleNextArrival_event_queue ia { s with total_customers := s.total_customers + 1 }
  simp only [] at f1 f2 f3 f4 f5 f6 f7 hq
  have hidx : GetAvailableServerIndex
      (scheduleNextArrival ia { s with total_customers := s.total_customers + 1 }) = -1 :=
    GetAvailableServerIndex_all_busy _ (by rw [f1, f3]; exact hlen) (by rw [f1]; exact hall)
  have hsmall : GetSmallestQueue
      (scheduleNextArrival ia { s with total_customers := s.total_customers + 1 }) =
        GetSmallestQueue s := by
    unfold GetSmallestQueue
    rw [f2]
  have hlt : GetSmallestQueue s < s.service_queues.length :=
    GetSmallestQueue_lt s (by omega)
  have hqueues : (HandleArrival ia sv s).service_queues =
      s.service_queues.modify
        (fun q => q ++ [{ serial := s.total_customers + 1, arrival_time := s.clock,
                          service_start_time := none, departure_time := none, server := -1 }])
        (GetSmallestQueue s) := by
    unfold HandleArrival
    simp only [hidx, if_true, hsmall]
    simp only [CreateArrivalLog, Simulation.logEvent, joinQueue, f2, Customer.create]
  refine ⟨hlt, hqueues, ?_, ?_, ?_, ?_, ?_, ?_, ?_, ?_, ?_⟩
  · intro old hold
    rw [hqueues, List.getElem?_modify, hold]
    simp
  · intro i hi
    have hne : ¬ GetSmallestQueue s = i := fun h => hi h.symm
    rw [hqueues, List.getElem?_modify]
    simp only [hne, if_false]
    cases s.service_queues[i]? <;> simp
  · unfold HandleArrival
    simp only [hidx, if_true]
    simp only [CreateArrivalLog, Simulation.logEvent, joinQueue, f1]
  · unfold HandleArrival
    simp only [hidx, if_true]
    simp only [CreateArrivalLog, Simulation.logEvent, joinQueue, hq]
  · unfold HandleArrival
    simp only [hidx, if_true]
    simp only [departuresPending, CreateArrivalLog, Simulation.logEvent, joinQueue, hq]
    split_ifs <;> simp [List.countP_append]
  · rw [hqueues]
    unfold HandleArrival
    simp only [hidx, if_true, hsmall]
    simp only [CreateArrivalLog, Simulation.logEvent, SimulationLog.CreateEventRecord, joinQueue,
      queueSizes, f2, f4, f6, Customer.create]
  · rw [hqueues]
    simp [hqlen]
  · rw [hqueues]
    exact sum_length_modify _ s.service_queues (GetSmallestQueue s) hlt
  · unfold HandleArrival
    simp only [hidx, if_true]
    simp only [CreateArrivalLog, Simulation.logEvent, SimulationLog.CreateEventRecord, joinQueue,
      f6]

/-- C17: `HandleArrival` with no Idle server. When every server of the pool is
Busy (and there is at least one server, with one wait queue per server),
`HandleArrival` appends the new customer at the back of the wait queue chosen by
`GetSmallestQueue` and leaves the other queues as they were, changes no server,
schedules no Departure event (the event queue only gains the Arrival event of
the limit check), and appends exactly one event record: an Arrival record at the
clock with the new serial, server index `-1` and the sizes of the wait queues
after the customer has joined, one per server slot; no customer record is
written. -/
theorem HandleArrival_all_busy (ia sv : Nat → T) (s : Simulation T)
    (hlen : s.servers.length = s.number_of_servers)
    (hqlen : s.service_queues.length = s.number_of_servers)
    (hn : 1 ≤ s.number_of_servers)
    (hall : ∀ srv ∈ s.servers, srv.status = ServerStatus.BUSY) :
    GetSmallestQueue s < s.service_queues.length ∧
    (HandleArrival ia sv s).service_queues =
      s.service_queues.modify
        (fun q => q ++ [{ serial := s.total_customers + 1, arrival_time := s.clock,
                          service_start_time := none, departure_time := none, server := -1 }])
        (GetSmallestQueue s) ∧
    (∀ old, s.service_queues[GetSmallestQueue s]? = some old →
      (HandleArrival ia sv s).service_queues[GetSmallestQueue s]? =
        some (old ++ [{ serial := s.total_customers + 1, arrival_time := s.clock,
                        service_start_time := none, departure_time := none, server := -1 }])) ∧
    (∀ i, i ≠ GetSmallestQueue s →
      (HandleArrival ia sv s).service_queues[i]? = s.service_queues[i]?) ∧
    (HandleArrival ia sv s).servers = s.servers ∧
    (HandleArrival ia sv s).event_queue =
      (if s.number_of_customers > s.total_customers + 1 then
        s.event_queue ++ [{ type := EventType.ARRIVAL,
                            invoke_time := s.clock + ia s.inter_arrival_draws,
                            target_server := 0 }]
      else s.event_queue) ∧
    departuresPending (HandleArrival ia sv s) = departuresPending s ∧
    (HandleArrival ia sv s).simulation_log.event_records =
      s.simulation_log.event_records ++
        [{ event_type := "Arrival", current_simulation_time := s.clock,
           customer_serial := s.total_customers + 1,
           current_queue_size := (HandleArrival ia sv s).service_queues.map List.length,
           server_index := -1 }] ∧
    ((HandleArrival ia sv s).service_queues.map List.length).length = s.number_of_servers ∧
    ((HandleArrival ia sv s).service_queues.map List.length).sum =
      (s.service_queues.map List.length).sum + 1 ∧
    (HandleArrival ia sv s).simulation_log.customer_records =
      s.simulation_log.customer_records :=
  HandleArrival_busy_effect ia sv s hlen hqlen hn hall

/-- Witness for C17: three Busy servers and queues of sizes 1, 0, 1; the customer
joins queue 1. -/
theorem HandleArrival_all_busy_witness :
    (HandleArrival unitSamples unitSamples
        (poolState [ServerStatus.BUSY, ServerStatus.BUSY, ServerStatus.BUSY]
          [[waiting 1], [], [waiting 2]])).service_queues.map List.length = [1, 1, 1] ∧
      (HandleArrival unitSamples unitSamples
        (poolState [ServerStatus.BUSY, ServerStatus.BUSY, ServerStatus.BUSY]
          [[waiting 1], [], [waiting 2]])).servers =
        (poolState [ServerStatus.BUSY, ServerStatus.BUSY, ServerStatus.BUSY]
          [[waiting 1], [], [waiting 2]]).servers :=
  ⟨by decide,
    (HandleArrival_all_busy unitSamples unitSamples
      (poolState [ServerStatus.BUSY, ServerStatus.BUSY, ServerStatus.BUSY]
        [[waiting 1], [], [waiting 2]])
      (by decide) (by decide) (by decide) (by decide)).2.2.2.2.1⟩

/-! ## The refill loop of `HandleDeparture` -/

@[simp] theorem startService_service_draws (sv : Nat → T) (s : Simulation T) (c : Customer T)
    (i : Nat) : (startService sv s c i).service_draws = s.service_draws + 1 := rfl

theorem fronts_take_succ (qs : List (List (Customer T))) (j : Nat) (q : List (Customer T))
    (hq : qs[j]? = some q) :
    fronts (qs.take (j + 1)) = fronts (qs.take j) ++ q.head?.toList := by
  unfold fronts
  rw [List.take_succ, List.filterMap_append, hq]
  cases q <;> simp [List.filterMap]

/-- What the first `j` passes of the loop of `HandleDeparture` have done to a
state `s0` whose pool has the server `t`. -/
theorem refill_loop_spec (sv : Nat → T) (t : Nat) (s0 : Simulation T)
    (ht : t < s0.servers.length) :
    ∀ j, j ≤ s0.service_queues.length →
      (∀ i, ((List.range j).foldl (HandleDeparture.refill sv t) s0).service_queues[i]? =
        if i < j then (s0.service_queues[i]?).map List.tail else s0.service_queues[i]?) ∧
      ((List.range j).foldl (HandleDeparture.refill sv t) s0).event_queue =
        s0.event_queue ++ refillEvents sv s0 t (fronts (s0.service_queues.take j)).length ∧
      ((List.range j).foldl (HandleDeparture.refill sv t) s0).service_draws =
        s0.service_draws + (fronts (s0.service_queues.take j)).length ∧
      ((List.range j).foldl (HandleDeparture.refill sv t) s0).clock = s0.clock ∧
      ((List.range j).foldl (HandleDeparture.refill sv t) s0).servers.length =
        s0.servers.length ∧
      (∀ i, i ≠ t →
        ((List.range j).foldl (HandleDeparture.refill sv t) s0).servers[i]? = s0.servers[i]?) ∧
      ((List.range j).foldl (HandleDeparture.refill sv t) s0).servers[t]? =
        (match (fronts (s0.service_queues.take j)).getLast? with
         | none => s0.servers[t]?
         | some c => some { status := ServerStatus.BUSY,
                            current_customer := c.assign t s0.clock }) ∧
      (∃ svc : List (EventRecord T),
        ((List.range j).foldl (HandleDeparture.refill sv t) s0).simulation_log.event_records =
          s0.simulation_log.event_records ++ svc ∧
        svc.map EventRecord.customer_serial =
          (fronts (s0.service_queues.take j)).map Customer.serial ∧
        ∀ r ∈ svc, r.event_type = "Service" ∧ r.server_index = (t : Int) ∧
          r.current_simulation_time = s0.clock) ∧
      ((List.range j).foldl (HandleDeparture.refill sv t) s0).simulation_log.customer_records =
        s0.simulation_log.customer_records := by
  intro j
  induction j with
  | zero =>
    intro _
    refine ⟨?_, ?_, ?_, rfl, rfl, fun _ _ => rfl, ?_, ⟨[], ?_, ?_, ?_⟩, rfl⟩
    · intro i
      simp
    · simp [refillEvents, fronts]
    · simp [fronts]
    · simp [fronts]
    · simp
    · simp [fronts]
    · intro r hr
      cases hr
  | succ j ih =>
    intro hj
    obtain ⟨hqs, hev, hdraws, hclock, hslen, hother, htarget, ⟨svc, hrec, hser, hsvc⟩, hcust⟩ :=
      ih (by omega)
    have hjlt : j < s0.service_queues.length := by omega
    have hget : s0.service_queues[j]? = some s0.service_queues[j] :=
      List.getElem?_eq_getElem hjlt
    have hqj : ((List.range j).foldl (HandleDeparture.refill sv t) s0).service_queues[j]? =
        some s0.service_queues[j] := by
      rw [hqs j]
      simp [hget]
    have hfr := fronts_take_succ s0.service_queues j _ hget
    rw [List.range_succ, List.foldl_append]
    simp only [List.foldl_cons, List.foldl_nil]
    rcases refill_cases sv t ((List.range j).foldl (HandleDeparture.refill sv t) s0) j with
      ⟨heq, hempty⟩ | ⟨front, rest, hq, heq⟩
    · have hnil : s0.service_queues[j] = [] := hempty _ hqj
      rw [hnil] at hfr
      simp only [List.head?_nil, Option.toList_none, List.append_nil] at hfr
      rw [heq, hfr]
      refine ⟨?_, hev, hdraws, hclock, hslen, hother, htarget, ⟨svc, hrec, hser, hsvc⟩, hcust⟩
      intro i
      rw [hqs i]
      rcases Nat.lt_trichotomy i j with h | h | h
      · have h2 : i < j + 1 := by omega
        simp [h, h2]
      · subst h
        simp [hget, hnil]
      · have h1 : ¬ i < j := by omega
        have h2 : ¬ i < j + 1 := by omega
        simp [h1, h2]
    · have hcons : s0.service_queues[j] = front :: rest := by
        rw [hqj] at hq
        exact Option.some.inj hq
      rw [hcons] at hfr
      simp only [List.head?_cons, Option.toList_some] at hfr
      have htlt : t < ((List.range j).foldl (HandleDeparture.refill sv t) s0).servers.length := by
        rw [hslen]
        exact ht
      have hcur := startService_current
        ((List.range j).foldl (HandleDeparture.refill sv t) s0).servers
        { front with server := (t : Int), service_start_time := some s0.clock }
        t htlt
      rw [heq, hfr]
      refine ⟨?_, ?_, ?_, ?_, ?_, ?_, ?_, ⟨svc ++
        [{ event_type := "Service", current_simulation_time := s0.clock,
           customer_serial := front.serial,
           current_queue_size :=
             (((List.range j).foldl (HandleDeparture.refill sv t) s0).service_queues.set j
               rest).map List.length,
           server_index := (t : Int) }], ?_, ?_, ?_⟩, ?_⟩
      · intro i
        simp only [startService_service_queues, List.getElem?_set]
        rcases Nat.lt_trichotomy i j with h | h | h
        · have h2 : i < j + 1 := by omega
          have h3 : ¬ j = i := by omega
          simp only [h3, if_false, h2, if_true]
          rw [hqs i]
          simp [h]
        · subst h
          have hlen : i < ((List.range i).foldl (HandleDeparture.refill sv t)
              s0).service_queues.length := by
            by_contra hcon
            rw [List.getElem?_eq_none (by omega)] at hq
            cases hq
          simp [hlen, hget, hcons]
        · have h1 : ¬ i < j := by omega
          have h2 : ¬ i < j + 1 := by omega
          have h3 : ¬ j = i := by omega
          simp only [h3, if_false, h2]
          rw [hqs i]
          simp [h1]
      · simp only [startService_event_queue, hev, hclock, hdraws, refillEvents,
          List.length_append, List.length_singleton, List.range_succ, List.map_append,
          List.map_cons, List.map_nil, List.append_assoc]
      · simp only [startService_service_draws, hdraws, List.length_append,
          List.length_singleton]
        omega
      · simpa using hclock
      · simpa using hslen
      · intro i hi
        have hti : ¬ t = i := fun h => hi h.symm
        rw [startService_servers]
        simp only [List.getElem?_modify, hti, if_false]
        rw [hother i hi]
        cases s0.servers[i]? <;> simp
      · rw [startService_servers]
        simp only [List.getElem?_modify, if_true, List.getElem?_eq_getElem htlt,
          List.getLast?_append, List.getLast?_singleton, Option.or_some, Option.map_some',
          Option.map_eq_map]
        simp [Server.SetServerStatus, Server.SetCurrentCustomer, Customer.assign, hclock]
      · rw [startService_event_records, hrec]
        simp only [hclock]
        simp only [hcur, List.append_assoc]
      · simp [hser]
      · intro r hr
        rcases List.mem_append.mp hr with h | h
        · exact hsvc r h
        · rw [List.mem_singleton] at h
          subst h
          exact ⟨rfl, rfl, rfl⟩
      · simpa using hcust

theorem fronts_length (qs : List (List (Customer T))) :
    (fronts qs).length = qs.countP (fun q => decide (q ≠ [])) := by
  unfold fronts
  induction qs with
  | nil => rfl
  | cons q qs ih =>
    cases q with
    | nil => simpa [List.filterMap_cons] using ih
    | cons c cs => simp [List.filterMap_cons, ih]

theorem freeServer_current (servers : List (Server T)) (t : Nat) :
    ((servers.modify (Server.SetServerStatus ServerStatus.IDLE) t).getD t default).current_customer
      = (servers.getD t default).current_customer := by
  rw [List.getD_eq_getElem?_getD, List.getD_eq_getElem?_getD, List.getElem?_modify]
  cases servers[t]? <;> simp [Server.SetServerStatus]

theorem refillEvents_departures (sv : Nat → T) (s : Simulation T) (t m : Nat) :
    (refillEvents sv s t m).length = m ∧
    (refillEvents sv s t m).countP (fun e => e.type = EventType.DEPARTURE) = m ∧
    ∀ e ∈ refillEvents sv s t m, e.type = EventType.DEPARTURE ∧ e.target_server = t := by
  unfold refillEvents
  refine ⟨by simp, ?_, ?_⟩
  · rw [List.countP_eq_length.mpr]
    · simp
    · intro e he
      obtain ⟨k, _, hk⟩ := List.mem_map.mp he
      subst hk
      simp
  · intro e he
    obtain ⟨k, _, hk⟩ := List.mem_map.mp he
    subst hk
    exact ⟨rfl, rfl⟩

/-- The whole loop of `HandleDeparture`, started in a state `s0` whose pool has
the server `t`. -/
theorem refill_loop_full (sv : Nat → T) (t : Nat) (s0 : Simulation T)
    (ht : t < s0.servers.length) :
    ((List.range s0.service_queues.length).foldl (HandleDeparture.refill sv t) s0).service_queues
      = s0.service_queues.map List.tail ∧
    ((List.range s0.service_queues.length).foldl (HandleDeparture.refill sv t) s0).event_queue =
      s0.event_queue ++ refillEvents sv s0 t (fronts s0.service_queues).length ∧
    (∃ svc : List (EventRecord T),
      ((List.range s0.service_queues.length).foldl (HandleDeparture.refill sv t)
          s0).simulation_log.event_records = s0.simulation_log.event_records ++ svc ∧
      svc.map EventRecord.customer_serial = (fronts s0.service_queues).map Customer.serial ∧
      ∀ r ∈ svc, r.event_type = "Service" ∧ r.server_index = (t : Int) ∧
        r.current_simulation_time = s0.clock) ∧
    (∀ i, i ≠ t →
      ((List.range s0.service_queues.length).foldl (HandleDeparture.refill sv t) s0).servers[i]?
        = s0.servers[i]?) ∧
    ((List.range s0.service_queues.length).foldl (HandleDeparture.refill sv t) s0).servers[t]? =
      (match (fronts s0.service_queues).getLast? with
       | none => s0.servers[t]?
       | some c => some { status := ServerStatus.BUSY,
                          current_customer := c.assign t s0.clock }) ∧
    ((List.range s0.service_queues.length).foldl (HandleDeparture.refill sv t)
        s0).simulation_log.customer_records = s0.simulation_log.customer_records := by
  obtain ⟨hqs, hev, _, _, _, hother, htarget, hrecs, hcust⟩ :=
    refill_loop_spec sv t s0 ht s0.service_queues.length (le_refl _)
  rw [List.take_length] at hev htarget hrecs
  refine ⟨?_, hev, hrecs, hother, htarget, hcust⟩
  apply List.ext_getElem?
  intro i
  rw [hqs i, List.getElem?_map]
  by_cases hi : i < s0.service_queues.length
  · simp [hi]
  · simp only [hi, if_false]
    rw [List.getElem?_eq_none (by omega)]
    rfl

/-- What `HandleDeparture` does for a target server of the pool. -/
theorem HandleDeparture_effect (sv : Nat → T) (s : Simulation T) (t : Nat)
    (ht : t < s.servers.length) :
    (HandleDeparture sv s t).service_queues = s.service_queues.map List.tail ∧
    (HandleDeparture sv s t).event_queue =
      s.event_queue ++ refillEvents sv s t (fronts s.service_queues).length ∧
    (fronts s.service_queues).length = s.service_queues.countP (fun q => decide (q ≠ [])) ∧
    (refillEvents sv s t (fronts s.service_queues).length).length =
      (fronts s.service_queues).length ∧
    (∀ e ∈ refillEvents sv s t (fronts s.service_queues).length,
      e.type = EventType.DEPARTURE ∧ e.target_server = t) ∧
    departuresPending (HandleDeparture sv s t) =
      departuresPending s + (fronts s.service_queues).length ∧
    (∃ svc : List (EventRecord T),
      (HandleDeparture sv s t).simulation_log.event_records =
        s.simulation_log.event_records ++
          [{ event_type := "Departure", current_simulation_time := s.clock,
             customer_serial := (s.servers.getD t default).current_customer.serial,
             current_queue_size := s.service_queues.map List.length,
             server_index := (s.servers.getD t default).current_customer.server }] ++ svc ∧
      svc.map EventRecord.customer_serial = (fronts s.service_queues).map Customer.serial ∧
      ∀ r ∈ svc, r.event_type = "Service" ∧ r.server_index = (t : Int) ∧
        r.current_simulation_time = s.clock) ∧
    (∀ i, i ≠ t → (HandleDeparture sv s t).servers[i]? = s.servers[i]?) ∧
    (HandleDeparture sv s t).servers[t]? =
      (match (fronts s.service_queues).getLast? with
       | none => (s.servers[t]?).map (Server.SetServerStatus ServerStatus.IDLE)
       | some c => some { status := ServerStatus.BUSY,
                          current_customer := c.assign t s.clock }) ∧
    (HandleDeparture sv s t).simulation_log.customer_records =
      s.simulation_log.customer_records ++
        [{ (s.servers.getD t default).current_customer with departure_time := some s.clock }] := by
  have ht0 : t < (CreateDepartureLog (freeServer s t) t).servers.length := by
    simpa [CreateDepartureLog, freeServer, Simulation.logEvent] using ht
  obtain ⟨hqs, hev, ⟨svc, hrec, hser, hsvc⟩, hother, htarget, hcust⟩ :=
    refill_loop_full sv t (CreateDepartureLog (freeServer s t) t) ht0
  have hcc := freeServer_current s.servers t
  obtain ⟨hl, hcount, hall⟩ := refillEvents_departures sv s t (fronts s.service_queues).length
  have hev1 : (HandleDeparture sv s t).event_queue =
      s.event_queue ++ refillEvents sv s t (fronts s.service_queues).length := hev
  refine ⟨hqs, hev1, fronts_length _, hl, hall, ?_, ⟨svc, ?_, hser, hsvc⟩, ?_, ?_, ?_⟩
  · simp only [departuresPending, hev1, List.countP_append, hcount]
  · have hrec1 : (HandleDeparture sv s t).simulation_log.event_records =
        (CreateDepartureLog (freeServer s t) t).simulation_log.event_records ++ svc := hrec
    rw [hrec1]
    simp only [CreateDepartureLog, freeServer, Simulation.logEvent,
      SimulationLog.CreateEventRecord, SimulationLog.CreateCustomerRecord, hcc, queueSizes]
  · intro i hi
    have hti : ¬ t = i := fun h => hi h.symm
    have h1 : (HandleDeparture sv s t).servers[i]? =
        (s.servers.modify (Server.SetServerStatus ServerStatus.IDLE) t)[i]? := hother i hi
    rw [h1, List.getElem?_modify]
    simp only [hti, if_false]
    cases s.servers[i]? <;> simp
  · have h1 : (HandleDeparture sv s t).servers[t]? =
        (match (fronts s.service_queues).getLast? with
         | none => (s.servers.modify (Server.SetServerStatus ServerStatus.IDLE) t)[t]?
         | some c => some { status := ServerStatus.BUSY,
                            current_customer := c.assign t s.clock }) := htarget
    rw [h1]
    cases (fronts s.service_queues).getLast? with
    | none =>
      simp only [List.getElem?_modify, if_true]
      rfl
    | some c => rfl
  · have h1 : (HandleDeparture sv s t).simulation_log.customer_records =
        (CreateDepartureLog (freeServer s t) t).simulation_log.customer_records := hcust
    rw [h1]
    simp only [CreateDepartureLog, freeServer, Simulation.logEvent,
      SimulationLog.CreateEventRecord, SimulationLog.CreateCustomerRecord, hcc]

/-- C15: `HandleDeparture` refills from every non-empty queue. For every state
and every target server of the pool, one call of `HandleDeparture` removes the
front customer of every non-empty wait queue and nothing else (every queue
becomes its tail), schedules one Departure event for the target server per
removed customer (the `k`-th at the clock plus the `k`-th next service sample),
so as many as there were non-empty queues, writes the Departure record and then
one Service record per removed customer, leaves every other server as it was,
and leaves the target server Busy with the front customer of the last non-empty
queue (assigned to the target, service start the clock), or Idle when every
queue was empty; the customer that was on the target is persisted with
departure time the clock. -/
theorem HandleDeparture_refills_all (sv : Nat → T) (s : Simulation T) (t : Nat)
    (ht : t < s.servers.length) :
    (HandleDeparture sv s t).service_queues = s.service_queues.map List.tail ∧
    (HandleDeparture sv s t).event_queue =
      s.event_queue ++ refillEvents sv s t (fronts s.service_queues).length ∧
    (fronts s.service_queues).length = s.service_queues.countP (fun q => decide (q ≠ [])) ∧
    (refillEvents sv s t (fronts s.service_queues).length).length =
      (fronts s.service_queues).length ∧
    (∀ e ∈ refillEvents sv s t (fronts s.service_queues).length,
      e.type = EventType.DEPARTURE ∧ e.target_server = t) ∧
    departuresPending (HandleDeparture sv s t) =
      departuresPending s + (fronts s.service_queues).length ∧
    (∃ svc : List (EventRecord T),
      (HandleDeparture sv s t).simulation_log.event_records =
        s.simulation_log.event_records ++
          [{ event_type := "Departure", current_simulation_time := s.clock,
             customer_serial := (s.servers.getD t default).current_customer.serial,
             current_queue_size := s.service_queues.map List.length,
             server_index := (s.servers.getD t default).current_customer.server }] ++ svc ∧
      svc.map EventRecord.customer_serial = (fronts s.service_queues).map Customer.serial ∧
      ∀ r ∈ svc, r.event_type = "Service" ∧ r.server_index = (t : Int) ∧
        r.current_simulation_time = s.clock) ∧
    (∀ i, i ≠ t → (HandleDeparture sv s t).servers[i]? = s.servers[i]?) ∧
    (HandleDeparture sv s t).servers[t]? =
      (match (fronts s.service_queues).getLast? with
       | none => (s.servers[t]?).map (Server.SetServerStatus ServerStatus.IDLE)
       | some c => some { status := ServerStatus.BUSY,
                          current_customer := c.assign t s.clock }) ∧
    (HandleDeparture sv s t).simulation_log.customer_records =
      s.simulation_log.customer_records ++
        [{ (s.servers.getD t default).current_customer with departure_time := some s.clock }] :=
  HandleDeparture_effect sv s t ht

/-- Witness for C15: the target is server 0 of three, and queues 0 and 2 are not
empty: two Departure events are scheduled and server 0 holds customer 3. -/
theorem HandleDeparture_refills_all_witness :
    (HandleDeparture unitSamples
        (poolState [ServerStatus.BUSY, ServerStatus.BUSY, ServerStatus.BUSY]
          [[waiting 1, waiting 2], [], [waiting 3]]) 0).event_queue.length = 2 ∧
      (HandleDeparture unitSamples
        (poolState [ServerStatus.BUSY, ServerStatus.BUSY, ServerStatus.BUSY]
          [[waiting 1, waiting 2], [], [waiting 3]]) 0).service_queues =
        [[waiting 2], [], []] ∧
      ((HandleDeparture unitSamples
        (poolState [ServerStatus.BUSY, ServerStatus.BUSY, ServerStatus.BUSY]
          [[waiting 1, waiting 2], [], [waiting 3]]) 0).servers.map
            (fun srv => (srv.status, srv.current_customer.serial))) =
        [(ServerStatus.BUSY, 3), (ServerStatus.BUSY, 0), (ServerStatus.BUSY, 0)] :=
  ⟨by decide,
    (HandleDeparture_refills_all unitSamples
      (poolState [ServerStatus.BUSY, ServerStatus.BUSY, ServerStatus.BUSY]
        [[waiting 1, waiting 2], [], [waiting 3]]) 0 (by decide)).1,
    by decide⟩

/-! ## Who waits and who is served -/

theorem flatten_modify_perm {α : Type} (c : α) :
    ∀ (qs : List (List α)) (i : Nat), i < qs.length →
      (qs.modify (fun q => q ++ [c]) i).flatten.Perm (c :: qs.flatten) := by
  intro qs
  induction qs with
  | nil =>
    intro i h
    simp at h
  | cons q qs ih =>
    intro i h
    cases i with
    | zero =>
      simp only [List.modify_zero_cons, List.flatten_cons, List.append_assoc,
        List.singleton_append]
      exact List.perm_middle
    | succ i =>
      simp only [List.length_cons, Nat.add_lt_add_iff_right] at h
      simp only [List.modify_succ_cons, List.flatten_cons]
      exact (List.Perm.append_left q (ih i h)).trans List.perm_middle

theorem flatten_set_perm {α : Type} :
    ∀ (qs : List (List α)) (i : Nat) (front : α) (rest : List α),
      qs[i]? = some (front :: rest) → qs.flatten.Perm (front :: (qs.set i rest).flatten) := by
  intro qs
  induction qs with
  | nil =>
    intro i front rest h
    simp at h
  | cons q qs ih =>
    intro i front rest h
    cases i with
    | zero =>
      simp only [List.getElem?_cons_zero, Option.some.injEq] at h
      subst h
      simp only [List.set_cons_zero, List.flatten_cons, List.cons_append]
      exact List.Perm.refl _
    | succ i =>
      simp only [List.getElem?_cons_succ] at h
      simp only [List.set_cons_succ, List.flatten_cons]
      exact (List.Perm.append_left q (ih i front rest h)).trans List.perm_middle

theorem startService_server_cases (sv : Nat → T) (s : Simulation T) (c : Customer T)
    (i j : Nat) (srv : Server T) (h : (startService sv s c i).servers[j]? = some srv) :
    (i = j ∧ srv.current_customer = c ∧ srv.status = ServerStatus.BUSY) ∨
      (i ≠ j ∧ s.servers[j]? = some srv) := by
  rw [startService_servers, List.getElem?_modify, List.getElem?_modify] at h
  cases hs : s.servers[j]? with
  | none => simp [hs] at h
  | some srv0 =>
    by_cases hij : i = j
    · left
      simp only [hs, hij, if_true, Option.map_eq_map, Option.map_some',
        Option.some.injEq] at h
      subst h
      exact ⟨hij, rfl, rfl⟩
    · right
      simp only [hs, hij, if_false, Option.map_eq_map, Option.map_some', id_eq] at h
      exact ⟨hij, h⟩

theorem freeServer_server_cases (s : Simulation T) (t j : Nat) (srv : Server T)
    (h : (freeServer s t).servers[j]? = some srv) :
    ∃ srv0, s.servers[j]? = some srv0 ∧ srv.current_customer = srv0.current_customer ∧
      (srv.status = ServerStatus.BUSY → srv0.status = ServerStatus.BUSY) := by
  simp only [freeServer, List.getElem?_modify] at h
  cases hs : s.servers[j]? with
  | none => simp [hs] at h
  | some srv0 =>
    refine ⟨srv0, rfl, ?_, ?_⟩
    · by_cases htj : t = j
      · simp only [hs, htj, if_true, Option.map_eq_map, Option.map_some',
          Option.some.injEq] at h
        subst h
        rfl
      · simp only [hs, htj, if_false, Option.map_eq_map, Option.map_some', id_eq,
          Option.some.injEq] at h
        subst h
        rfl
    · intro hb
      by_cases htj : t = j
      · simp only [hs, htj, if_true, Option.map_eq_map, Option.map_some',
          Option.some.injEq] at h
        subst h
        simp [Server.SetServerStatus] at hb
      · simp only [hs, htj, if_false, Option.map_eq_map, Option.map_some', id_eq,
          Option.some.injEq] at h
        subst h
        exact hb

/-- Starting the service of a customer that is not waiting. -/
theorem SerialInv_startService (sv : Nat → T) (s : Simulation T) (c : Customer T) (i : Nat)
    (hc : c.serial ∉ waitingSerials s) (hle : c.serial ≤ s.total_customers)
    (h : SerialInv s) : SerialInv (startService sv s c i) := by
  constructor
  · exact h.nodup
  · exact h.waiting_le
  · intro j srv hj
    rcases startService_server_cases sv s c i j srv hj with ⟨_, h1, _⟩ | ⟨_, h1⟩
    · rw [h1]
      exact hle
    · exact h.serving_le j srv h1
  · intro j srv hj hb
    rcases startService_server_cases sv s c i j srv hj with ⟨_, h1, _⟩ | ⟨_, h1⟩
    · rw [h1]
      exact hc
    · exact h.apart j srv h1 hb

/-- One pass of the loop of `HandleDeparture` keeps everybody in one place. -/
theorem SerialInv_refill (sv : Nat → T) (t : Nat) (s : Simulation T) (i : Nat)
    (h : SerialInv s) : SerialInv (HandleDeparture.refill sv t s i) := by
  rcases refill_cases sv t s i with ⟨heq, _⟩ | ⟨front, rest, hq, heq⟩
  · rw [heq]
    exact h
  · rw [heq]
    have hperm := (flatten_set_perm s.service_queues i front rest hq).map Customer.serial
    have hnd := (List.Perm.nodup_iff hperm).1 h.nodup
    simp only [List.map_cons, List.nodup_cons] at hnd
    have hsub : ∀ x, x ∈ ((s.service_queues.set i rest).flatten.map Customer.serial) →
        x ∈ waitingSerials s := by
      intro x hx
      exact (List.Perm.mem_iff hperm).2 (List.mem_cons_of_mem _ hx)
    have hfront : front.serial ∈ waitingSerials s :=
      (List.Perm.mem_iff hperm).2 (List.mem_cons_self _ _)
    apply SerialInv_startService
    · exact hnd.1
    · exact h.waiting_le _ hfront
    · constructor
      · exact hnd.2
      · intro x hx
        exact h.waiting_le x (hsub x hx)
      · exact h.serving_le
      · intro j srv hj hb hin
        exact h.apart j srv hj hb (hsub _ hin)

/-- Handling an Arrival event keeps everybody in one place. -/
theorem SerialInv_HandleArrival (ia sv : Nat → T) (s : Simulation T)
    (hq : 0 < s.service_queues.length) (h : SerialInv s) :
    SerialInv (HandleArrival ia sv s) := by
  obtain ⟨f1, f2, f3, f4, f5, f6, f7⟩ :=
    scheduleNextArrival_frame ia { s with total_customers := s.total_customers + 1 }
  simp only [] at f1 f2 f3 f4 f5 f6 f7
  have hnew : (s.total_customers + 1) ∉ waitingSerials s := by
    intro hin
    have := h.waiting_le _ hin
    omega
  have h2 : SerialInv (scheduleNextArrival ia
      { s with total_customers := s.total_customers + 1 }) := by
    constructor
    · simpa [waitingSerials, f2] using h.nodup
    · intro x hx
      rw [f5]
      have := h.waiting_le x (by simpa [waitingSerials, f2] using hx)
      omega
    · intro j srv hj
      rw [f5]
      have := h.serving_le j srv (by rw [← f1]; exact hj)
      omega
    · intro j srv hj hb hin
      exact h.apart j srv (by rw [← f1]; exact hj) hb (by simpa [waitingSerials, f2] using hin)
  unfold HandleArrival
  simp only []
  split_ifs with hidx
  · have hlt : GetSmallestQueue (scheduleNextArrival ia
        { s with total_customers := s.total_customers + 1 }) < s.service_queues.length := by
      have := GetSmallestQueue_lt (scheduleNextArrival ia
        { s with total_customers := s.total_customers + 1 }) (by rw [f2]; exact hq)
      rw [f2] at this
      exact this
    have hperm := (flatten_modify_perm (Customer.create s.clock s.total_customers)
      s.service_queues _ hlt).map Customer.serial
    simp only [List.map_cons] at hperm
    have hser : (Customer.create s.clock s.total_customers).serial = s.total_customers + 1 := rfl
    constructor
    · simp only [waitingSerials, CreateArrivalLog, Simulation.logEvent, joinQueue, f2]
      rw [List.Perm.nodup_iff hperm, List.nodup_cons, hser]
      exact ⟨hnew, h.nodup⟩
    · intro x hx
      simp only [waitingSerials, CreateArrivalLog, Simulation.logEvent, joinQueue, f2] at hx
      simp only [CreateArrivalLog, Simulation.logEvent, joinQueue, f5]
      rcases List.mem_cons.mp ((List.Perm.mem_iff hperm).1 hx) with h1 | h1
      · rw [h1, hser]
      · have := h.waiting_le x h1
        omega
    · exact h2.serving_le
    · intro j srv hj hb hin
      simp only [waitingSerials, CreateArrivalLog, Simulation.logEvent, joinQueue, f2] at hin
      simp only [CreateArrivalLog, Simulation.logEvent, joinQueue, f1] at hj
      rcases List.mem_cons.mp ((List.Perm.mem_iff hperm).1 hin) with h1 | h1
      · have := h.serving_le j srv hj
        rw [h1, hser] at this
        omega
      · exact h.apart j srv hj hb h1
  · apply SerialInv_startService
    · simpa [waitingSerials, CreateArrivalLog, Simulation.logEvent, f2, Customer.create]
        using hnew
    · simp [CreateArrivalLog, Simulation.logEvent, f5, Customer.create]
    · exact ⟨h2.nodup, h2.waiting_le, h2.serving_le, h2.apart⟩

/-- One pass of the loop of `Run` keeps everybody in one place. -/
theorem SerialInv_dispatchEvent (ia sv : Nat → T) (s : Simulation T) (i : Nat) (e : Event T)
    (hq : 0 < s.service_queues.length) (h : SerialInv s) :
    SerialInv (dispatchEvent ia sv s i e) := by
  unfold dispatchEvent
  cases he : e.type with
  | ARRIVAL =>
    exact SerialInv_HandleArrival ia sv _ hq ⟨h.nodup, h.waiting_le, h.serving_le, h.apart⟩
  | DEPARTURE =>
    simp only []
    unfold HandleDeparture
    simp only []
    apply foldl_preserves
    · intro a b ha
      exact SerialInv_refill sv e.target_server a b ha
    · constructor
      · exact h.nodup
      · exact h.waiting_le
      · intro j srv hj
        obtain ⟨srv0, h1, h2, _⟩ := freeServer_server_cases _ _ j srv hj
        rw [h2]
        exact h.serving_le j srv0 h1
      · intro j srv hj hb
        obtain ⟨srv0, h1, h2, h3⟩ := freeServer_server_cases _ _ j srv hj
        rw [h2]
        exact h.apart j srv0 h1 (h3 hb)

theorem SerialInv_start (ia : Nat → T) (n k : Nat) : SerialInv (start ia n k) := by
  have hw : waitingSerials (start ia n k) = [] := by
    simp only [waitingSerials, start, Initialize, Simulation.new, Simulation.pushEvent,
      resizeQueues, List.take_nil, List.nil_append, List.length_nil, Nat.sub_zero]
    induction n with
    | zero => rfl
    | succ n ih => simp [List.replicate_succ]
  constructor
  · rw [hw]
    exact List.nodup_nil
  · intro x hx
    rw [hw] at hx
    cases hx
  · intro j srv hj
    have hmem := List.getElem?_mem hj
    simp only [start, Initialize, Simulation.new, Simulation.pushEvent, List.nil_append] at hmem
    rw [List.mem_replicate] at hmem
    rw [hmem.2]
    exact Nat.le_refl 0
  · intro j srv _ _ hin
    rw [hw] at hin
    cases hin

theorem SerialInv_reachable (ia sv : Nat → T) (n k : Nat) (hn : 1 ≤ n) (s : Simulation T)
    (h : Reachable ia sv n k s) : SerialInv s := by
  induction h with
  | init => exact SerialInv_start ia n k
  | step s0 s1 i h0 hd ih =>
    obtain ⟨e, _, hs1⟩ := dispatch_eq ia sv s0 s1 i hd
    rw [hs1]
    have hlen := (CountInv_reachable ia sv n k hn s0 h0).queues_len
    exact SerialInv_dispatchEvent ia sv s0 i e (by omega) ih

/-- C12: Wait-queue exclusivity. In every state reached from `Initialize` by
complete passes of the loop of `Run` (at least one server, any pop order,
arbitrary samples), the serials of the customers in the wait queues, taken over
all queues, are pairwise distinct, so no customer is twice in one queue or in
two queues, and no customer in a wait queue has the serial of the current
customer of a Busy server. -/
theorem wait_queue_exclusive (ia sv : Nat → T) (n k : Nat) (hn : 1 ≤ n) (picks : List Nat)
    (s : Simulation T) (hr : runPicks ia sv (start ia n k) picks = some s) :
    (s.service_queues.flatten.map Customer.serial).Nodup ∧
    ∀ srv ∈ s.servers, srv.status = ServerStatus.BUSY →
      ∀ q ∈ s.service_queues, ∀ c ∈ q, c.serial ≠ srv.current_customer.serial := by
  have hreach := Reachable_runPicks ia sv n k picks _ s Reachable.init hr
  have hinv := SerialInv_reachable ia sv n k hn s hreach
  refine ⟨hinv.nodup, ?_⟩
  intro srv hsrv hb q hq c hc heq
  obtain ⟨j, hj⟩ := List.getElem?_of_mem hsrv
  apply hinv.apart j srv hj hb
  rw [← heq]
  exact List.mem_map.mpr ⟨c, List.mem_flatten.mpr ⟨q, hq, hc⟩, rfl⟩

/-- Witness for C12: after the four arrivals of the run with two servers, target
4, inter-arrival samples 1 and service samples 10, 20, 1, 2, customers 3 and 4
wait in queues 0 and 1 while customers 1 and 2 are served. -/
theorem wait_queue_exclusive_witness :
    ((runPicks unitSamples stormService stormStart [0, 0, 1, 2]).getD
        stormStart).service_queues.flatten.map Customer.serial = [3, 4] ∧
      ((runPicks unitSamples stormService stormStart [0, 0, 1, 2]).getD
        stormStart).servers.map (fun srv => (srv.status, srv.current_customer.serial)) =
          [(ServerStatus.BUSY, 1), (ServerStatus.BUSY, 2)] ∧
      (((runPicks unitSamples stormService stormStart [0, 0, 1, 2]).getD
        stormStart).service_queues.flatten.map Customer.serial).Nodup :=
  ⟨by decide, by decide,
    (wait_queue_exclusive unitSamples stormService 2 4 (by decide) [0, 0, 1, 2] _
      (eq_some_getD _ stormStart (by decide))).1⟩

/-! ## Scenario B -/

theorem minPick_lt (s : Simulation T) (i : Nat) (h : minPick s i = true) :
    i < s.event_queue.length := by
  obtain ⟨e, he, _⟩ := minPick_spec s i h
  by_contra hcon
  rw [List.getElem?_eq_none (by omega)] at he
  cases he

theorem scenarioB_step (m : Nat) (hm : m < 4) :
    dispatch halfSamples twoSamples (scenarioBState m) 0 = some (scenarioBState (m + 1)) := by
  interval_cases m <;> decide!

/-- In Scenario B a min-first event queue has no choice: every pass pops the
event at position 0, and after four passes the event queue is empty. -/
theorem scenarioB_picks :
    ∀ (picks : List Nat) (m : Nat), m + picks.length ≤ 4 →
      MinFirst halfSamples twoSamples (scenarioBState m) picks →
      picks = List.replicate picks.length 0 := by
  intro picks
  induction picks with
  | nil =>
    intro m _ _
    rfl
  | cons i picks ih =>
    intro m hm hmf
    simp only [List.length_cons] at hm
    simp only [MinFirst, minFirst, Bool.and_eq_true] at hmf
    have hm4 : m < 4 := by omega
    have hi : i = 0 := by
      have hlt := minPick_lt _ _ hmf.1
      interval_cases m
      · have hlen : (scenarioBState 0).event_queue.length = 1 := by decide!
        omega
      · have hlen : (scenarioBState 1).event_queue.length = 2 := by decide!
        have hno : minPick (scenarioBState 1) 1 = false := by decide!
        rcases Nat.lt_or_ge i 1 with h | h
        · omega
        · have hi1 : i = 1 := by omega
          rw [hi1, hno] at hmf
          exact absurd hmf.1 (by decide)
      · have hlen : (scenarioBState 2).event_queue.length = 1 := by decide!
        omega
      · have hlen : (scenarioBState 3).event_queue.length = 1 := by decide!
        omega
    subst hi
    have hstep := scenarioB_step m hm4
    have hmf2 := hmf.2
    simp only [hstep] at hmf2
    have := ih (m + 1) (by omega) hmf2
    simp only [List.length_cons, List.replicate_succ]
    rw [← this]

/-- C14: Scenario B (forced queueing). One server, every inter-arrival sample
0.5, every service sample 2.0, target 2. The run of `Run` takes four passes and
emits exactly: Arrival and Service at 0.5 for customer 1 with snapshot `[0]`;
Arrival at 1.0 for customer 2 with snapshot `[1]` and server `-1` (no Service
record); Departure at 2.5 for customer 1 on server 0; Service at 2.5 for
customer 2 on server 0 with snapshot `[0]`; Departure at 4.5 for customer 2.
The customer records are (0.5, 0.5, 2.5, server 0) and (1.0, 2.5, 4.5, server
0). Every run of a min-first event queue that empties the event queue is this
run. -/
theorem scenarioB_trace :
    (Run halfSamples twoSamples 4 (start halfSamples 1 2)).map
        (fun s => (s.event_queue, s.simulation_log.event_records,
          s.simulation_log.customer_records)) =
      some ([], scenarioBTrace, scenarioBCustomers) ∧
    MinFirst halfSamples twoSamples (start halfSamples 1 2) [0, 0, 0, 0] ∧
    ∀ picks s, MinFirst halfSamples twoSamples (start halfSamples 1 2) picks →
      runPicks halfSamples twoSamples (start halfSamples 1 2) picks = some s →
      s.event_queue = [] →
      s.simulation_log.event_records = scenarioBTrace ∧
        s.simulation_log.customer_records = scenarioBCustomers := by
  refine ⟨by decide!, by decide!, ?_⟩
  intro picks s hmf hr hempty
  have hreach := Reachable_runPicks halfSamples twoSamples 1 2 picks _ s Reachable.init hr
  have hinv := CountInv_reachable halfSamples twoSamples 1 2 (le_refl 1) s hreach
  have hdr := Draining_reachable halfSamples twoSamples 1 2 (le_refl 1) s hreach
  have hlen := passesLeft_runPicks halfSamples twoSamples 1 2 (le_refl 1) picks _ s
    Reachable.init hr
  rw [passesLeft_start, (passesLeft_eq_zero_iff 1 2 s hinv hdr).1 hempty] at hlen
  have hlen4 : picks.length = 4 := by
    simpa using hlen
  have h0 : scenarioBState 0 = start halfSamples 1 2 := rfl
  have hpicks := scenarioB_picks picks 0 (by omega) (by rw [h0]; exact hmf)
  rw [hlen4] at hpicks
  rw [hpicks] at hr
  have hfinal : runPicks halfSamples twoSamples (start halfSamples 1 2)
      (List.replicate 4 0) = some (scenarioBState 4) := by decide!
  rw [hfinal] at hr
  have hs : s = scenarioBState 4 := (Option.some.inj hr).symm
  rw [hs]
  exact ⟨by decide!, by decide!⟩

/-! ## The single server -/

theorem HandleArrival_scalars (ia sv : Nat → T) (s : Simulation T) :
    (HandleArrival ia sv s).number_of_servers = s.number_of_servers ∧
    (HandleArrival ia sv s).number_of_customers = s.number_of_customers ∧
    (HandleArrival ia sv s).clock = s.clock ∧
    (HandleArrival ia sv s).total_customers = s.total_customers + 1 ∧
    (HandleArrival ia sv s).inter_arrival_draws =
      (if s.number_of_customers > s.total_customers + 1 then s.inter_arrival_draws + 1
       else s.inter_arrival_draws) ∧
    (HandleArrival ia sv s).service_draws =
      (if GetAvailableServerIndex s = -1 then s.service_draws else s.service_draws + 1) := by
  have hidx : GetAvailableServerIndex
      (scheduleNextArrival ia { s with total_customers := s.total_customers + 1 }) =
        GetAvailableServerIndex s := by
    unfold GetAvailableServerIndex scheduleNextArrival
    split_ifs <;> rfl
  unfold HandleArrival
  simp only [hidx]
  unfold scheduleNextArrival
  simp only []
  split_ifs <;> exact ⟨rfl, rfl, rfl, rfl, rfl, rfl⟩

theorem refill_scalars (sv : Nat → T) (t : Nat) (s : Simulation T) (i : Nat) :
    (HandleDeparture.refill sv t s i).number_of_servers = s.number_of_servers ∧
    (HandleDeparture.refill sv t s i).number_of_customers = s.number_of_customers ∧
    (HandleDeparture.refill sv t s i).inter_arrival_draws = s.inter_arrival_draws := by
  rcases refill_cases sv t s i with ⟨h, _⟩ | ⟨front, rest, _, h⟩
  · rw [h]
    exact ⟨rfl, rfl, rfl⟩
  · rw [h]
    exact ⟨rfl, rfl, rfl⟩

theorem HandleDeparture_scalars (sv : Nat → T) (s : Simulation T) (t : Nat)
    (ht : t < s.servers.length) :
    (HandleDeparture sv s t).number_of_servers = s.number_of_servers ∧
    (HandleDeparture sv s t).number_of_customers = s.number_of_customers ∧
    (HandleDeparture sv s t).inter_arrival_draws = s.inter_arrival_draws ∧
    (HandleDeparture sv s t).clock = s.clock ∧
    (HandleDeparture sv s t).total_customers = s.total_customers ∧
    (HandleDeparture sv s t).service_draws =
      s.service_draws + (fronts s.service_queues).length := by
  have ht0 : t < (CreateDepartureLog (freeServer s t) t).servers.length := by
    simpa [CreateDepartureLog, freeServer, Simulation.logEvent] using ht
  obtain ⟨_, _, hdraws, hclock, _⟩ :=
    refill_loop_spec sv t (CreateDepartureLog (freeServer s t) t) ht0
      (CreateDepartureLog (freeServer s t) t).service_queues.length (le_refl _)
  rw [List.take_length] at hdraws
  have h3 : (HandleDeparture sv s t).number_of_servers = s.number_of_servers ∧
      (HandleDeparture sv s t).number_of_customers = s.number_of_customers ∧
      (HandleDeparture sv s t).inter_arrival_draws = s.inter_arrival_draws := by
    unfold HandleDeparture
    simp only []
    apply foldl_preserves (fun a : Simulation T =>
      a.number_of_servers = s.number_of_servers ∧
      a.number_of_customers = s.number_of_customers ∧
      a.inter_arrival_draws = s.inter_arrival_draws)
    · intro a b ha
      obtain ⟨r1, r2, r3⟩ := refill_scalars sv t a b
      exact ⟨r1.trans ha.1, r2.trans ha.2.1, r3.trans ha.2.2⟩
    · exact ⟨rfl, rfl, rfl⟩
  exact ⟨h3.1, h3.2.1, h3.2.2, hclock, (HandleDeparture_counters sv s t).1, hdraws⟩

theorem filter_eraseIdx_of_not {α : Type} (p : α → Bool) :
    ∀ (l : List α) (i : Nat) (a : α), l[i]? = some a → p a = false →
      (l.eraseIdx i).filter p = l.filter p := by
  intro l
  induction l with
  | nil =>
    intro i a h
    simp at h
  | cons x xs ih =>
    intro i a h hp
    cases i with
    | zero =>
      simp only [List.getElem?_cons_zero, Option.some.injEq] at h
      subst h
      simp [List.filter_cons, hp]
    | succ i =>
      simp only [List.getElem?_cons_succ] at h
      simp only [List.eraseIdx_cons_succ, List.filter_cons, ih i a h hp]

theorem filter_eraseIdx_single {α : Type} (p : α → Bool) (l : List α) (i : Nat) (a x : α)
    (h : l[i]? = some a) (hp : p a = true) (hone : l.filter p = [x]) :
    (l.eraseIdx i).filter p = [] := by
  have hc := countP_eraseIdx_add p l i a h
  rw [hp] at hc
  simp only [if_true] at hc
  have hl : l.countP p = 1 := by
    rw [List.countP_eq_length_filter, hone]
    rfl
  have h0 : (l.eraseIdx i).countP p = 0 := by omega
  rw [List.countP_eq_length_filter] at h0
  exact List.eq_nil_of_length_eq_zero h0

end

section

variable {T : Type} [LinearOrderedCommRing T]

theorem arrivalAt_mono (ia : Nat → T) (hia : ∀ m, 0 ≤ ia m) :
    ∀ (i j : Nat), i ≤ j → arrivalAt ia i ≤ arrivalAt ia j := by
  intro i j hij
  induction j with
  | zero =>
    have : i = 0 := by omega
    rw [this]
  | succ j ih =>
    rcases Nat.eq_or_lt_of_le hij with h | h
    · rw [h]
    · exact le_trans (ih (by omega)) (le_add_of_nonneg_right (hia j))

theorem arrivalAt_eq_sum (ia : Nat → T) :
    ∀ i, arrivalAt ia i = ((List.range i).map ia).sum := by
  intro i
  induction i with
  | zero => rfl
  | succ i ih => simp [arrivalAt, ih, List.range_succ]

end

section

variable {T : Type} [LinearOrder T] [Add T] [Zero T]

theorem fifoWaiting_tail (ia : Nat → T) (c d : Nat) :
    (fifoWaiting ia c d).tail = fifoWaiting ia c (d + 1) := by
  unfold fifoWaiting
  rcases Nat.eq_zero_or_pos (c - d - 1) with h | h
  · have h2 : c - (d + 1) - 1 = 0 := by omega
    rw [h, h2]
    rfl
  · obtain ⟨m, hm⟩ : ∃ m, c - d - 1 = m + 1 := ⟨c - d - 2, by omega⟩
    have h2 : c - (d + 1) - 1 = m := by omega
    rw [hm, h2, List.range_succ_eq_map]
    simp only [List.map_cons, List.tail_cons, List.map_map]
    apply List.map_congr_left
    intro k _
    simp only [Function.comp]
    have e1 : d + 2 + (k + 1) = d + 1 + 2 + k := by omega
    have e2 : d + 1 + (k + 1) = d + 1 + 1 + k := by omega
    rw [Nat.succ_eq_add_one, e1, e2]

theorem fifoWaiting_snoc (ia : Nat → T) (c d : Nat) (h : d < c) :
    fifoWaiting ia (c + 1) d =
      fifoWaiting ia c d ++ [Customer.create (arrivalAt ia (c + 1)) c] := by
  unfold fifoWaiting
  have h1 : c + 1 - d - 1 = (c - d - 1) + 1 := by omega
  have e1 : d + 2 + (c - d - 1) = c + 1 := by omega
  have e2 : d + 1 + (c - d - 1) = c := by omega
  rw [h1, List.range_succ, List.map_append]
  simp only [List.map_cons, List.map_nil, e1, e2]

theorem fifoWaiting_head (ia : Nat → T) (c d : Nat) :
    fronts [fifoWaiting ia c d] =
      if d + 1 < c then [Customer.create (arrivalAt ia (d + 2)) (d + 1)] else [] := by
  unfold fifoWaiting fronts
  split_ifs with h
  · obtain ⟨m, hm⟩ : ∃ m, c - d - 1 = m + 1 := ⟨c - d - 2, by omega⟩
    rw [hm, List.range_succ_eq_map]
    simp [List.filterMap_cons]
  · have h2 : c - d - 1 = 0 := by omega
    rw [h2]
    rfl

theorem fifoRecords_succ (ia sv : Nat → T) (d : Nat) :
    fifoRecords ia sv (d + 1) = fifoRecords ia sv d ++ [fifoRecord ia sv d] := by
  simp [fifoRecords, List.range_succ]

theorem list_eq_singleton {α : Type} (l : List α) (x : α) (hlen : l.length = 1)
    (h0 : l[0]? = some x) : l = [x] := by
  cases l with
  | nil => simp at hlen
  | cons a as =>
    cases as with
    | nil =>
      simp only [List.getElem?_cons_zero, Option.some.injEq] at h0
      rw [h0]
    | cons b bs => simp at hlen

theorem popEvent_fields (s : Simulation T) (i : Nat) (e : Event T) :
    (popEvent s i e).number_of_servers = s.number_of_servers ∧
    (popEvent s i e).number_of_customers = s.number_of_customers ∧
    (popEvent s i e).clock = e.invoke_time ∧
    (popEvent s i e).servers = s.servers ∧
    (popEvent s i e).service_queues = s.service_queues ∧
    (popEvent s i e).event_queue = s.event_queue.eraseIdx i ∧
    (popEvent s i e).simulation_log = s.simulation_log ∧
    (popEvent s i e).total_customers = s.total_customers ∧
    (popEvent s i e).inter_arrival_draws = s.inter_arrival_draws ∧
    (popEvent s i e).service_draws = s.service_draws :=
  ⟨rfl, rfl, rfl, rfl, rfl, rfl, rfl, rfl, rfl, rfl⟩

theorem FifoInv_start (ia sv : Nat → T) (K : Nat) (hK : 1 ≤ K) :
    FifoInv ia sv K 0 0 (start ia 1 K) := by
  constructor
  · rfl
  · rfl
  · rfl
  · exact le_refl 0
  · omega
  · rfl
  · have h0 : 0 < K := by omega
    simp [start, Initialize, Simulation.new, Simulation.pushEvent, h0, arrivalAt]
  · simp [start, Initialize, Simulation.new, Simulation.pushEvent]
  · rfl
  · exact ⟨Server.new, rfl, fun h => absurd h (lt_irrefl 0), fun _ => rfl⟩
  · rfl
  · intro _
    rfl
  · exact le_refl _
  · exact le_refl _

/-- Dispatching the pending Arrival event of the single-server engine. -/
theorem FifoInv_arrival (ia sv : Nat → T) (K c d : Nat) (st : Simulation T) (j : Nat)
    (e : Event T) (hj : st.event_queue[j]? = some e) (he : e.type = EventType.ARRIVAL)
    (hle : st.clock ≤ e.invoke_time) (h : FifoInv ia sv K c d st) :
    c < K ∧ e.invoke_time = arrivalAt ia (c + 1) ∧
      FifoInv ia sv K (c + 1) d (HandleArrival ia sv (popEvent st j e)) := by
  have hmem : e ∈ st.event_queue.filter (fun e => e.type = EventType.ARRIVAL) :=
    List.mem_filter.mpr ⟨List.getElem?_mem hj, by simp [he]⟩
  have harr := h.arrivals
  have hdep := h.departures
  by_cases hc : c < K
  swap
  · rw [harr] at hmem
    simp [hc] at hmem
  simp only [hc, if_true] at harr
  rw [harr, List.mem_singleton] at hmem
  have htime : e.invoke_time = arrivalAt ia (c + 1) := by rw [hmem]
  refine ⟨hc, htime, ?_⟩
  obtain ⟨srv, hsrv, hbusy, hidle⟩ := h.server
  obtain ⟨p1, p2, p3, p4, p5, p6, p7, p8, p9, p10⟩ := popEvent_fields st j e
  have hq1_arr : ((popEvent st j e).event_queue).filter
      (fun e => e.type = EventType.ARRIVAL) = [] :=
    filter_eraseIdx_single _ st.event_queue j e _ hj (by simp [he]) harr
  have hq1_dep : ((popEvent st j e).event_queue).filter
      (fun e => e.type = EventType.DEPARTURE) =
        st.event_queue.filter (fun e => e.type = EventType.DEPARTURE) :=
    filter_eraseIdx_of_not _ st.event_queue j e hj (by simp [he])
  have hlen : (popEvent st j e).servers.length = (popEvent st j e).number_of_servers := by
    simp [popEvent, hsrv, h.servers_n]
  obtain ⟨s1, s2, s3, s4, s5, s6⟩ := HandleArrival_scalars ia sv (popEvent st j e)
  simp only [p1, p2, p3, p8, p9, p10] at s1 s2 s3 s4 s5
  have hk1 : (st.number_of_customers > st.total_customers + 1) ↔ c + 1 < K := by
    rw [h.customers_k, h.total]
  have hdle : departureAt ia sv d ≤ e.invoke_time := le_trans h.departed_time hle
  rcases Nat.eq_or_lt_of_le h.departed_le with hdc | hdc
  · -- the server is Idle
    subst hdc
    have hst := hidle rfl
    have hfirst : GetAvailableServerIndex (popEvent st j e) = ((0 : Nat) : Int) :=
      GetAvailableServerIndex_first _ hlen 0 srv (by simp [popEvent, hsrv]) hst
        (fun i hi => absurd hi (Nat.not_lt_zero i))
    obtain ⟨e1, _, e3, e4, e5, _, _, e8⟩ := HandleArrival_idle_effect ia sv (popEvent st j e)
      hlen 0 srv (by simp [popEvent, hsrv]) hst (fun i hi => absurd hi (Nat.not_lt_zero i))
    simp only [p1, p2, p3, p4, p5, p6, p7, p8, p9, p10] at e1 e3 e4 e5 e8
    have hnot : ¬ (((0 : Nat) : Int) = -1) := by omega
    rw [hfirst] at s6
    simp only [hnot, if_false, p10] at s6
    have hmax : max (arrivalAt ia (d + 1)) (departureAt ia sv d) = arrivalAt ia (d + 1) := by
      apply max_eq_left
      rw [← htime]
      exact hdle
    have hsd := h.service_draws
    simp only [lt_irrefl, if_false] at hsd
    constructor
    · rw [s1]
      exact h.servers_n
    · rw [s2]
      exact h.customers_k
    · rw [s4, h.total]
    · omega
    · omega
    · rw [e8]
      exact h.records
    · rw [e5, List.filter_append]
      by_cases hmore : d + 1 < K
      · have h1 : st.number_of_customers > st.total_customers + 1 := hk1.2 hmore
        simp only [h1, if_true, hmore, List.filter_append]
        rw [p6] at hq1_arr
        rw [hq1_arr, h.arrival_draws hc, htime]
        simp [arrivalAt]
      · have h1 : ¬ st.number_of_customers > st.total_customers + 1 := fun hh => hmore (hk1.1 hh)
        simp only [h1, if_false, hmore]
        rw [p6] at hq1_arr
        rw [hq1_arr]
        simp
    · rw [e5, List.filter_append]
      have hlt : d < d + 1 := Nat.lt_succ_self d
      simp only [hlt, if_true]
      have hold : st.event_queue.filter (fun e => e.type = EventType.DEPARTURE) = [] := by
        rw [hdep]
        simp
      rw [p6] at hq1_dep
      by_cases hmore : st.number_of_customers > st.total_customers + 1
      · simp only [hmore, if_true, List.filter_append, hq1_dep, hold]
        simp [hsd, htime, departureAt, hmax]
      · simp only [hmore, if_false, hq1_dep, hold]
        simp [hsd, htime, departureAt, hmax]
    · rw [e4, h.queue]
      simp [fifoWaiting]
    · refine ⟨_, list_eq_singleton _ _ (by rw [e3, hsrv]; rfl) e1, ?_, ?_⟩
      · intro _
        simp only [fifoServing, serviceStartAt, hmax, h.total, htime]
        rfl
      · intro hh
        omega
    · rw [s6, hsd]
      simp
    · intro hmore
      rw [s5]
      have h1 : st.number_of_customers > st.total_customers + 1 := hk1.2 hmore
      simp only [h1, if_true]
      rw [h.arrival_draws hc]
    · rw [s3]
      exact hdle
    · rw [s3, htime]
  · -- the server is Busy
    have hsrvb := hbusy hdc
    have hall : ∀ x ∈ (popEvent st j e).servers, x.status = ServerStatus.BUSY := by
      intro x hx
      simp only [popEvent, hsrv, List.mem_singleton] at hx
      rw [hx, hsrvb]
    have hnone : GetAvailableServerIndex (popEvent st j e) = -1 :=
      GetAvailableServerIndex_all_busy _ hlen hall
    obtain ⟨b1, b2, _, _, b5, b6, _, _, _, _, b11⟩ := HandleArrival_busy_effect ia sv
      (popEvent st j e) hlen (by simp [popEvent, h.queue, h.servers_n])
      (by simp [popEvent, h.servers_n]) hall
    have hsmall : GetSmallestQueue (popEvent st j e) = 0 := by
      have : (popEvent st j e).service_queues.length = 1 := by simp [popEvent, h.queue]
      omega
    rw [hsmall] at b2
    simp only [p1, p2, p3, p4, p5, p6, p7, p8, p9, p10] at b2 b5 b6 b11
    rw [hnone] at s6
    simp only [if_true, p10] at s6
    have hsd := h.service_draws
    simp only [hdc, if_true] at hsd
    constructor
    · rw [s1]
      exact h.servers_n
    · rw [s2]
      exact h.customers_k
    · rw [s4, h.total]
    · omega
    · omega
    · rw [b11]
      exact h.records
    · rw [b6]
      by_cases hmore : c + 1 < K
      · have h1 : st.number_of_customers > st.total_customers + 1 := hk1.2 hmore
        simp only [h1, if_true, hmore, List.filter_append]
        rw [p6] at hq1_arr
        rw [hq1_arr, h.arrival_draws hc, htime]
        simp [arrivalAt]
      · have h1 : ¬ st.number_of_customers > st.total_customers + 1 := fun hh => hmore (hk1.1 hh)
        simp only [h1, if_false, hmore]
        rw [p6] at hq1_arr
        rw [hq1_arr]
    · rw [b6]
      have hlt : d < c + 1 := by omega
      simp only [hlt, if_true]
      rw [p6] at hq1_dep
      simp only [hdc, if_true] at hdep
      by_cases hmore : st.number_of_customers > st.total_customers + 1
      · simp only [hmore, if_true, List.filter_append, hq1_dep, hdep]
        simp
      · simp only [hmore, if_false, hq1_dep, hdep]
    · rw [b2, h.queue, fifoWaiting_snoc ia c d hdc, h.total, htime]
      rfl
    · refine ⟨srv, by rw [b5, hsrv], ?_, ?_⟩
      · intro _
        exact hsrvb
      · intro hh
        omega
    · rw [s6, hsd]
      have hlt : d < c + 1 := by omega
      simp [hlt]
    · intro hmore
      rw [s5]
      have h1 : st.number_of_customers > st.total_customers + 1 := hk1.2 hmore
      simp only [h1, if_true]
      rw [h.arrival_draws hc]
    · rw [s3]
      exact hdle
    · rw [s3, htime]

theorem noteDeparture_fields (s : Simulation T) (i : Nat) (e : Event T) :
    (noteDeparture (popEvent s i e)).number_of_servers = s.number_of_servers ∧
    (noteDeparture (popEvent s i e)).number_of_customers = s.number_of_customers ∧
    (noteDeparture (popEvent s i e)).clock = e.invoke_time ∧
    (noteDeparture (popEvent s i e)).servers = s.servers ∧
    (noteDeparture (popEvent s i e)).service_queues = s.service_queues ∧
    (noteDeparture (popEvent s i e)).event_queue = s.event_queue.eraseIdx i ∧
    (noteDeparture (popEvent s i e)).simulation_log = s.simulation_log ∧
    (noteDeparture (popEvent s i e)).total_customers = s.total_customers ∧
    (noteDeparture (popEvent s i e)).inter_arrival_draws = s.inter_arrival_draws ∧
    (noteDeparture (popEvent s i e)).service_draws = s.service_draws :=
  ⟨rfl, rfl, rfl, rfl, rfl, rfl, rfl, rfl, rfl, rfl⟩

theorem HandleDeparture_servers_length (sv : Nat → T) (s : Simulation T) (t : Nat) :
    (HandleDeparture sv s t).servers.length = s.servers.length := by
  unfold HandleDeparture
  simp only []
  apply foldl_preserves (fun a : Simulation T => a.servers.length = s.servers.length)
  · intro a b ha
    rcases refill_cases sv t a b with ⟨heq, _⟩ | ⟨front, rest, _, heq⟩
    · rw [heq]
      exact ha
    · rw [heq]
      simpa using ha
  · simp [CreateDepartureLog, freeServer, Simulation.logEvent]

end

section

variable {T : Type} [LinearOrderedCommRing T]

/-- Dispatching the pending Departure event of the single-server engine. -/
theorem FifoInv_departure (ia sv : Nat → T) (hia : ∀ m, 0 ≤ ia m) (K c d : Nat)
    (st : Simulation T) (j : Nat) (e : Event T) (hj : st.event_queue[j]? = some e)
    (he : e.type = EventType.DEPARTURE) (hle : st.clock ≤ e.invoke_time)
    (h : FifoInv ia sv K c d st) :
    d < c ∧ e.invoke_time = departureAt ia sv (d + 1) ∧
      FifoInv ia sv K c (d + 1)
        (HandleDeparture sv (noteDeparture (popEvent st j e)) e.target_server) := by
  have hmem : e ∈ st.event_queue.filter (fun e => e.type = EventType.DEPARTURE) :=
    List.mem_filter.mpr ⟨List.getElem?_mem hj, by simp [he]⟩
  have harr := h.arrivals
  have hdep := h.departures
  by_cases hdc : d < c
  swap
  · rw [hdep] at hmem
    simp [hdc] at hmem
  simp only [hdc, if_true] at hdep
  rw [hdep, List.mem_singleton] at hmem
  have htime : e.invoke_time = departureAt ia sv (d + 1) := by rw [hmem]
  have htarget : e.target_server = 0 := by rw [hmem]
  refine ⟨hdc, htime, ?_⟩
  rw [htarget]
  obtain ⟨srv, hsrv, hbusy, _⟩ := h.server
  have hsrvb := hbusy hdc
  obtain ⟨p1, p2, p3, p4, p5, p6, p7, p8, p9, p10⟩ := noteDeparture_fields st j e
  have hq1_dep : (st.event_queue.eraseIdx j).filter
      (fun e => e.type = EventType.DEPARTURE) = [] :=
    filter_eraseIdx_single _ st.event_queue j e _ hj (by simp [he]) hdep
  have hq1_arr : (st.event_queue.eraseIdx j).filter
      (fun e => e.type = EventType.ARRIVAL) =
        st.event_queue.filter (fun e => e.type = EventType.ARRIVAL) :=
    filter_eraseIdx_of_not _ st.event_queue j e hj (by simp [he])
  have ht : 0 < (noteDeparture (popEvent st j e)).servers.length := by
    rw [p4, hsrv]
    exact Nat.zero_lt_one
  obtain ⟨s1, s2, s3, s4, s5, s6⟩ :=
    HandleDeparture_scalars sv (noteDeparture (popEvent st j e)) 0 ht
  have hslen := HandleDeparture_servers_length sv (noteDeparture (popEvent st j e)) 0
  obtain ⟨e1, e2, _, _, _, _, _, _, e9, e10⟩ :=
    HandleDeparture_effect sv (noteDeparture (popEvent st j e)) 0 ht
  have hfr := fifoWaiting_head ia c d
  simp only [p1, p2, p3, p4, p5, p6, p7, p8, p9, p10, h.queue] at s1 s2 s3 s4 s5 s6
  simp only [p1, p2, p3, p4, p5, p6, p7, p8, p9, p10, h.queue] at e1 e2 e9 e10 hslen
  have hcl : st.clock ≤ departureAt ia sv (d + 1) := by
    rw [← htime]
    exact hle
  have hsd := h.service_draws
  simp only [hdc, if_true] at hsd
  have hcc : (st.servers.getD 0 default).current_customer = fifoServing ia sv d := by
    rw [hsrv, hsrvb]
    rfl
  constructor
  · rw [s1]
    exact h.servers_n
  · rw [s2]
    exact h.customers_k
  · rw [s5]
    exact h.total
  · omega
  · exact h.created_le
  · rw [e10, h.records, fifoRecords_succ, hcc, htime]
    rfl
  · rw [e2, List.filter_append, hq1_arr, harr]
    have hnone : (refillEvents sv (noteDeparture (popEvent st j e)) 0
        (fronts [fifoWaiting ia c d]).length).filter
          (fun e => e.type = EventType.ARRIVAL) = [] := by
      rw [List.filter_eq_nil_iff]
      intro x hx
      have := ((refillEvents_departures sv _ 0 _).2.2 x hx).1
      simp [this]
    rw [hnone, List.append_nil]
  · rw [e2, List.filter_append, hq1_dep, List.nil_append, hfr]
    by_cases hmore : d + 1 < c
    · have harrle : arrivalAt ia (d + 2) ≤ departureAt ia sv (d + 1) :=
        le_trans (arrivalAt_mono ia hia (d + 2) c (by omega)) (le_trans h.arrived_time hcl)
      have hd2 : departureAt ia sv (d + 1 + 1) =
          departureAt ia sv (d + 1) + sv (d + 1) := by
        show max (arrivalAt ia (d + 2)) (departureAt ia sv (d + 1)) + sv (d + 1) = _
        rw [max_eq_right harrle]
      simp only [hmore, if_true, List.length_singleton]
      rw [hd2]
      simp [refillEvents, p3, p10, hsd, htime, List.range_succ]
    · simp only [hmore, if_false, List.length_nil]
      simp [refillEvents]
  · rw [e1]
    simp [fifoWaiting_tail]
  · by_cases hmore : d + 1 < c
    · have harrle : arrivalAt ia (d + 2) ≤ departureAt ia sv (d + 1) :=
        le_trans (arrivalAt_mono ia hia (d + 2) c (by omega)) (le_trans h.arrived_time hcl)
      rw [hfr] at e9
      simp only [hmore, if_true, List.getLast?_singleton] at e9
      refine ⟨_, list_eq_singleton _ _ (by rw [hslen, hsrv]; rfl) e9, ?_, ?_⟩
      · intro _
        simp only [Customer.assign, Customer.create, fifoServing, serviceStartAt, htime,
          max_eq_right harrle]
        rfl
      · intro hh
        omega
    · rw [hfr] at e9
      simp only [hmore, if_false, List.getLast?_nil, hsrv, List.getElem?_cons_zero,
        Option.map_some'] at e9
      refine ⟨_, list_eq_singleton _ _ (by rw [hslen, hsrv]; rfl) e9, ?_, ?_⟩
      · intro hh
        omega
      · intro _
        rfl
  · rw [s6, hsd, hfr]
    by_cases hmore : d + 1 < c
    · simp [hmore]
    · simp [hmore]
  · intro hcK
    rw [s3]
    exact h.arrival_draws hcK
  · rw [s4, htime]
  · rw [s4, htime]
    exact le_trans h.arrived_time hcl

/-- Along a min-first run of the single-server engine with non-negative samples
the state stays the one of the recursion. -/
theorem FifoInv_run (ia sv : Nat → T) (hia : ∀ m, 0 ≤ ia m) (hsv : ∀ m, 0 ≤ sv m) (K : Nat) :
    ∀ (picks : List Nat) (st : Simulation T) (c d : Nat), FifoInv ia sv K c d st →
      TimeInv st → MinFirst ia sv st picks →
      ∀ st1, runPicks ia sv st picks = some st1 → ∃ c1 d1, FifoInv ia sv K c1 d1 st1 := by
  intro picks
  induction picks with
  | nil =>
    intro st c d h _ _ st1 hr
    simp only [runPicks, Option.some.injEq] at hr
    rw [← hr]
    exact ⟨c, d, h⟩
  | cons i picks ih =>
    intro st c d h ht hmf st1 hr
    simp only [MinFirst, minFirst, Bool.and_eq_true] at hmf
    obtain ⟨e, hi, hmin⟩ := minPick_spec st i hmf.1
    have hd : dispatch ia sv st i = some (dispatchEvent ia sv st i e) := by
      simp [dispatch, hi]
    have hmf2 := hmf.2
    simp only [hd] at hmf2
    simp only [runPicks, hd] at hr
    have ht1 := TimeInv_dispatchEvent ia sv hia hsv st i e hi hmin ht
    have hle : st.clock ≤ e.invoke_time := ht.future e (List.getElem?_mem hi)
    cases he : e.type with
    | ARRIVAL =>
      have hstep := (FifoInv_arrival ia sv K c d st i e hi he hle h).2.2
      have heq : dispatchEvent ia sv st i e = HandleArrival ia sv (popEvent st i e) := by
        simp [dispatchEvent, he]
      rw [heq] at ht1 hmf2 hr
      exact ih _ (c + 1) d hstep ht1 hmf2 st1 hr
    | DEPARTURE =>
      have hstep := (FifoInv_departure ia sv hia K c d st i e hi he hle h).2.2
      have heq : dispatchEvent ia sv st i e =
          HandleDeparture sv (noteDeparture (popEvent st i e)) e.target_server := by
        simp [dispatchEvent, he]
      rw [heq] at ht1 hmf2 hr
      exact ih _ c (d + 1) hstep ht1 hmf2 st1 hr

/-- When the event queue of the single-server engine is empty, every customer
has been created and has left. -/
theorem FifoInv_final (ia sv : Nat → T) (K c d : Nat) (st : Simulation T)
    (h : FifoInv ia sv K c d st) (hempty : st.event_queue = []) : c = K ∧ d = K := by
  have ha := h.arrivals
  have hd := h.departures
  rw [hempty] at ha hd
  have hc : ¬ c < K := by
    intro hc
    simp [hc] at ha
  have hdc : ¬ d < c := by
    intro hdc
    simp [hdc] at hd
  have := h.created_le
  have := h.departed_le
  omega

/-- C19: Single-server FIFO recursion. With one server, a target `K` of at least
1, non-negative samples and a min-first event queue with any tie-break, a run
that empties the event queue has persisted exactly one customer record per
customer, in arrival order, and the record of customer `i + 1` has serial
`i + 1`, arrival time the sum of the first `i + 1` inter-arrival samples, service
start time the later of that arrival time and the departure time of customer
`i` (0 for the first customer), departure time the service start time plus the
service sample number `i + 1`, and server 0. -/
theorem single_server_fifo (ia sv : Nat → T) (K : Nat) (hK : 1 ≤ K)
    (hia : ∀ m, 0 ≤ ia m) (hsv : ∀ m, 0 ≤ sv m) (picks : List Nat) (st : Simulation T)
    (hmf : MinFirst ia sv (start ia 1 K) picks)
    (hr : runPicks ia sv (start ia 1 K) picks = some st) (hempty : st.event_queue = []) :
    st.simulation_log.customer_records.length = K ∧
    st.simulation_log.customer_records = (List.range K).map (fifoRecord ia sv) ∧
    departureAt ia sv 0 = 0 ∧
    ∀ i, i < K →
      arrivalAt ia (i + 1) = ((List.range (i + 1)).map ia).sum ∧
      departureAt ia sv (i + 1) =
        max (arrivalAt ia (i + 1)) (departureAt ia sv i) + sv i ∧
      st.simulation_log.customer_records[i]? = some
        { serial := i + 1, arrival_time := arrivalAt ia (i + 1),
          service_start_time := some (max (arrivalAt ia (i + 1)) (departureAt ia sv i)),
          departure_time := some (departureAt ia sv (i + 1)), server := 0 } := by
  obtain ⟨c, d, h⟩ := FifoInv_run ia sv hia hsv K picks _ 0 0 (FifoInv_start ia sv K hK)
    (TimeInv_start ia hia 1 K) hmf st hr
  obtain ⟨hc, hd⟩ := FifoInv_final ia sv K c d st h hempty
  have hrec := h.records
  rw [hd] at hrec
  refine ⟨?_, hrec, rfl, ?_⟩
  · rw [hrec]
    simp [fifoRecords]
  · intro i hi
    refine ⟨arrivalAt_eq_sum ia (i + 1), rfl, ?_⟩
    rw [hrec, fifoRecords, List.getElem?_map, List.getElem?_range hi]
    rfl

/-- Witness for C19: one server, target 3, inter-arrival samples 1 and service
samples 10, 20, 1: the customers are served from 1 to 11, from 11 to 31 and from
31 to 32. -/
theorem single_server_fifo_witness :
    ((runPicks unitSamples stormService (start unitSamples 1 3) fifoPicks).getD
        (start unitSamples 1 3)).simulation_log.customer_records =
      [{ serial := 1, arrival_time := 1, service_start_time := some 1,
         departure_time := some 11, server := 0 },
       { serial := 2, arrival_time := 2, service_start_time := some 11,
         departure_time := some 31, server := 0 },
       { serial := 3, arrival_time := 3, service_start_time := some 31,
         departure_time := some 32, server := 0 }] ∧
      ((runPicks unitSamples stormService (start unitSamples 1 3) fifoPicks).getD
        (start unitSamples 1 3)).simulation_log.customer_records =
          (List.range 3).map (fifoRecord unitSamples stormService) :=
  ⟨by decide,
    (single_server_fifo unitSamples stormService 3 (by decide) unitSamples_nonneg
      stormService_nonneg fifoPicks _ (by decide)
      (eq_some_getD _ (start unitSamples 1 3) (by decide)) (by decide)).2.1⟩

end

section

variable {T : Type} [LinearOrder T] [Add T] [Zero T]

/-! ## `Run` is a min-first run -/

theorem topIndex.scan_min :
    ∀ (rest pre : List (Event T)) (best : Event T) (bestIdx : Nat),
      (pre ++ rest)[bestIdx]? = some best →
      (∀ x ∈ pre, best.invoke_time ≤ x.invoke_time) →
      ∃ e, (pre ++ rest)[topIndex.scan rest pre.length best bestIdx]? = some e ∧
        ∀ x ∈ pre ++ rest, e.invoke_time ≤ x.invoke_time := by
  intro rest
  induction rest with
  | nil =>
    intro pre best bestIdx hb hmin
    refine ⟨best, ?_, ?_⟩
    · simpa [topIndex.scan] using hb
    · intro x hx
      rw [List.append_nil] at hx
      exact hmin x hx
  | cons y rest ih =>
    intro pre best bestIdx hb hmin
    have hassoc : pre ++ y :: rest = (pre ++ [y]) ++ rest := by simp
    have hlen : (pre ++ [y]).length = pre.length + 1 := by simp
    unfold topIndex.scan
    split_ifs with hlt
    · have := ih (pre ++ [y]) y pre.length
        (by
          rw [← hassoc]
          rw [List.getElem?_append_right (le_refl _)]
          simp)
        (by
          intro x hx
          rcases List.mem_append.mp hx with h | h
          · exact le_trans (le_of_lt hlt) (hmin x h)
          · rw [List.mem_singleton.mp h])
      rw [hlen, ← hassoc] at this
      exact this
    · have := ih (pre ++ [y]) best bestIdx
        (by
          rw [← hassoc]
          exact hb)
        (by
          intro x hx
          rcases List.mem_append.mp hx with h | h
          · exact hmin x h
          · rw [List.mem_singleton.mp h]
            exact not_lt.mp hlt)
      rw [hlen, ← hassoc] at this
      exact this

/-- The event that the deterministic `top()` returns has the least
`invoke_time`. -/
theorem topIndex_minPick (s : Simulation T) (h : s.event_queue ≠ []) :
    minPick s (topIndex s.event_queue) = true := by
  unfold minPick
  cases hq : s.event_queue with
  | nil => exact absurd hq h
  | cons e rest =>
    obtain ⟨e1, h1, h2⟩ := topIndex.scan_min rest [e] e 0 (by simp)
      (by
        intro x hx
        rw [List.mem_singleton.mp hx])
    simp only [List.singleton_append, List.length_singleton] at h1 h2
    simp only [topIndex, h1, List.all_eq_true, decide_eq_true_eq]
    exact h2

/-- What `Run` returns is the result of a min-first run. -/
theorem Run_minFirst (ia sv : Nat → T) :
    ∀ (fuel : Nat) (s s1 : Simulation T), Run ia sv fuel s = some s1 →
      ∃ picks, MinFirst ia sv s picks ∧ runPicks ia sv s picks = some s1 := by
  intro fuel
  induction fuel with
  | zero =>
    intro s s1 h
    unfold Run at h
    by_cases hq : s.event_queue = []
    · simp only [hq, if_true, Option.some.injEq] at h
      exact ⟨[], rfl, by rw [← h]; rfl⟩
    · simp [hq] at h
  | succ fuel ih =>
    intro s s1 h
    rw [Run] at h
    by_cases hq : s.event_queue = []
    · simp only [hq, if_true, Option.some.injEq] at h
      exact ⟨[], rfl, by rw [← h]; rfl⟩
    · simp only [hq, if_false] at h
      cases hd : dispatch ia sv s (topIndex s.event_queue) with
      | none => simp [hd] at h
      | some s2 =>
        simp only [hd] at h
        obtain ⟨picks, hmf, hr⟩ := ih s2 s1 h
        refine ⟨topIndex s.event_queue :: picks, ?_, ?_⟩
        · simp only [MinFirst, minFirst, Bool.and_eq_true, hd]
          exact ⟨topIndex_minPick s hq, hmf⟩
        · simp only [runPicks, hd]
          exact hr

/-! ## Scenario A: constant samples with no queueing -/

theorem scenarioATrace_succ (a s : T) (d : Nat) :
    scenarioATrace a s (d + 1) = scenarioATrace a s d ++ scenarioARecords a s d := by
  simp [scenarioATrace, List.range_succ]

theorem scenarioATrace_length (a s : T) (K : Nat) : (scenarioATrace a s K).length = 3 * K := by
  induction K with
  | zero => rfl
  | succ K ih =>
    rw [scenarioATrace_succ, List.length_append, ih]
    simp only [scenarioARecords, List.length_cons, List.length_nil]
    omega

theorem scenarioATrace_snapshot (a s : T) (K : Nat) :
    ∀ r ∈ scenarioATrace a s K, r.current_queue_size = [0] := by
  induction K with
  | zero =>
    intro r hr
    simp [scenarioATrace] at hr
  | succ K ih =>
    intro r hr
    rw [scenarioATrace_succ, List.mem_append] at hr
    rcases hr with hr | hr
    · exact ih r hr
    · simp only [scenarioARecords, List.mem_cons, List.mem_singleton, List.mem_nil_iff,
        or_false] at hr
      rcases hr with hr | hr | hr <;> rw [hr]

theorem ScenarioAInv_start (a s : T) (K : Nat) (hK : 1 ≤ K) :
    ScenarioAInv a s K 0 0 (start (fun _ => a) 1 K) := by
  constructor
  · rfl
  · rfl
  · rfl
  · exact le_refl 0
  · omega
  · omega
  · have h0 : 0 < K := by omega
    simp [start, Initialize, Simulation.new, Simulation.pushEvent, h0, arrivalAt]
  · simp [start, Initialize, Simulation.new, Simulation.pushEvent]
  · rfl
  · exact ⟨Server.new, rfl, fun h => absurd h (lt_irrefl 0), fun _ => rfl⟩
  · rfl
  · rfl

/-- Dispatching the pending Arrival event in Scenario A: the server is idle, for
the pending Departure event would be strictly earlier. -/
theorem ScenarioAInv_arrival (a s : T) (K c d : Nat)
    (hsep : ∀ i, i < K - 1 →
      arrivalAt (fun _ => a) (i + 1) + s < arrivalAt (fun _ => a) (i + 2))
    (st : Simulation T) (j : Nat) (e : Event T) (hj : st.event_queue[j]? = some e)
    (he : e.type = EventType.ARRIVAL)
    (hmin : ∀ e1 ∈ st.event_queue, e.invoke_time ≤ e1.invoke_time)
    (h : ScenarioAInv a s K c d st) :
    ScenarioAInv a s K (c + 1) d
      (HandleArrival (fun _ => a) (fun _ => s) (popEvent st j e)) := by
  have hmem : e ∈ st.event_queue.filter (fun e => e.type = EventType.ARRIVAL) :=
    List.mem_filter.mpr ⟨List.getElem?_mem hj, by simp [he]⟩
  have harr := h.arrivals
  have hdep := h.departures
  by_cases hc : c < K
  swap
  · rw [harr] at hmem
    simp [hc] at hmem
  simp only [hc, if_true] at harr
  rw [harr, List.mem_singleton] at hmem
  have htime : e.invoke_time = arrivalAt (fun _ => a) (c + 1) := by rw [hmem]
  have hcd : c = d := by
    by_contra hne
    have hdc : d < c := lt_of_le_of_ne h.departed_le (fun hh => hne hh.symm)
    simp only [hdc, if_true] at hdep
    have hin : (⟨EventType.DEPARTURE, arrivalAt (fun _ => a) (d + 1) + s, 0⟩ : Event T) ∈
        st.event_queue := by
      have : (⟨EventType.DEPARTURE, arrivalAt (fun _ => a) (d + 1) + s, 0⟩ : Event T) ∈
          st.event_queue.filter (fun e => e.type = EventType.DEPARTURE) := by
        rw [hdep]
        exact List.mem_singleton.mpr rfl
      exact (List.mem_filter.mp this).1
    have hle := hmin _ hin
    simp only [] at hle
    have hc1 : c = d + 1 := by
      have := h.close
      omega
    rw [htime, hc1] at hle
    exact absurd hle (not_le.mpr (hsep d (by omega)))
  subst hcd
  obtain ⟨srv, hsrv, _, hidle⟩ := h.server
  have hst := hidle rfl
  obtain ⟨p1, p2, p3, p4, p5, p6, p7, p8, p9, p10⟩ := popEvent_fields st j e
  have hq1_arr : (st.event_queue.eraseIdx j).filter
      (fun e => e.type = EventType.ARRIVAL) = [] :=
    filter_eraseIdx_single _ st.event_queue j e _ hj (by simp [he]) harr
  have hq1_dep : (st.event_queue.eraseIdx j).filter
      (fun e => e.type = EventType.DEPARTURE) =
        st.event_queue.filter (fun e => e.type = EventType.DEPARTURE) :=
    filter_eraseIdx_of_not _ st.event_queue j e hj (by simp [he])
  have hold : st.event_queue.filter (fun e => e.type = EventType.DEPARTURE) = [] := by
    rw [hdep]
    simp
  have hlen : (popEvent st j e).servers.length = (popEvent st j e).number_of_servers := by
    rw [p4, p1, hsrv, h.servers_n]
    rfl
  have h0 : (popEvent st j e).servers[0]? = some srv := by
    rw [p4, hsrv]
    rfl
  obtain ⟨s1, s2, s3, s4, s5, s6⟩ :=
    HandleArrival_scalars (fun _ => a) (fun _ => s) (popEvent st j e)
  simp only [p1, p2, p3, p8] at s1 s2 s3 s4
  obtain ⟨e1, _, e3, e4, e5, _, e7, e8⟩ :=
    HandleArrival_idle_effect (fun _ => a) (fun _ => s) (popEvent st j e) hlen 0 srv h0 hst
      (fun i hi => absurd hi (Nat.not_lt_zero i))
  simp only [p1, p2, p3, p4, p5, p6, p7, p8] at e1 e3 e4 e5 e7 e8
  have hk1 : (st.number_of_customers > st.total_customers + 1) ↔ c + 1 < K := by
    rw [h.customers_k, h.total]
  constructor
  · rw [s1]
    exact h.servers_n
  · rw [s2]
    exact h.customers_k
  · rw [s4, h.total]
  · omega
  · omega
  · omega
  · rw [e5, List.filter_append]
    by_cases hmore : c + 1 < K
    · have h1 : st.number_of_customers > st.total_customers + 1 := hk1.2 hmore
      simp only [h1, if_true, hmore, List.filter_append, hq1_arr, htime]
      simp [arrivalAt]
    · have h1 : ¬ st.number_of_customers > st.total_customers + 1 := fun hh => hmore (hk1.1 hh)
      simp only [h1, if_false, hmore, hq1_arr]
      simp
  · rw [e5, List.filter_append]
    have hlt : c < c + 1 := Nat.lt_succ_self c
    simp only [hlt, if_true]
    by_cases hmore : st.number_of_customers > st.total_customers + 1
    · simp only [hmore, if_true, List.filter_append, hq1_dep, hold, htime]
      simp
    · simp only [hmore, if_false, hq1_dep, hold, htime]
      simp
  · rw [e4]
    exact h.queue
  · refine ⟨_, list_eq_singleton _ _ (by rw [e3, hsrv]; rfl) e1, ?_, ?_⟩
    · intro _
      simp only [scenarioAServing, h.total, htime]
      rfl
    · intro hh
      omega
  · rw [e7, h.trace, h.queue, h.total, htime]
    simp [scenarioARecords]
  · rw [e8]
    exact h.customers

/-- Dispatching the pending Departure event in Scenario A: nobody waits, so the
server falls idle. -/
theorem ScenarioAInv_departure (a s : T) (K c d : Nat)
    (st : Simulation T) (j : Nat) (e : Event T) (hj : st.event_queue[j]? = some e)
    (he : e.type = EventType.DEPARTURE) (h : ScenarioAInv a s K c d st) :
    ScenarioAInv a s K c (d + 1)
      (HandleDeparture (fun _ => s) (noteDeparture (popEvent st j e)) e.target_server) := by
  have hmem : e ∈ st.event_queue.filter (fun e => e.type = EventType.DEPARTURE) :=
    List.mem_filter.mpr ⟨List.getElem?_mem hj, by simp [he]⟩
  have harr := h.arrivals
  have hdep := h.departures
  by_cases hdc : d < c
  swap
  · rw [hdep] at hmem
    simp [hdc] at hmem
  simp only [hdc, if_true] at hdep
  rw [hdep, List.mem_singleton] at hmem
  have htime : e.invoke_time = arrivalAt (fun _ => a) (d + 1) + s := by rw [hmem]
  have htarget : e.target_server = 0 := by rw [hmem]
  have hc1 : c = d + 1 := by
    have := h.close
    omega
  rw [htarget]
  obtain ⟨srv, hsrv, hbusy, _⟩ := h.server
  have hsrvb := hbusy hdc
  obtain ⟨p1, p2, p3, p4, p5, p6, p7, p8, p9, p10⟩ := noteDeparture_fields st j e
  have hq1_dep : (st.event_queue.eraseIdx j).filter
      (fun e => e.type = EventType.DEPARTURE) = [] :=
    filter_eraseIdx_single _ st.event_queue j e _ hj (by simp [he]) hdep
  have hq1_arr : (st.event_queue.eraseIdx j).filter
      (fun e => e.type = EventType.ARRIVAL) =
        st.event_queue.filter (fun e => e.type = EventType.ARRIVAL) :=
    filter_eraseIdx_of_not _ st.event_queue j e hj (by simp [he])
  have ht : 0 < (noteDeparture (popEvent st j e)).servers.length := by
    rw [p4, hsrv]
    exact Nat.zero_lt_one
  obtain ⟨s1, s2, s3, s4, s5, s6⟩ :=
    HandleDeparture_scalars (fun _ => s) (noteDeparture (popEvent st j e)) 0 ht
  have hslen := HandleDeparture_servers_length (fun _ => s) (noteDeparture (popEvent st j e)) 0
  obtain ⟨e1, e2, _, _, _, _, ⟨svc, e7, hser, _⟩, _, e9, e10⟩ :=
    HandleDeparture_effect (fun _ => s) (noteDeparture (popEvent st j e)) 0 ht
  have hfr : fronts ([[]] : List (List (Customer T))) = [] := rfl
  simp only [p1, p2, p3, p4, p5, p6, p7, p8, h.queue, hfr] at s1 s2 s5
  simp only [p1, p2, p3, p4, p5, p6, p7, p8, h.queue, hfr] at e1 e2 e7 hser e9 e10 hslen
  have hsvc : svc = [] := by
    simpa using hser
  have hcc : (st.servers.getD 0 default).current_customer = scenarioAServing a d := by
    rw [hsrv, hsrvb]
    rfl
  have hnot : ¬ d + 1 < c := by omega
  constructor
  · rw [s1]
    exact h.servers_n
  · rw [s2]
    exact h.customers_k
  · rw [s5]
    exact h.total
  · omega
  · omega
  · exact h.created_le
  · rw [e2, List.filter_append, hq1_arr, harr]
    simp [refillEvents]
  · rw [e2, List.filter_append, hq1_dep]
    simp [refillEvents, hnot]
  · rw [e1]
    rfl
  · simp only [List.getLast?_nil, hsrv, List.getElem?_cons_zero, Option.map_some'] at e9
    refine ⟨_, list_eq_singleton _ _ (by rw [hslen, hsrv]; rfl) e9, ?_, ?_⟩
    · intro hh
      omega
    · intro _
      rfl
  · rw [e7, hsvc, h.trace, hcc, htime, scenarioATrace_succ]
    simp [hdc, hnot, scenarioARecords, scenarioAServing]
  · rw [e10, h.customers, hcc, htime, List.range_succ, List.map_append]
    rfl

/-- Every min-first run of Scenario A keeps the invariant. -/
theorem ScenarioAInv_run (a s : T) (K : Nat)
    (hsep : ∀ i, i < K - 1 →
      arrivalAt (fun _ => a) (i + 1) + s < arrivalAt (fun _ => a) (i + 2)) :
    ∀ (picks : List Nat) (st : Simulation T) (c d : Nat), ScenarioAInv a s K c d st →
      MinFirst (fun _ => a) (fun _ => s) st picks →
      ∀ st1, runPicks (fun _ => a) (fun _ => s) st picks = some st1 →
        ∃ c1 d1, ScenarioAInv a s K c1 d1 st1 := by
  intro picks
  induction picks with
  | nil =>
    intro st c d h _ st1 hr
    simp only [runPicks, Option.some.injEq] at hr
    rw [← hr]
    exact ⟨c, d, h⟩
  | cons i picks ih =>
    intro st c d h hmf st1 hr
    simp only [MinFirst, minFirst, Bool.and_eq_true] at hmf
    obtain ⟨e, hi, hmin⟩ := minPick_spec st i hmf.1
    have hd : dispatch (fun _ => a) (fun _ => s) st i =
        some (dispatchEvent (fun _ => a) (fun _ => s) st i e) := by
      simp [dispatch, hi]
    have hmf2 := hmf.2
    simp only [hd] at hmf2
    simp only [runPicks, hd] at hr
    cases he : e.type with
    | ARRIVAL =>
      have hstep := ScenarioAInv_arrival a s K c d hsep st i e hi he hmin h
      have heq : dispatchEvent (fun _ => a) (fun _ => s) st i e =
          HandleArrival (fun _ => a) (fun _ => s) (popEvent st i e) := by
        simp [dispatchEvent, he]
      rw [heq] at hmf2 hr
      exact ih _ (c + 1) d hstep hmf2 st1 hr
    | DEPARTURE =>
      have hstep := ScenarioAInv_departure a s K c d st i e hi he h
      have heq : dispatchEvent (fun _ => a) (fun _ => s) st i e =
          HandleDeparture (fun _ => s) (noteDeparture (popEvent st i e)) e.target_server := by
        simp [dispatchEvent, he]
      rw [heq] at hmf2 hr
      exact ih _ c (d + 1) hstep hmf2 st1 hr

/-- What a complete min-first run of Scenario A has written. -/
theorem ScenarioAInv_complete (a s : T) (K : Nat) (hK : 1 ≤ K)
    (hsep : ∀ i, i < K - 1 →
      arrivalAt (fun _ => a) (i + 1) + s < arrivalAt (fun _ => a) (i + 2))
    (picks : List Nat) (st : Simulation T)
    (hmf : MinFirst (fun _ => a) (fun _ => s) (start (fun _ => a) 1 K) picks)
    (hr : runPicks (fun _ => a) (fun _ => s) (start (fun _ => a) 1 K) picks = some st)
    (hempty : st.event_queue = []) :
    st.simulation_log.event_records = scenarioATrace a s K ∧
    st.simulation_log.customer_records = (List.range K).map (scenarioACustomer a s) ∧
    st.total_customers = K := by
  obtain ⟨c, d, h⟩ := ScenarioAInv_run a s K hsep picks _ 0 0 (ScenarioAInv_start a s K hK)
    hmf st hr
  have ha := h.arrivals
  have hd := h.departures
  rw [hempty] at ha hd
  have hc : ¬ c < K := by
    intro hc
    simp [hc] at ha
  have hdc : ¬ d < c := by
    intro hdc
    simp [hdc] at hd
  have h1 := h.created_le
  have h2 := h.departed_le
  have hcK : c = K := by omega
  have hdK : d = K := by omega
  have htrace := h.trace
  have hrec := h.customers
  simp only [hdc, if_false, List.append_nil] at htrace
  rw [hdK] at htrace hrec
  exact ⟨htrace, hrec, by rw [h.total, hcK]⟩

/-- C13, amended: Scenario A (no queueing) in the arithmetic of the engine. One
server, every inter-arrival sample `a`, every service sample `s`, target `K` of
at least 1; the arrival time of customer `i` is the running sum `arrivalAt` that
the engine computes (`0 + a`, then `+ a` for each further customer), in whatever
arithmetic the time has, that of `double` included. If each departure time
`arrivalAt i + s` computed for the customers `i = 1 .. K - 1` is strictly
earlier than the next arrival time `arrivalAt (i + 1)`, then `Run` returns after
`2 * K` passes, and every run of a min-first event queue that empties the event
queue has written exactly, for each customer `i` from 1 to `K` in turn, an
Arrival record at `arrivalAt i` with server index `-1`, a Service record at
`arrivalAt i` with server index 0 and a Departure record at `arrivalAt i + s`
with server index 0, every one with the snapshot `[0]`; exactly `K` Arrival
events have been dispatched and none is pending, and there are exactly `K`
customer records. -/
theorem scenarioA_trace (a s : T) (K : Nat) (hK : 1 ≤ K)
    (hsep : ∀ i, i < K - 1 →
      arrivalAt (fun _ => a) (i + 1) + s < arrivalAt (fun _ => a) (i + 2)) :
    (∃ st, Run (fun _ => a) (fun _ => s) (2 * K) (start (fun _ => a) 1 K) = some st ∧
      st.event_queue = [] ∧ st.simulation_log.event_records = scenarioATrace a s K) ∧
    ∀ picks st, MinFirst (fun _ => a) (fun _ => s) (start (fun _ => a) 1 K) picks →
      runPicks (fun _ => a) (fun _ => s) (start (fun _ => a) 1 K) picks = some st →
      st.event_queue = [] →
      st.simulation_log.event_records = scenarioATrace a s K ∧
      st.simulation_log.event_records.length = 3 * K ∧
      (∀ r ∈ st.simulation_log.event_records, r.current_queue_size = [0]) ∧
      (dispatchedEvents (fun _ => a) (fun _ => s) (start (fun _ => a) 1 K) picks).countP
        (fun e => e.type = EventType.ARRIVAL) = K ∧
      st.total_customers = K ∧
      st.simulation_log.customer_records.length = K ∧
      st.simulation_log.customer_records = (List.range K).map (scenarioACustomer a s) := by
  constructor
  · obtain ⟨st, h1, h2, _⟩ := Run_returns (fun _ => a) (fun _ => s) 1 K (le_refl 1) (2 * K)
      (start (fun _ => a) 1 K) Reachable.init
      (by rw [passesLeft_start, max_eq_left hK])
    obtain ⟨picks, hmf, hr⟩ := Run_minFirst (fun _ => a) (fun _ => s) (2 * K) _ st h1
    exact ⟨st, h1, h2, (ScenarioAInv_complete a s K hK hsep picks st hmf hr h2).1⟩
  · intro picks st hmf hr hempty
    obtain ⟨h1, h2, h3⟩ := ScenarioAInv_complete a s K hK hsep picks st hmf hr hempty
    have hcount := (dispatchedEvents_counters (fun _ => a) (fun _ => s) picks _ st hr).1
    refine ⟨h1, ?_, ?_, ?_, h3, ?_, h2⟩
    · rw [h1, scenarioATrace_length]
    · rw [h1]
      exact scenarioATrace_snapshot a s K
    · rw [h3] at hcount
      simpa [start, Initialize, Simulation.new, Simulation.pushEvent] using hcount
    · rw [h2]
      simp

/-- Witness for C13: the `double`s `a = 1.0` and `s = 0.5`, `K = 3`. The sums are
exact, each departure is due before the next arrival, and the trace is Arrival
and Service at 1, Departure at 1.5, Arrival and Service at 2, Departure at 2.5,
Arrival and Service at 3, Departure at 3.5. -/
theorem scenarioA_trace_witness :
    (∀ i, i < 3 - 1 →
      arrivalAt (fun _ => Binary64.one) (i + 1) + Binary64.half <
        arrivalAt (fun _ => Binary64.one) (i + 2)) ∧
    scenarioATrace Binary64.one Binary64.half 3 = scenarioAWitnessTrace ∧
    ∃ st, Run (fun _ => Binary64.one) (fun _ => Binary64.half) (2 * 3)
        (start (fun _ => Binary64.one) 1 3) = some st ∧
      st.event_queue = [] ∧
      st.simulation_log.event_records = scenarioATrace Binary64.one Binary64.half 3 :=
  ⟨by decide!, by decide!,
    (scenarioA_trace Binary64.one Binary64.half 3 (by decide) (by decide!)).1⟩

/-- C13, the claim as stated fails for the `double`s of the source: with
`a = 1.0` and `s = 1 - 2 ^ (-53)`, the largest `double` below 1.0, so that
`0 ≤ s < a`, and target 2, the sum `1.0 + s` is rounded to 2.0, the time of the
Arrival of customer 2. In the run that pops the events in the order they were
pushed, which is min-first and the one `Run` takes, customer 2 arrives before
customer 1 has left: the third record is an Arrival with snapshot `[1]`, where
the claim has the Departure of customer 1 and only snapshots `[0]`. -/
theorem scenarioA_rounding :
    (0 : Binary64) < Binary64.one ∧ (0 : Binary64) ≤ Binary64.belowOne ∧
    Binary64.belowOne < Binary64.one ∧
    Binary64.one + Binary64.belowOne = Binary64.one + Binary64.one ∧
    MinFirst (fun _ => Binary64.one) (fun _ => Binary64.belowOne)
      (start (fun _ => Binary64.one) 1 2) [0, 0, 0, 0] ∧
    (runPicks (fun _ => Binary64.one) (fun _ => Binary64.belowOne)
      (start (fun _ => Binary64.one) 1 2) [0, 0, 0, 0]).map
        (fun st => (st.event_queue, st.simulation_log.event_records)) =
      some ([], roundingTrace) ∧
    (Run (fun _ => Binary64.one) (fun _ => Binary64.belowOne) (2 * 2)
      (start (fun _ => Binary64.one) 1 2)).map
        (fun st => (st.event_queue, st.simulation_log.event_records)) =
      some ([], roundingTrace) ∧
    roundingTrace[2]? = some
      { event_type := "Arrival", current_simulation_time := Binary64.ofScaled 2 0,
        customer_serial := 2, current_queue_size := [1], server_index := -1 } := by
  decide!

/-- The model of `double` addition on three sums known from the source's
arithmetic: `0.1 + 0.2` is `0.30000000000000004`, not the `double` nearest to
0.3; ten additions of 0.1 starting from 0 give `0.9999999999999999`, the largest
`double` below 1.0; and `1.0 + 0.5` is exactly 1.5. -/
theorem Binary64_sums :
    Binary64.ofScaled 3602879701896397 55 + Binary64.ofScaled 3602879701896397 54 =
      Binary64.ofScaled 1351079888211149 52 ∧
    Binary64.ofScaled 1351079888211149 52 ≠ Binary64.ofScaled 5404319552844595 54 ∧
    arrivalAt (fun _ => Binary64.ofScaled 3602879701896397 55) 10 = Binary64.belowOne ∧
    Binary64.one + Binary64.half = Binary64.ofScaled 3 1 := by
  decide!

end

section

variable {T : Type} [LinearOrderedCommRing T]

/-- In exact arithmetic the running sum of `i` samples `a` is `i * a`. -/
theorem arrivalAt_const (a : T) : ∀ i, arrivalAt (fun _ => a) i = (i : T) * a := by
  intro i
  induction i with
  | zero => simp [arrivalAt]
  | succ i ih =>
    simp only [arrivalAt, ih]
    push_cast
    ring

/-- In exact arithmetic `s < a` is enough for every departure of Scenario A to be
due strictly before the next arrival. -/
theorem scenarioA_exact_separation (a s : T) (hsa : s < a) :
    ∀ i, arrivalAt (fun _ => a) (i + 1) + s < arrivalAt (fun _ => a) (i + 2) := by
  intro i
  show arrivalAt (fun _ => a) (i + 1) + s < arrivalAt (fun _ => a) (i + 1) + a
  exact add_lt_add_left hsa _

end

end QS
